import Mathlib

/-!
# Analog input sampling and analog endstop detection (`src/adccmds.c`)

A shallow embedding of the firmware file `src/adccmds.c`:

* the moving-average filter (`moving_average_init`, `moving_average_add_value`),
* the analog-input sampler (`analog_in_event`, `command_query_analog_in`,
  `analog_in_task`, `analog_in_shutdown`),
* the analog endstop (`analog_endstop_event`, `analog_endstop_oversample_event`,
  `command_analog_endstop_home`).

Machine integers are natural numbers reduced modulo `2^8`, `2^16` or `2^32` at
every place where the C code stores into a field of that width; the two `int`
fields of the filter are integers.  Calls into the rest of the firmware
(scheduler, ADC driver, trigger-sync, host channel, shutdown) are recorded, in
program order, as a list of `Event`s returned next to the new state.
-/

namespace Adccmds

/-! ## Constants and shared types -/

/-- Value of the C constant `BUFFER_SIZE`: the capacity of the filter's ring. -/
def BUFFER_SIZE : Nat := 128

/-- Return code `SF_DONE` of a timer callback: the timer is retired. -/
def SF_DONE : Nat := 0

/-- Return code `SF_RESCHEDULE` of a timer callback: run it again at `waketime`. -/
def SF_RESCHEDULE : Nat := 1

/-- Modulus of `uint8_t`. -/
def U8 : Nat := 256

/-- Modulus of `uint16_t`. -/
def U16 : Nat := 65536

/-- Modulus of `uint32_t`. -/
def U32 : Nat := 4294967296

/-! ## Moving-average filter -/

/-- The C `struct moving_average`.  `buffer i` is the cell `buffer[i]` of the
array `uint16_t buffer[BUFFER_SIZE]`; only the cells `0 .. BUFFER_SIZE - 1`
exist, and `moving_average_add_value` touches no other.  `index` and `count`
are C `int`s, `sum` is a `uint32_t`. -/
structure moving_average where
  buffer : Nat → Nat
  index : Int
  count : Int
  sum : Nat

/-- The C function `moving_average_init`: clears `index`, `count` and `sum`; the
buffer cells are left as they are. -/
def moving_average_init (ma : moving_average) : moving_average :=
  { ma with index := 0, count := 0, sum := 0 }

/-- The C function `moving_average_add_value`.  An `index` outside the array is
undefined behaviour in C; the embedding returns `none` there.  Otherwise the
result is the new filter and the returned `uint16_t`.  The subtraction and the
addition on `sum` are `uint32_t` operations, `%` on `int` truncates towards
zero, and the cast of `sum >> 7` keeps the low 16 bits. -/
def moving_average_add_value (ma : moving_average) (value : Nat) :
    Option (moving_average × Nat) :=
  if 0 ≤ ma.index ∧ ma.index < (BUFFER_SIZE : Int) then
    let i : Nat := ma.index.toNat
    -- if (ma->count == BUFFER_SIZE) ma->sum -= ma->buffer[ma->index]; else ma->count++;
    let ma1 : moving_average :=
      if ma.count = (BUFFER_SIZE : Int) then
        { ma with sum := (ma.sum + U32 - ma.buffer i % U32) % U32 }
      else
        { ma with count := ma.count + 1 }
    -- ma->buffer[ma->index] = value; ma->sum += value;
    let ma2 : moving_average :=
      { ma1 with buffer := Function.update ma1.buffer i value,
                 sum := (ma1.sum + value) % U32 }
    -- ma->index = (ma->index + 1) % BUFFER_SIZE;
    let ma3 : moving_average :=
      { ma2 with index := Int.tmod (ma2.index + 1) (BUFFER_SIZE : Int) }
    if ma3.count = (BUFFER_SIZE : Int) then
      some (ma3, (ma3.sum >>> 7) % U16)
    else
      some (ma3, 0)
  else
    none

/-- Feeds the samples of a list to the filter one by one, in order, and
collects the value returned by each call of `moving_average_add_value`. -/
def moving_average_feed : moving_average → List Nat → Option (moving_average × List Nat)
  | ma, [] => some (ma, [])
  | ma, v :: vs =>
    match moving_average_add_value ma v with
    | none => none
    | some (ma1, out) =>
      match moving_average_feed ma1 vs with
      | none => none
      | some (ma2, outs) => some (ma2, out :: outs)

/-! ## Calls into the rest of the firmware -/

/-- The callbacks a `struct timer` of this file can point to (`timer.func`);
`null` is the zeroed pointer of a freshly allocated object. -/
inductive timer_func where
  | null
  | analog_in_event
  | analog_endstop_event
  | analog_endstop_oversample_event
  deriving DecidableEq

/-- The two fields of the scheduler's `struct timer` that this file uses. -/
structure timer where
  waketime : Nat
  func : timer_func
  deriving DecidableEq

/-- Fields of `struct analog_in` and `struct analog_endstop` that the command
handlers assign. -/
inductive field where
  | timer_waketime
  | timer_func
  | rest_time
  | sample_time
  | next_begin_time
  | min_value
  | max_value
  | range_check_count
  | state
  | sample_count
  | oversample_count
  | treshold
  | ts
  | trigger_reason
  | ma
  deriving DecidableEq

/-- What a function of this file does that is visible outside its own object,
listed in program order.

* `sched_del_timer`, `sched_add_timer`: the scheduler calls on the object's timer;
* `gpio_adc_cancel_sample pin`: the ADC driver call;
* `store f`: a command handler assigns the field `f` of its object;
* `try_shutdown msg`, `sched_wake_task` (of `analog_wake`),
  `sendf_analog_in_state oid next_clock value`, `trsync_do_trigger ts reason`:
  the calls of the same names;
* `filter_add phase value mean`: the timer callback `phase` passed the value it
  read with `gpio_adc_read` to `moving_average_add_value`, which returned `mean`. -/
inductive Event where
  | sched_del_timer
  | sched_add_timer
  | gpio_adc_cancel_sample (pin : Nat)
  | store (f : field)
  | try_shutdown (msg : String)
  | sched_wake_task
  | sendf_analog_in_state (oid next_clock value : Nat)
  | filter_add (phase : timer_func) (value mean : Nat)
  | trsync_do_trigger (ts : Option Nat) (reason : Nat)
  deriving DecidableEq

/-- What the ADC driver answers during one attempt of a timer callback:
`sample_delay` is the result of `gpio_adc_sample(pin)` (a `uint32_t`, zero when a
conversion is ready) and `value` the result of `gpio_adc_read(pin)` (a
`uint16_t`), read only when the delay is zero. -/
structure adc_result where
  sample_delay : Nat
  value : Nat
  deriving DecidableEq

/-- Modelled from the spec: the scheduler, whose code is not part of this file.
A timer is armed by `sched_add_timer` and de-scheduled by `sched_del_timer`;
`timer_armed b tr` tells whether a timer that was armed (`b = true`) or not
before the calls of `tr` is armed after them. -/
def timer_armed : Bool → List Event → Bool
  | b, [] => b
  | _, Event.sched_del_timer :: tr => timer_armed false tr
  | _, Event.sched_add_timer :: tr => timer_armed true tr
  | b, _ :: tr => timer_armed b tr

/-! ## Analog-input sampler -/

/-- The C `struct analog_in`; `pin` stands for the `struct gpio_adc` handle. -/
structure analog_in where
  timer : timer
  rest_time : Nat
  sample_time : Nat
  next_begin_time : Nat
  value : Nat
  min_value : Nat
  max_value : Nat
  pin : Nat
  invalid_count : Nat
  range_check_count : Nat
  state : Nat
  sample_count : Nat
  deriving DecidableEq

/-- The timer callback `analog_in_event`, given the driver's answer `r`.
Returns the new object, the calls made and the `SF_` return code. -/
def analog_in_event (a : analog_in) (r : adc_result) : analog_in × List Event × Nat :=
  if r.sample_delay ≠ 0 then
    ({ a with timer.waketime := (a.timer.waketime + r.sample_delay) % U32 }, [], SF_RESCHEDULE)
  else
    let value : Nat := r.value
    let state : Nat := a.state
    let sv : Nat × Nat :=
      if state ≥ a.sample_count then (0, value) else (state, (value + a.value) % U16)
    let a1 : analog_in := { a with value := sv.2, state := (sv.1 + 1) % U8 }
    if a1.state < a1.sample_count then
      ({ a1 with timer.waketime := (a1.timer.waketime + a1.sample_time) % U32 }, [],
        SF_RESCHEDULE)
    else
      let ae : analog_in × List Event :=
        if a1.value ≥ a1.min_value ∧ a1.value ≤ a1.max_value then
          ({ a1 with invalid_count := 0 }, [])
        else
          let a2 : analog_in := { a1 with invalid_count := (a1.invalid_count + 1) % U8 }
          if a2.invalid_count ≥ a2.range_check_count then
            ({ a2 with invalid_count := 0 }, [Event.try_shutdown "ADC out of range"])
          else
            (a2, [])
      let a3 : analog_in :=
        { ae.1 with next_begin_time := (ae.1.next_begin_time + ae.1.rest_time) % U32 }
      ({ a3 with timer.waketime := a3.next_begin_time },
        ae.2 ++ [Event.sched_wake_task], SF_RESCHEDULE)

/-- The command handler `command_config_analog_in`: the object `oid_alloc`
returns is zeroed, then `timer.func`, `pin` and `state` are set.  The handle
`gpio_adc_setup` returns is identified with the pin number `args[1]`. -/
def command_config_analog_in (args : Nat → Nat) : analog_in :=
  { timer := { waketime := 0, func := timer_func.analog_in_event },
    rest_time := 0, sample_time := 0, next_begin_time := 0,
    value := 0, min_value := 0, max_value := 0,
    pin := args 1,
    invalid_count := 0, range_check_count := 0,
    state := 1, sample_count := 0 }

/-- The command handler `command_query_analog_in` on the object `a` that
`oid_lookup(args[0], ...)` returns; `args i` is the `uint32_t` `args[i]`.  The
assignments to 8-bit and 16-bit fields keep the low bits. -/
def command_query_analog_in (args : Nat → Nat) (a : analog_in) : analog_in × List Event :=
  let tr : List Event := [Event.sched_del_timer, Event.gpio_adc_cancel_sample a.pin]
  let a : analog_in := { a with next_begin_time := args 1 }
  let tr := tr ++ [Event.store field.next_begin_time]
  let a : analog_in := { a with timer.waketime := a.next_begin_time }
  let tr := tr ++ [Event.store field.timer_waketime]
  let a : analog_in := { a with sample_time := args 2 }
  let tr := tr ++ [Event.store field.sample_time]
  let a : analog_in := { a with sample_count := args 3 % U8 }
  let tr := tr ++ [Event.store field.sample_count]
  let a : analog_in := { a with state := (a.sample_count + 1) % U8 }
  let tr := tr ++ [Event.store field.state]
  let a : analog_in := { a with rest_time := args 4 }
  let tr := tr ++ [Event.store field.rest_time]
  let a : analog_in := { a with min_value := args 5 % U16 }
  let tr := tr ++ [Event.store field.min_value]
  let a : analog_in := { a with max_value := args 6 % U16 }
  let tr := tr ++ [Event.store field.max_value]
  let a : analog_in := { a with range_check_count := args 7 % U8 }
  let tr := tr ++ [Event.store field.range_check_count]
  if a.sample_count = 0 then
    (a, tr)
  else
    (a, tr ++ [Event.sched_add_timer])

/-- Modelled from the spec: the object directory's `foreach_oid` loop, whose
macro is not part of this file.  The table is the list of the objects by
object id (position `i` holds the object of id `i`); `none` is an id that is
not an analog-input sampler.  The loop body runs on every sampler in the order
of the ids, and each call it makes is paired with the id of its object. -/
def foreach_oid (body : Nat → analog_in → analog_in × List Event) :
    Nat → List (Option analog_in) → List (Option analog_in) × List (Nat × Event)
  | _, [] => ([], [])
  | oid, none :: rest =>
    let r := foreach_oid body (oid + 1) rest
    (none :: r.1, r.2)
  | oid, some a :: rest =>
    let b := body oid a
    let r := foreach_oid body (oid + 1) rest
    (some b.1 :: r.1, b.2.map (fun e => (oid, e)) ++ r.2)

/-- Body of the loop of `analog_in_task` for the sampler `a` of id `oid`.  The
test is made twice in C, the second time with interrupts disabled. -/
def analog_in_task_body (oid : Nat) (a : analog_in) : analog_in × List Event :=
  if a.state ≠ a.sample_count then
    (a, [])
  else if a.state ≠ a.sample_count then
    (a, [])
  else
    let value : Nat := a.value
    let next_begin_time : Nat := a.next_begin_time
    let a1 : analog_in := { a with state := (a.state + 1) % U8 }
    (a1, [Event.sendf_analog_in_state oid next_begin_time value])

/-- The task `analog_in_task`; `pending` is what `sched_check_wake(&analog_wake)`
returns. -/
def analog_in_task (pending : Bool) (objs : List (Option analog_in)) :
    List (Option analog_in) × List (Nat × Event) :=
  if !pending then
    (objs, [])
  else
    foreach_oid analog_in_task_body 0 objs

/-- Body of the loop of `analog_in_shutdown` for one sampler. -/
def analog_in_shutdown_body (_oid : Nat) (a : analog_in) : analog_in × List Event :=
  let tr : List Event := [Event.gpio_adc_cancel_sample a.pin]
  if a.sample_count ≠ 0 then
    let a1 : analog_in := { a with state := (a.sample_count + 1) % U8 }
    let a2 : analog_in := { a1 with next_begin_time := (a1.next_begin_time + a1.rest_time) % U32 }
    let a3 : analog_in := { a2 with timer.waketime := a2.next_begin_time }
    (a3, tr ++ [Event.sched_add_timer])
  else
    (a, tr)

/-- The shutdown handler `analog_in_shutdown`. -/
def analog_in_shutdown (objs : List (Option analog_in)) :
    List (Option analog_in) × List (Nat × Event) :=
  foreach_oid analog_in_shutdown_body 0 objs

/-- A call of one of the two functions that walk over all samplers. -/
inductive adc_call where
  | task (pending : Bool)
  | shutdown
  deriving DecidableEq

/-- Runs a sequence of `analog_in_task` and `analog_in_shutdown` calls on the
table and concatenates the calls they make. -/
def run_calls : List (Option analog_in) → List adc_call →
    List (Option analog_in) × List (Nat × Event)
  | objs, [] => (objs, [])
  | objs, adc_call.task pending :: cs =>
    let r := analog_in_task pending objs
    let q := run_calls r.1 cs
    (q.1, r.2 ++ q.2)
  | objs, adc_call.shutdown :: cs =>
    let r := analog_in_shutdown objs
    let q := run_calls r.1 cs
    (q.1, r.2 ++ q.2)

/-- Runs `analog_in_event` once per driver answer, in order, as the scheduler
does while the callback returns `SF_RESCHEDULE` (it never returns anything
else).  The result is the final object and, per invocation, the object as the
invocation left it, the calls it made and its return code. -/
def analog_in_run : analog_in → List adc_result →
    analog_in × List (analog_in × List Event × Nat)
  | a, [] => (a, [])
  | a, r :: rs =>
    match analog_in_event a r with
    | (a1, tr, ret) =>
      match analog_in_run a1 rs with
      | (a2, steps) => (a2, (a1, tr, ret) :: steps)

/-- The accumulated value of the sampler lies in `[min_value, max_value]`. -/
def in_range (a : analog_in) : Prop :=
  a.min_value ≤ a.value ∧ a.value ≤ a.max_value

instance (a : analog_in) : Decidable (in_range a) := by
  unfold in_range; infer_instance

/-- An invocation of `analog_in_event` completed an averaging cycle: it woke
the reporting task. -/
def completes (tr : List Event) : Bool :=
  decide (Event.sched_wake_task ∈ tr)

/-- The driver answers of a run in which every conversion is ready at once
(zero delay) and yields the given raw values. -/
def ready (vs : List Nat) : List adc_result :=
  vs.map (fun v => { sample_delay := 0, value := v })

/-! ## Analog endstop -/

/-- The C `struct analog_endstop`.  `ts` is the pointer to the trigger-sync
object (`none` is `NULL`); `pin` stands for the `struct gpio_adc` handle. -/
structure analog_endstop where
  timer : timer
  rest_time : Nat
  sample_time : Nat
  nextwake : Nat
  value : Nat
  treshold : Nat
  pin : Nat
  ts : Option Nat
  oversample_count : Nat
  trigger_reason : Nat
  ma : moving_average

/-- The timer callback `analog_endstop_oversample_event`, given the driver's
answer `r`.  `none` only when `moving_average_add_value` is undefined. -/
def analog_endstop_oversample_event (a : analog_endstop) (r : adc_result) :
    Option (analog_endstop × List Event × Nat) :=
  if r.sample_delay ≠ 0 then
    some ({ a with timer.waketime := (a.timer.waketime + r.sample_delay) % U32 }, [],
      SF_RESCHEDULE)
  else
    match moving_average_add_value a.ma r.value with
    | none => none
    | some (ma, value) =>
      let a1 : analog_endstop := { a with ma := ma }
      let tr : List Event :=
        [Event.filter_add timer_func.analog_endstop_oversample_event r.value value]
      if value > a1.treshold then
        some (a1, tr ++ [Event.trsync_do_trigger a1.ts a1.trigger_reason], SF_DONE)
      else
        some ({ a1 with timer.waketime := (a1.timer.waketime + a1.sample_time) % U32 }, tr,
          SF_RESCHEDULE)

/-- The timer callback `analog_endstop_event`.  `r` is the driver's answer to
this callback and `r2` its answer to `analog_endstop_oversample_event` when that
one is called at the end, within the same invocation. -/
def analog_endstop_event (a : analog_endstop) (r r2 : adc_result) :
    Option (analog_endstop × List Event × Nat) :=
  if r.sample_delay ≠ 0 then
    some ({ a with timer.waketime := (a.timer.waketime + r.sample_delay) % U32 }, [],
      SF_RESCHEDULE)
  else
    let value : Nat := r.value
    match moving_average_add_value a.ma value with
    | none => none
    | some (ma, mean) =>
      let a1 : analog_endstop := { a with ma := ma }
      let tr : List Event := [Event.filter_add timer_func.analog_endstop_event value mean]
      let nextwake : Nat := (a1.timer.waketime + a1.rest_time) % U32
      if value < a1.treshold then
        some ({ a1 with timer.waketime := nextwake }, tr, SF_RESCHEDULE)
      else
        let a2 : analog_endstop := { a1 with nextwake := nextwake }
        let a3 : analog_endstop :=
          { a2 with timer.func := timer_func.analog_endstop_oversample_event }
        match analog_endstop_oversample_event a3 r2 with
        | none => none
        | some (a4, tr2, ret) => some (a4, tr ++ tr2, ret)

/-- The command handler `command_config_analog_endstop`: the object `oid_alloc`
returns is zeroed, then `timer.func` and `pin` are set.  The handle
`gpio_adc_setup` returns is identified with the pin number `args[1]`. -/
def command_config_analog_endstop (args : Nat → Nat) : analog_endstop :=
  { timer := { waketime := 0, func := timer_func.analog_endstop_event },
    rest_time := 0, sample_time := 0, nextwake := 0, value := 0, treshold := 0,
    pin := args 1, ts := none, oversample_count := 0, trigger_reason := 0,
    ma := { buffer := fun _ => 0, index := 0, count := 0, sum := 0 } }

/-- The command handler `command_analog_endstop_home` on the object `e` that
`oid_lookup(args[0], ...)` returns.  `trsync_oid_lookup` is the function of that
name of the trigger-sync module, taken as a parameter. -/
def command_analog_endstop_home (trsync_oid_lookup : Nat → Nat) (args : Nat → Nat)
    (e : analog_endstop) : analog_endstop × List Event :=
  let tr : List Event := [Event.sched_del_timer]
  let e : analog_endstop := { e with timer.waketime := args 1 }
  let tr := tr ++ [Event.store field.timer_waketime]
  let e : analog_endstop := { e with sample_time := args 2 }
  let tr := tr ++ [Event.store field.sample_time]
  let e : analog_endstop := { e with oversample_count := args 3 % U8 }
  let tr := tr ++ [Event.store field.oversample_count]
  if e.oversample_count = 0 then
    -- disable endstop checking
    let e : analog_endstop := { e with ts := none }
    (e, tr ++ [Event.store field.ts])
  else
    let e : analog_endstop := { e with rest_time := args 4 }
    let tr := tr ++ [Event.store field.rest_time]
    let e : analog_endstop := { e with timer.func := timer_func.analog_endstop_event }
    let tr := tr ++ [Event.store field.timer_func]
    let e : analog_endstop := { e with treshold := args 5 % U16 }
    let tr := tr ++ [Event.store field.treshold]
    let e : analog_endstop := { e with ts := some (trsync_oid_lookup (args 6)) }
    let tr := tr ++ [Event.store field.ts]
    let e : analog_endstop := { e with trigger_reason := args 7 % U8 }
    let tr := tr ++ [Event.store field.trigger_reason]
    let e : analog_endstop := { e with ma := moving_average_init e.ma }
    let tr := tr ++ [Event.store field.ma]
    (e, tr ++ [Event.sched_add_timer])

/-- Modelled from the spec: the scheduler's dispatch, whose code is not part of
this file.  It calls the function `timer.func` of the endstop's timer points to. -/
def endstop_invoke (a : analog_endstop) (r r2 : adc_result) :
    Option (analog_endstop × List Event × Nat) :=
  match a.timer.func with
  | timer_func.analog_endstop_event => analog_endstop_event a r r2
  | timer_func.analog_endstop_oversample_event => analog_endstop_oversample_event a r
  | _ => none

/-- Modelled from the spec: a run of the endstop's timer.  The scheduler invokes
the callback once per pair of driver answers, again while it returns
`SF_RESCHEDULE`, and never again once it has returned `SF_DONE`.  The result is
the final object and, per invocation, the object as the invocation left it, the
calls it made and its return code. -/
def endstop_run : analog_endstop → List (adc_result × adc_result) →
    Option (analog_endstop × List (analog_endstop × List Event × Nat))
  | a, [] => some (a, [])
  | a, rr :: rs =>
    match endstop_invoke a rr.1 rr.2 with
    | none => none
    | some (a1, tr, ret) =>
      if ret = SF_DONE then
        some (a1, [(a1, tr, ret)])
      else
        match endstop_run a1 rs with
        | none => none
        | some (a2, steps) => some (a2, (a1, tr, ret) :: steps)

/-- The call is a `trsync_do_trigger`. -/
def is_trigger : Event → Bool
  | Event.trsync_do_trigger _ _ => true
  | _ => false

/-- The call is a confirmation sample: a value read and passed to the filter by
`analog_endstop_oversample_event`. -/
def is_confirmation : Event → Bool
  | Event.filter_add timer_func.analog_endstop_oversample_event _ _ => true
  | _ => false

/-- All the calls of a run, in order. -/
def run_events (steps : List (analog_endstop × List Event × Nat)) : List Event :=
  (steps.map (fun st => st.2.1)).flatten

/-! ## Predicates used by the statements -/

/-- The arithmetic mean, as an integer quotient, of the most recent 128 of the
first `n` samples of a sequence, and 0 while `n < 128`: what the claim about the
filter's return value calls the mean of the most recent 128 samples. -/
def recent_mean (samples : List Nat) (n : Nat) : Nat :=
  if n < 128 then 0 else ((samples.take n).drop (n - 128)).sum / 128

/-- The filter's `index` is a valid index of its buffer. -/
def index_ok (ma : moving_average) : Prop :=
  0 ≤ ma.index ∧ ma.index < 128

/-- Invariant of the filter: the indices are in range, `index` follows `count`
while the ring fills, the held cells are 16-bit values and `sum` is their sum. -/
structure ma_wf (ma : moving_average) : Prop where
  index_nonneg : 0 ≤ ma.index
  index_lt : ma.index < 128
  count_nonneg : 0 ≤ ma.count
  count_le : ma.count ≤ 128
  index_eq : ma.count < 128 → ma.index = ma.count
  cell_lt : ∀ j : Nat, (j : Int) < ma.count → ma.buffer j < 65536
  sum_eq : ma.sum = ∑ j in Finset.range ma.count.toNat, ma.buffer j

/-- The filter holds the samples `hist` fed to it since it was reset: the ring
keeps the most recent 128 of them and `sum` is their sum. -/
structure ma_tracks (ma : moving_average) (hist : List Nat) : Prop where
  index_eq : ma.index = ((hist.length % 128 : Nat) : Int)
  count_eq : ma.count = ((min hist.length 128 : Nat) : Int)
  cell_eq : ∀ k, k < hist.length → hist.length ≤ k + 128 →
    ma.buffer (k % 128) = hist.getD k 0
  sum_eq : ma.sum = (hist.drop (hist.length - 128)).sum

/-- An endstop as `command_analog_endstop_home` with the arguments `args` armed
it, at any later point of its run: the parameters are those of the command, one
of the two callbacks is installed and the filter's index is in range. -/
structure armed_by (trsync_oid_lookup : Nat → Nat) (args : Nat → Nat)
    (a : analog_endstop) : Prop where
  treshold_eq : a.treshold = args 5 % U16
  ts_eq : a.ts = some (trsync_oid_lookup (args 6))
  reason_eq : a.trigger_reason = args 7 % U8
  func_eq : a.timer.func = timer_func.analog_endstop_event ∨
    a.timer.func = timer_func.analog_endstop_oversample_event
  index_in : index_ok a.ma

/-- The calls and return code of one invocation of an endstop callback, for an
endstop whose parameters are `treshold`, `ts` and `reason`: calls that are
neither a trigger nor a confirmation sample, then either nothing more
(`SF_RESCHEDULE`), or one confirmation sample whose mean is at or below
`treshold` (`SF_RESCHEDULE`), or one confirmation sample whose mean exceeds
`treshold` followed by the trigger (`SF_DONE`). -/
inductive step_shape (treshold : Nat) (ts : Option Nat) (reason : Nat) :
    List Event → Nat → Prop where
  | idle (pre : List Event) :
      (∀ e ∈ pre, is_trigger e = false ∧ is_confirmation e = false) →
      step_shape treshold ts reason pre SF_RESCHEDULE
  | below (pre : List Event) (v m : Nat) :
      (∀ e ∈ pre, is_trigger e = false ∧ is_confirmation e = false) →
      m ≤ treshold →
      step_shape treshold ts reason
        (pre ++ [Event.filter_add timer_func.analog_endstop_oversample_event v m])
        SF_RESCHEDULE
  | fire (pre : List Event) (v m : Nat) :
      (∀ e ∈ pre, is_trigger e = false ∧ is_confirmation e = false) →
      treshold < m →
      step_shape treshold ts reason
        (pre ++ [Event.filter_add timer_func.analog_endstop_oversample_event v m,
          Event.trsync_do_trigger ts reason])
        SF_DONE

/-- In the sequence of calls `tr`, every `trsync_do_trigger` comes after at
least `K` confirmation samples. -/
def confirmed_before_trigger (K : Nat) (tr : List Event) : Prop :=
  ∀ pre t post, tr = pre ++ t :: post → is_trigger t = true →
    K ≤ (pre.filter is_confirmation).length

/-- The invariant `0 <= state <= sample_count + 1` of a sampler (`state` is
unsigned). -/
def state_ok (a : analog_in) : Prop :=
  0 ≤ a.state ∧ a.state ≤ a.sample_count + 1

/-- The call is a sample passed to the filter by `analog_endstop_event`. -/
def is_sampling_add : Event → Bool
  | Event.filter_add timer_func.analog_endstop_event _ _ => true
  | _ => false

/-- The call is a sample passed to the filter, by either endstop callback. -/
def is_filter_add : Event → Bool
  | Event.filter_add _ _ _ => true
  | _ => false

/-- In the sequence of calls `tr`, every `trsync_do_trigger` comes after at
least `K` samples passed to the filter, `n` of which were passed before `tr`
began. -/
def fed_before_trigger (K n : Nat) (tr : List Event) : Prop :=
  ∀ pre t post, tr = pre ++ t :: post → is_trigger t = true →
    K ≤ n + (pre.filter is_filter_add).length

/-- The endstop's filter has been fed `n` samples since it was reset, one of the
two endstop callbacks is installed and the filter's index is in range. -/
structure fed_since_home (n : Nat) (a : analog_endstop) : Prop where
  count_eq : a.ma.count = ((min n 128 : Nat) : Int)
  index_in : index_ok a.ma
  func_eq : a.timer.func = timer_func.analog_endstop_event ∨
    a.timer.func = timer_func.analog_endstop_oversample_event

/-- The filtered mean of the oversampling evaluation that one invocation of the
endstop's timer makes on the driver's answers `r` and `r2`, computed from the
filter alone; `none` when the invocation makes no successful evaluation.  In
the oversampling phase the evaluation is made when the conversion is ready, on
the value read.  In the sampling phase it is made, within the same invocation,
when the conversion is ready, the raw value is at or above `treshold` and the
conversion started next is ready too, on the filter as the raw value left it. -/
def oversample_mean (a : analog_endstop) (r r2 : adc_result) : Option Nat :=
  match a.timer.func with
  | timer_func.analog_endstop_oversample_event =>
    if r.sample_delay = 0 then
      (moving_average_add_value a.ma r.value).map (fun p => p.2)
    else none
  | timer_func.analog_endstop_event =>
    if r.sample_delay = 0 ∧ a.treshold ≤ r.value ∧ r2.sample_delay = 0 then
      (moving_average_add_value a.ma r.value).bind
        (fun p => (moving_average_add_value p.1 r2.value).map (fun q => q.2))
    else none
  | _ => none

/-! ## Concrete inputs used by the closed statements -/

/-- A sampler that holds a stale accumulator value 1 from earlier use. -/
def stale_sampler : analog_in :=
  { timer := { waketime := 0, func := timer_func.analog_in_event },
    rest_time := 0, sample_time := 0, next_begin_time := 0,
    value := 1, min_value := 0, max_value := 0, pin := 3,
    invalid_count := 0, range_check_count := 0, state := 1, sample_count := 0 }

/-- Arguments of `query_analog_in`: oid 0, clock 1000, sample_ticks 10,
sample_count 255, rest_ticks 50, min_value 0, max_value 0, range_check_count 2. -/
def query_255 : Nat → Nat :=
  fun i => [0, 1000, 10, 255, 50, 0, 0, 2].getD i 0

/-- Arguments of `query_analog_in`: oid 0, clock 1000, sample_ticks 10,
sample_count 3, rest_ticks 50, min_value 10, max_value 20, range_check_count 2. -/
def query_3 : Nat → Nat :=
  fun i => [0, 1000, 10, 3, 50, 10, 20, 2].getD i 0

/-- Arguments of `query_analog_in`: oid 0, clock 1000, sample_ticks 10,
sample_count 1, rest_ticks 50, min_value 10, max_value 20, range_check_count 2. -/
def query_1 : Nat → Nat :=
  fun i => [0, 1000, 10, 1, 50, 10, 20, 2].getD i 0

/-- Arguments of `query_analog_in` that disable sampling: sample_count 0. -/
def query_0 : Nat → Nat :=
  fun i => [0, 1000, 10, 0, 50, 10, 20, 2].getD i 0

/-- An endstop in some earlier state, with a used filter. -/
def used_endstop : analog_endstop :=
  { timer := { waketime := 0, func := timer_func.analog_endstop_oversample_event },
    rest_time := 0, sample_time := 0, nextwake := 0, value := 0, treshold := 0,
    pin := 3, ts := none, oversample_count := 0, trigger_reason := 0,
    ma := { buffer := fun _ => 9, index := 77, count := 55, sum := 1234 } }

/-- Arguments of `analog_endstop_home`: oid 4, clock 1000, sample_ticks 10,
oversample_count 2, rest_ticks 50, treshold 10, trsync_oid 6, trigger_reason 3. -/
def home_2 : Nat → Nat :=
  fun i => [4, 1000, 10, 2, 50, 10, 6, 3].getD i 0

/-- Arguments of `analog_endstop_home` that disable the endstop:
oversample_count 0. -/
def home_0 : Nat → Nat :=
  fun i => [4, 1000, 10, 0, 50, 10, 6, 3].getD i 0

/-- An endstop in the oversampling phase: treshold 600, sample_time 10, and a
full filter that holds 128 samples of 500. -/
def noisy_endstop : analog_endstop :=
  { timer := { waketime := 1000, func := timer_func.analog_endstop_oversample_event },
    rest_time := 50, sample_time := 10, nextwake := 1050, value := 0, treshold := 600,
    pin := 3, ts := some 106, oversample_count := 2, trigger_reason := 3,
    ma := { buffer := fun _ => 500, index := 0, count := 128, sum := 64000 } }

/-- The filter of `noisy_endstop` after three more samples of 700. -/
def noisy_filter_after : moving_average :=
  { buffer := Function.update (Function.update (Function.update (fun _ => 500) 0 700) 1 700)
      2 700,
    index := 3, count := 128, sum := 64600 }

/-- Driver answers of one invocation: conversion ready, value 700. -/
def noise : adc_result × adc_result :=
  ({ sample_delay := 0, value := 700 }, { sample_delay := 0, value := 0 })

/-- The trigger-sync lookup used in the closed statements: object `100 + oid`. -/
def lookup_100 : Nat → Nat :=
  fun oid => 100 + oid

/-- Driver answers of one invocation: both conversions ready, both read 0. -/
def quiet : adc_result × adc_result :=
  ({ sample_delay := 0, value := 0 }, { sample_delay := 0, value := 0 })

/-- Driver answers of the invocation in which the raw value crosses: the first
conversion is ready and reads 65535; the conversion started next, for
`analog_endstop_oversample_event`, is not ready yet (delay 20). -/
def crossing : adc_result × adc_result :=
  ({ sample_delay := 0, value := 65535 }, { sample_delay := 20, value := 0 })

/-- Driver answers of the next invocation: conversion ready, value 65535. -/
def confirm : adc_result × adc_result :=
  ({ sample_delay := 0, value := 65535 }, { sample_delay := 0, value := 0 })

/-- A sampler with `sample_count = 255` that holds a stale accumulator value. -/
def sampler_255 : analog_in :=
  { stale_sampler with next_begin_time := 1000, rest_time := 50, state := 7,
                       sample_count := 255 }

/-- Arguments of `analog_endstop_home` with a treshold that needs more than 16
bits: oid 4, clock 1000, sample_ticks 10, oversample_count 2, rest_ticks 50,
treshold 65546, trsync_oid 6, trigger_reason 3. -/
def home_wide : Nat → Nat :=
  fun i => [4, 1000, 10, 2, 50, 65546, 6, 3].getD i 0

/-! ## The moving-average filter: lemmas -/

theorem sum_range_le (f : Nat → Nat) (n b : Nat) (h : ∀ j, j < n → f j ≤ b) :
    ∑ j in Finset.range n, f j ≤ n * b := by
  induction n with
  | zero => simp
  | succ n ih =>
    rw [Finset.sum_range_succ]
    have h1 := ih (fun j hj => h j (by omega))
    have h2 := h n (by omega)
    nlinarith

theorem sum_range_update_ge (f : Nat → Nat) (n i v : Nat) (h : n ≤ i) :
    ∑ j in Finset.range n, Function.update f i v j = ∑ j in Finset.range n, f j := by
  apply Finset.sum_congr rfl
  intro j hj
  have : j < n := Finset.mem_range.mp hj
  rw [Function.update_noteq (by omega)]

theorem sum_range_update_lt (f : Nat → Nat) (n i v : Nat) (h : i < n) :
    ∑ j in Finset.range n, Function.update f i v j + f i = ∑ j in Finset.range n, f j + v := by
  induction n with
  | zero => omega
  | succ n ih =>
    rw [Finset.sum_range_succ, Finset.sum_range_succ]
    by_cases hi : i = n
    · subst hi
      rw [sum_range_update_ge f i i v (le_refl _), Function.update_same]
      omega
    · have := ih (by omega)
      rw [Function.update_noteq (Ne.symm hi)]
      omega

theorem add_value_filling (ma : moving_average) (v : Nat)
    (h1 : 0 ≤ ma.index) (h2 : ma.index < 128) (hc : ma.count ≠ 128)
    (hs : ma.sum + v < 4294967296) :
    moving_average_add_value ma v =
      some ({ buffer := Function.update ma.buffer ma.index.toNat v,
              index := (ma.index + 1) % 128, count := ma.count + 1,
              sum := ma.sum + v },
            if ma.count + 1 = 128 then ((ma.sum + v) / 128) % 65536 else 0) := by
  unfold moving_average_add_value
  simp only [BUFFER_SIZE, U32, U16, Nat.cast_ofNat]
  rw [if_pos ⟨h1, h2⟩]
  simp only [hc, if_false]
  rw [Int.tmod_eq_emod (by omega) (by omega), Nat.mod_eq_of_lt hs,
    Nat.shiftRight_eq_div_pow]
  norm_num
  split_ifs <;> rfl

theorem add_value_full (ma : moving_average) (v : Nat)
    (h1 : 0 ≤ ma.index) (h2 : ma.index < 128) (hc : ma.count = 128)
    (hb : ma.buffer ma.index.toNat ≤ ma.sum)
    (hs : ma.sum - ma.buffer ma.index.toNat + v < 4294967296)
    (hs0 : ma.sum < 4294967296) :
    moving_average_add_value ma v =
      some ({ buffer := Function.update ma.buffer ma.index.toNat v,
              index := (ma.index + 1) % 128, count := 128,
              sum := ma.sum - ma.buffer ma.index.toNat + v },
            ((ma.sum - ma.buffer ma.index.toNat + v) / 128) % 65536) := by
  unfold moving_average_add_value
  simp only [BUFFER_SIZE, U32, U16, Nat.cast_ofNat]
  rw [if_pos ⟨h1, h2⟩]
  simp only [hc, if_true]
  have e1 : ma.buffer ma.index.toNat % 4294967296 = ma.buffer ma.index.toNat :=
    Nat.mod_eq_of_lt (by omega)
  have e2 : (ma.sum + 4294967296 - ma.buffer ma.index.toNat) % 4294967296 =
      ma.sum - ma.buffer ma.index.toNat := by omega
  rw [Int.tmod_eq_emod (by omega) (by omega), e1, e2, Nat.mod_eq_of_lt hs,
    Nat.shiftRight_eq_div_pow]

theorem ma_wf_init (ma : moving_average) : ma_wf (moving_average_init ma) := by
  constructor <;> simp [moving_average_init]

theorem ma_wf_sum_le (ma : moving_average) (h : ma_wf ma) :
    ma.sum ≤ ma.count.toNat * 65535 := by
  rw [h.sum_eq]
  apply sum_range_le
  intro j hj
  have := h.cell_lt j (by omega)
  omega

theorem ma_wf_add_value (ma : moving_average) (v : Nat) (h : ma_wf ma) (hv : v < 65536) :
    ∃ ma1 out, moving_average_add_value ma v = some (ma1, out) ∧ ma_wf ma1 ∧
      out < 65536 ∧ (ma1.count < 128 → out = 0) ∧
      (ma1.count = 128 → out = ma1.sum / 128) ∧
      ma1.count = min (ma.count + 1) 128 := by
  have h1 := h.index_nonneg
  have h2 := h.index_lt
  have h4 := h.count_nonneg
  have h5 := h.count_le
  have hs := ma_wf_sum_le ma h
  by_cases hc : ma.count = 128
  · have hidx : (ma.index.toNat : Int) < ma.count := by omega
    have hcell := h.cell_lt ma.index.toNat hidx
    have hb : ma.buffer ma.index.toNat ≤ ma.sum := by
      rw [h.sum_eq]
      exact Finset.single_le_sum (f := ma.buffer) (fun _ _ => Nat.zero_le _)
        (Finset.mem_range.mpr (by omega))
    have hupd := sum_range_update_lt ma.buffer ma.count.toNat ma.index.toNat v (by omega)
    have hct : ma.count.toNat = 128 := by omega
    rw [hct] at hs hupd
    have hsum := h.sum_eq
    rw [hct] at hsum
    have hcell2 : ∀ j : Nat, j < 128 → Function.update ma.buffer ma.index.toNat v j < 65536 := by
      intro j hj
      by_cases hji : j = ma.index.toNat
      · rw [hji, Function.update_same]; exact hv
      · rw [Function.update_noteq hji]; exact h.cell_lt j (by omega)
    have hnew : ∑ j in Finset.range 128, Function.update ma.buffer ma.index.toNat v j
        ≤ 128 * 65535 :=
      sum_range_le _ _ _ (fun j hj => by have := hcell2 j hj; omega)
    refine ⟨_, _, add_value_full ma v h1 h2 hc hb (by omega) (by omega), ?_, ?_, ?_, ?_, ?_⟩
    · constructor
      · show (0 : Int) ≤ (ma.index + 1) % 128
        omega
      · show (ma.index + 1) % 128 < (128 : Int)
        omega
      · show (0 : Int) ≤ 128
        omega
      · show (128 : Int) ≤ 128
        omega
      · show (128 : Int) < 128 → _
        omega
      · intro j hj
        exact hcell2 j (by change (j : Int) < 128 at hj; omega)
      · show ma.sum - ma.buffer ma.index.toNat + v = ∑ j in Finset.range (128 : Int).toNat, _
        have : (128 : Int).toNat = 128 := rfl
        rw [this]
        dsimp only
        omega
    · exact Nat.mod_lt _ (by norm_num)
    · intro hlt; change (128 : Int) < 128 at hlt; omega
    · intro _
      show (ma.sum - ma.buffer ma.index.toNat + v) / 128 % 65536 =
        (ma.sum - ma.buffer ma.index.toNat + v) / 128
      omega
    · show (128 : Int) = min (ma.count + 1) 128
      omega
  · have hlt : ma.count < 128 := by omega
    have h3 := h.index_eq hlt
    have hcn : ma.count.toNat ≤ 127 := by omega
    have hs2 : ma.sum + v < 128 * 65536 := by nlinarith
    have hcell2 : ∀ j : Nat, (j : Int) < ma.count + 1 →
        Function.update ma.buffer ma.index.toNat v j < 65536 := by
      intro j hj
      by_cases hji : j = ma.index.toNat
      · rw [hji, Function.update_same]; exact hv
      · rw [Function.update_noteq hji]; exact h.cell_lt j (by omega)
    refine ⟨_, _, add_value_filling ma v h1 h2 hc (by omega), ?_, ?_, ?_, ?_, ?_⟩
    · constructor
      · show (0 : Int) ≤ (ma.index + 1) % 128
        omega
      · show (ma.index + 1) % 128 < (128 : Int)
        omega
      · show (0 : Int) ≤ ma.count + 1
        omega
      · show ma.count + 1 ≤ (128 : Int)
        omega
      · show ma.count + 1 < (128 : Int) → (ma.index + 1) % 128 = ma.count + 1
        omega
      · exact hcell2
      · show ma.sum + v = ∑ j in Finset.range (ma.count + 1).toNat, _
        have e : (ma.count + 1).toNat = ma.count.toNat + 1 := by omega
        have e2 : ma.index.toNat = ma.count.toNat := by omega
        rw [e, Finset.sum_range_succ, e2]
        dsimp only
        rw [Function.update_same,
          sum_range_update_ge _ _ _ _ (le_refl _), ← h.sum_eq]
    · show (if ma.count + 1 = 128 then (ma.sum + v) / 128 % 65536 else 0) < 65536
      split
      · exact Nat.mod_lt _ (by norm_num)
      · norm_num
    · intro hlt2
      change ma.count + 1 < (128 : Int) at hlt2
      show (if ma.count + 1 = 128 then (ma.sum + v) / 128 % 65536 else 0) = 0
      rw [if_neg (by omega)]
    · intro heq
      change ma.count + 1 = (128 : Int) at heq
      show (if ma.count + 1 = 128 then (ma.sum + v) / 128 % 65536 else 0) = (ma.sum + v) / 128
      rw [if_pos heq]
      omega
    · show ma.count + 1 = min (ma.count + 1) 128
      omega

theorem list_sum_le (l : List Nat) (b : Nat) (h : ∀ x ∈ l, x ≤ b) : l.sum ≤ l.length * b := by
  induction l with
  | nil => simp
  | cons a t ih =>
    have h1 := h a (List.mem_cons_self a t)
    have h2 := ih (fun x hx => h x (List.mem_cons_of_mem a hx))
    simp only [List.sum_cons, List.length_cons]
    nlinarith

theorem recent_mean_append (l r : List Nat) (n : Nat) (h : n ≤ l.length) :
    recent_mean (l ++ r) n = recent_mean l n := by
  unfold recent_mean
  rw [List.take_append_of_le_length h]

theorem ma_tracks_init (ma : moving_average) : ma_tracks (moving_average_init ma) [] := by
  constructor <;> simp [moving_average_init]

theorem ma_tracks_add_value (ma : moving_average) (hist : List Nat) (v : Nat)
    (h : ma_tracks ma hist) (hh : ∀ x ∈ hist, x < 65536) (hv : v < 65536) :
    ∃ ma1, moving_average_add_value ma v =
        some (ma1, recent_mean (hist ++ [v]) (hist.length + 1)) ∧
      ma_tracks ma1 (hist ++ [v]) := by
  have hidx := h.index_eq
  have hcnt := h.count_eq
  have hsum := h.sum_eq
  have hbound : (hist.drop (hist.length - 128)).sum ≤ 128 * 65535 := by
    have hb := list_sum_le (hist.drop (hist.length - 128)) 65535
      (fun x hx => by have := hh x (List.mem_of_mem_drop hx); omega)
    have hl : (hist.drop (hist.length - 128)).length ≤ 128 := by
      rw [List.length_drop]; omega
    nlinarith
  have hin : ma.index.toNat = hist.length % 128 := by omega
  by_cases hlen : hist.length < 128
  · have hc : ma.count ≠ 128 := by omega
    have hd0 : hist.length - 128 = 0 := by omega
    have hd1 : hist.length + 1 - 128 = 0 := by omega
    have hsl : hist.sum ≤ hist.length * 65535 :=
      list_sum_le hist 65535 (fun x hx => by have := hh x hx; omega)
    rw [hd0, List.drop_zero] at hsum
    have hlt : ma.sum + v < 128 * 65536 := by nlinarith
    refine ⟨{ buffer := Function.update ma.buffer ma.index.toNat v,
              index := (ma.index + 1) % 128, count := ma.count + 1,
              sum := ma.sum + v }, ?_, ?_⟩
    · rw [add_value_filling ma v (by omega) (by omega) hc (by omega)]
      have hr : recent_mean (hist ++ [v]) (hist.length + 1) =
          if ma.count + 1 = 128 then (ma.sum + v) / 128 % 65536 else 0 := by
        unfold recent_mean
        by_cases h127 : hist.length + 1 < 128
        · rw [if_pos h127, if_neg (by omega)]
        · rw [if_neg h127, if_pos (by omega), hd1, List.drop_zero]
          have : List.take (hist.length + 1) (hist ++ [v]) = hist ++ [v] := by
            apply List.take_of_length_le; simp
          rw [this, List.sum_append, List.sum_singleton, ← hsum]
          omega
      rw [hr]
    · constructor
      · show (ma.index + 1) % 128 = (((hist ++ [v]).length % 128 : Nat) : Int)
        rw [List.length_append, List.length_singleton]
        omega
      · show ma.count + 1 = ((min (hist ++ [v]).length 128 : Nat) : Int)
        rw [List.length_append, List.length_singleton]
        omega
      · intro k hk _
        rw [List.length_append, List.length_singleton] at hk
        show Function.update ma.buffer ma.index.toNat v (k % 128) = _
        by_cases hkl : k = hist.length
        · have e : k % 128 = ma.index.toNat := by omega
          rw [e, Function.update_same, hkl]
          simp [List.getD_eq_getElem?_getD]
        · have hk2 : k < hist.length := by omega
          have e : k % 128 ≠ ma.index.toNat := by omega
          rw [Function.update_noteq e, h.cell_eq k hk2 (by omega)]
          simp [List.getD_eq_getElem?_getD, List.getElem?_append_left hk2]
      · show ma.sum + v = _
        rw [List.length_append, List.length_singleton, hd1, List.drop_zero,
          List.sum_append, List.sum_singleton, hsum]
  · have hc : ma.count = 128 := by omega
    have hk0 : hist.length - 128 < hist.length := by omega
    have hcell := h.cell_eq (hist.length - 128) hk0 (by omega)
    have e0 : (hist.length - 128) % 128 = ma.index.toNat := by omega
    rw [e0] at hcell
    have hdrop := List.drop_eq_getElem_cons hk0
    have hget : hist.getD (hist.length - 128) 0 = hist[hist.length - 128] := by
      simp [List.getD_eq_getElem?_getD, List.getElem?_eq_getElem hk0]
    have e1 : hist.length - 128 + 1 = hist.length + 1 - 128 := by omega
    rw [hdrop, List.sum_cons, e1] at hsum
    rw [hdrop, List.sum_cons, e1] at hbound
    rw [hget] at hcell
    have hnew : ((hist ++ [v]).drop (hist.length + 1 - 128)).sum =
        (hist.drop (hist.length + 1 - 128)).sum + v := by
      rw [List.drop_append_of_le_length (by omega), List.sum_append, List.sum_singleton]
    have hsub : ma.sum - ma.buffer ma.index.toNat + v =
        ((hist ++ [v]).drop (hist.length + 1 - 128)).sum := by
      rw [hnew, hcell, hsum]; omega
    have hbnd2 : ((hist ++ [v]).drop (hist.length + 1 - 128)).sum ≤ 128 * 65535 := by
      have hb := list_sum_le ((hist ++ [v]).drop (hist.length + 1 - 128)) 65535
        (fun x hx => by
          have hm := List.mem_of_mem_drop hx
          rcases List.mem_append.mp hm with hm1 | hm1
          · have := hh x hm1; omega
          · have : x = v := by simpa using hm1
            omega)
      have hl : ((hist ++ [v]).drop (hist.length + 1 - 128)).length ≤ 128 := by
        rw [List.length_drop, List.length_append, List.length_singleton]; omega
      nlinarith
    refine ⟨{ buffer := Function.update ma.buffer ma.index.toNat v,
              index := (ma.index + 1) % 128, count := 128,
              sum := ma.sum - ma.buffer ma.index.toNat + v }, ?_, ?_⟩
    · rw [add_value_full ma v (by omega) (by omega) hc (by rw [hcell, hsum]; omega)
        (by omega) (by omega)]
      have hr : recent_mean (hist ++ [v]) (hist.length + 1) =
          (ma.sum - ma.buffer ma.index.toNat + v) / 128 % 65536 := by
        unfold recent_mean
        rw [if_neg (by omega)]
        have : List.take (hist.length + 1) (hist ++ [v]) = hist ++ [v] := by
          apply List.take_of_length_le; simp
        rw [this, hsub]
        omega
      rw [hr]
    · constructor
      · show (ma.index + 1) % 128 = (((hist ++ [v]).length % 128 : Nat) : Int)
        rw [List.length_append, List.length_singleton]
        omega
      · show (128 : Int) = ((min (hist ++ [v]).length 128 : Nat) : Int)
        rw [List.length_append, List.length_singleton]
        omega
      · intro k hk hk1
        rw [List.length_append, List.length_singleton] at hk hk1
        show Function.update ma.buffer ma.index.toNat v (k % 128) = _
        by_cases hkl : k = hist.length
        · have e : k % 128 = ma.index.toNat := by omega
          rw [e, Function.update_same, hkl]
          simp [List.getD_eq_getElem?_getD]
        · have hk2 : k < hist.length := by omega
          have e : k % 128 ≠ ma.index.toNat := by omega
          rw [Function.update_noteq e, h.cell_eq k hk2 (by omega)]
          simp [List.getD_eq_getElem?_getD, List.getElem?_append_left hk2]
      · show ma.sum - ma.buffer ma.index.toNat + v = _
        rw [hsub, List.length_append, List.length_singleton]

theorem feed_tracks (samples : List Nat) :
    ∀ (hist : List Nat) (ma : moving_average), ma_tracks ma hist →
      (∀ x ∈ hist, x < 65536) → (∀ x ∈ samples, x < 65536) →
      ∃ maF outs, moving_average_feed ma samples = some (maF, outs) ∧
        ma_tracks maF (hist ++ samples) ∧ outs.length = samples.length ∧
        ∀ i, i < samples.length →
          outs.getD i 0 = recent_mean (hist ++ samples) (hist.length + i + 1) := by
  induction samples with
  | nil =>
    intro hist ma h _ _
    exact ⟨ma, [], rfl, by simpa using h, rfl, fun i hi => by simp at hi⟩
  | cons v vs ih =>
    intro hist ma h hh hs
    obtain ⟨ma1, e1, t1⟩ := ma_tracks_add_value ma hist v h hh
      (hs v (List.mem_cons_self v vs))
    have hh1 : ∀ x ∈ hist ++ [v], x < 65536 := by
      intro x hx
      rcases List.mem_append.mp hx with hx1 | hx1
      · exact hh x hx1
      · have : x = v := by simpa using hx1
        rw [this]; exact hs v (List.mem_cons_self v vs)
    obtain ⟨maF, outs, e2, t2, hl, ho⟩ := ih (hist ++ [v]) ma1 t1 hh1
      (fun x hx => hs x (List.mem_cons_of_mem v hx))
    have happ : hist ++ [v] ++ vs = hist ++ v :: vs := by simp
    refine ⟨maF, recent_mean (hist ++ [v]) (hist.length + 1) :: outs, ?_, ?_, ?_, ?_⟩
    · simp only [moving_average_feed, e1, e2]
    · rw [← happ]; exact t2
    · simp [hl]
    · intro i hi
      cases i with
      | zero =>
        rw [← happ, recent_mean_append (hist ++ [v]) vs (hist.length + 0 + 1) (by simp)]
        simp
      | succ i =>
        have := ho i (by simpa using hi)
        rw [happ, List.length_append, List.length_singleton] at this
        rw [List.getD_cons_succ, this]
        congr 1
        omega

theorem feed_wf (samples : List Nat) :
    ∀ ma : moving_average, ma_wf ma → (∀ x ∈ samples, x < 65536) →
      ∃ maF outs, moving_average_feed ma samples = some (maF, outs) ∧ ma_wf maF := by
  induction samples with
  | nil => intro ma h _; exact ⟨ma, [], rfl, h⟩
  | cons v vs ih =>
    intro ma h hs
    obtain ⟨ma1, out, e1, w1, _⟩ := ma_wf_add_value ma v h (hs v (List.mem_cons_self v vs))
    obtain ⟨maF, outs, e2, w2⟩ := ih ma1 w1 (fun x hx => hs x (List.mem_cons_of_mem v hx))
    exact ⟨maF, out :: outs, by simp only [moving_average_feed, e1, e2], w2⟩

/-! ## The moving-average filter: claims -/

/-- C1: starting from a filter reset by `moving_average_init` (whatever it held
before), feeding any finite sequence of 16-bit samples one by one succeeds, and
the value returned by the n-th call (n counted from 1) is 0 when n < 128 and
otherwise the exact sum of the most recent 128 samples divided by 128. -/
theorem moving_average_returns_recent_mean (ma0 : moving_average) (samples : List Nat)
    (h16 : ∀ x ∈ samples, x < 65536) :
    ∃ ma outs, moving_average_feed (moving_average_init ma0) samples = some (ma, outs) ∧
      outs.length = samples.length ∧
      ∀ n, 1 ≤ n → n ≤ samples.length →
        outs.getD (n - 1) 0 =
          if n < 128 then 0 else ((samples.take n).drop (n - 128)).sum / 128 := by
  obtain ⟨ma, outs, e, _, hl, ho⟩ := feed_tracks samples [] (moving_average_init ma0)
    (ma_tracks_init ma0) (by simp) h16
  refine ⟨ma, outs, e, hl, ?_⟩
  intro n h1 hn
  have := ho (n - 1) (by omega)
  rw [this]
  have e1 : ([] : List Nat).length + (n - 1) + 1 = n := by simp; omega
  rw [e1, List.nil_append]
  rfl

/-- Witness of C1: 130 samples 0, 1, ..., 129 fed to a reset filter that held
other data before; the 127th call returns 0, the 128th the mean of 0..127 and
the 130th the mean of 2..129. -/
theorem moving_average_returns_recent_mean_witness :
    (∀ x ∈ List.range 130, x < 65536) ∧
    ∃ ma outs, moving_average_feed (moving_average_init used_endstop.ma) (List.range 130)
        = some (ma, outs) ∧
      outs.length = (List.range 130).length ∧
      ∀ n, 1 ≤ n → n ≤ (List.range 130).length →
        outs.getD (n - 1) 0 =
          if n < 128 then 0 else (((List.range 130).take n).drop (n - 128)).sum / 128 :=
  ⟨fun x hx => by have := List.mem_range.mp hx; omega,
    moving_average_returns_recent_mean used_endstop.ma (List.range 130)
      (fun x hx => by have := List.mem_range.mp hx; omega)⟩

/-- C2: after `moving_average_init` and any number of `moving_average_add_value`
calls with 16-bit samples, `count` lies in 0..128, `sum` equals the sum of
`buffer[0..count)` when `count < 128` and the sum of all 128 cells when
`count = 128`. -/
theorem moving_average_sum_invariant (ma0 : moving_average) (samples : List Nat)
    (h16 : ∀ x ∈ samples, x < 65536) :
    ∃ ma outs, moving_average_feed (moving_average_init ma0) samples = some (ma, outs) ∧
      0 ≤ ma.count ∧ ma.count ≤ 128 ∧
      (ma.count < 128 → ma.sum = ∑ j in Finset.range ma.count.toNat, ma.buffer j) ∧
      (ma.count = 128 → ma.sum = ∑ j in Finset.range 128, ma.buffer j) := by
  obtain ⟨ma, outs, e, w⟩ := feed_wf samples (moving_average_init ma0) (ma_wf_init ma0) h16
  refine ⟨ma, outs, e, w.count_nonneg, w.count_le, fun _ => w.sum_eq, ?_⟩
  intro hc
  have := w.sum_eq
  rw [hc] at this
  exact this

/-- Witness of C2: the samples 0, 1, ..., 129 fed to a reset filter. -/
theorem moving_average_sum_invariant_witness :
    (∀ x ∈ List.range 130, x < 65536) ∧
    ∃ ma outs, moving_average_feed (moving_average_init used_endstop.ma) (List.range 130)
        = some (ma, outs) ∧
      0 ≤ ma.count ∧ ma.count ≤ 128 ∧
      (ma.count < 128 → ma.sum = ∑ j in Finset.range ma.count.toNat, ma.buffer j) ∧
      (ma.count = 128 → ma.sum = ∑ j in Finset.range 128, ma.buffer j) :=
  ⟨fun x hx => by have := List.mem_range.mp hx; omega,
    moving_average_sum_invariant used_endstop.ma (List.range 130)
      (fun x hx => by have := List.mem_range.mp hx; omega)⟩


/-! ## The object table: lemmas -/

theorem foreach_oid_events (body : Nat → analog_in → analog_in × List Event)
    (objs : List (Option analog_in)) :
    ∀ (start : Nat) (e : Nat × Event), e ∈ (foreach_oid body start objs).2 →
      start ≤ e.1 ∧ ∃ a, objs[e.1 - start]? = some (some a) ∧ e.2 ∈ (body e.1 a).2 := by
  induction objs with
  | nil => intro start e he; simp [foreach_oid] at he
  | cons o rest ih =>
    intro start e he
    cases o with
    | none =>
      simp only [foreach_oid] at he
      obtain ⟨h1, a, h2, h3⟩ := ih (start + 1) e he
      refine ⟨by omega, a, ?_, h3⟩
      have : e.1 - start = (e.1 - (start + 1)) + 1 := by omega
      rw [this, List.getElem?_cons_succ]
      exact h2
    | some a0 =>
      simp only [foreach_oid, List.mem_append, List.mem_map] at he
      rcases he with ⟨ev, hev, rfl⟩ | he
      · exact ⟨le_refl _, a0, by simp, hev⟩
      · obtain ⟨h1, a, h2, h3⟩ := ih (start + 1) e he
        refine ⟨by omega, a, ?_, h3⟩
        have : e.1 - start = (e.1 - (start + 1)) + 1 := by omega
        rw [this, List.getElem?_cons_succ]
        exact h2

theorem foreach_oid_get (body : Nat → analog_in → analog_in × List Event)
    (objs : List (Option analog_in)) :
    ∀ (start i : Nat), (foreach_oid body start objs).1[i]? =
      (objs[i]?).map (Option.map (fun a => (body (start + i) a).1)) := by
  induction objs with
  | nil => intro start i; simp [foreach_oid]
  | cons o rest ih =>
    intro start i
    cases o with
    | none =>
      cases i with
      | zero => simp [foreach_oid]
      | succ i =>
        simp only [foreach_oid, List.getElem?_cons_succ]
        rw [ih (start + 1) i]
        have : start + 1 + i = start + (i + 1) := by omega
        rw [this]
    | some a0 =>
      cases i with
      | zero => simp [foreach_oid]
      | succ i =>
        simp only [foreach_oid, List.getElem?_cons_succ]
        rw [ih (start + 1) i]
        have : start + 1 + i = start + (i + 1) := by omega
        rw [this]

/-! ## The analog-input sampler: claims on the commands -/

/-- C8: `command_query_analog_in`, for every argument vector and every prior
sampler state, first calls `sched_del_timer`, then `gpio_adc_cancel_sample` on
the sampler's pin, and only then assigns the timing, sampling and validation
fields; it ends with `sched_add_timer` exactly when the stored 8-bit
`sample_count` is positive, and then `waketime = next_begin_time = clock`. -/
theorem query_analog_in_cancels_then_arms (args : Nat → Nat) (a : analog_in) (b : Bool) :
    (command_query_analog_in args a).2 =
      [Event.sched_del_timer, Event.gpio_adc_cancel_sample a.pin,
        Event.store field.next_begin_time, Event.store field.timer_waketime,
        Event.store field.sample_time, Event.store field.sample_count,
        Event.store field.state, Event.store field.rest_time,
        Event.store field.min_value, Event.store field.max_value,
        Event.store field.range_check_count] ++
        (if 0 < (command_query_analog_in args a).1.sample_count then [Event.sched_add_timer]
          else []) ∧
    (command_query_analog_in args a).1.sample_count = args 3 % 256 ∧
    (Event.sched_add_timer ∈ (command_query_analog_in args a).2 ↔
      0 < (command_query_analog_in args a).1.sample_count) ∧
    (timer_armed b (command_query_analog_in args a).2 = true ↔
      0 < (command_query_analog_in args a).1.sample_count) ∧
    (command_query_analog_in args a).1.timer.waketime = args 1 ∧
    (command_query_analog_in args a).1.next_begin_time = args 1 ∧
    (command_query_analog_in args a).1.sample_time = args 2 ∧
    (command_query_analog_in args a).1.rest_time = args 4 ∧
    (command_query_analog_in args a).1.min_value = args 5 % 65536 ∧
    (command_query_analog_in args a).1.max_value = args 6 % 65536 ∧
    (command_query_analog_in args a).1.range_check_count = args 7 % 256 := by
  by_cases h : args 3 % 256 = 0
  · simp [command_query_analog_in, U8, U16, h, timer_armed]
  · have hp : 0 < args 3 % 256 := Nat.pos_of_ne_zero h
    simp [command_query_analog_in, U8, U16, h, hp, timer_armed]

/-- A sampler that `command_query_analog_in` has disabled: `sample_count` is 0
and `state` is not. -/
theorem query_zero_state (args : Nat → Nat) (a : analog_in) (hz : args 3 % 256 = 0) :
    (command_query_analog_in args a).1.sample_count = 0 ∧
      (command_query_analog_in args a).1.state = 1 := by
  simp [command_query_analog_in, U8, hz]

theorem task_body_disabled (oid : Nat) (a : analog_in) (h0 : a.sample_count = 0)
    (h1 : a.state = 1) : analog_in_task_body oid a = (a, []) := by
  simp [analog_in_task_body, h0, h1]

theorem shutdown_body_disabled (oid : Nat) (a : analog_in) (h0 : a.sample_count = 0) :
    analog_in_shutdown_body oid a = (a, [Event.gpio_adc_cancel_sample a.pin]) := by
  simp [analog_in_shutdown_body, h0]

theorem task_body_sendf_oid (oid : Nat) (a : analog_in) (o n v : Nat)
    (h : Event.sendf_analog_in_state o n v ∈ (analog_in_task_body oid a).2) : o = oid := by
  by_cases hs : a.state = a.sample_count
  · simp [analog_in_task_body, hs] at h
    exact h.1
  · simp [analog_in_task_body, hs] at h

theorem shutdown_body_no_sendf (oid : Nat) (a : analog_in) (o n v : Nat) :
    Event.sendf_analog_in_state o n v ∉ (analog_in_shutdown_body oid a).2 := by
  unfold analog_in_shutdown_body
  split <;> simp

theorem run_calls_disabled (calls : List adc_call) :
    ∀ (objs : List (Option analog_in)) (oid : Nat) (a : analog_in),
      objs[oid]? = some (some a) → a.sample_count = 0 → a.state = 1 →
      ∀ e ∈ (run_calls objs calls).2,
        (e.1 = oid → e.2 = Event.gpio_adc_cancel_sample a.pin) ∧
        (∀ n v, e.2 ≠ Event.sendf_analog_in_state oid n v) := by
  induction calls with
  | nil => intro objs oid a _ _ _ e he; simp [run_calls] at he
  | cons c cs ih =>
    intro objs oid a hget h0 h1 e he
    cases c with
    | task pending =>
      simp only [run_calls, List.mem_append] at he
      cases pending with
      | false =>
        simp only [analog_in_task, Bool.not_false, if_true] at he
        rcases he with he | he
        · simp at he
        · exact ih objs oid a hget h0 h1 e he
      | true =>
        simp only [analog_in_task, Bool.not_true] at he
        have hnext : (foreach_oid analog_in_task_body 0 objs).1[oid]? = some (some a) := by
          rw [foreach_oid_get, hget]
          simp [task_body_disabled _ a h0 h1]
        rcases he with he | he
        · obtain ⟨_, a2, hg2, hin⟩ := foreach_oid_events _ _ 0 e he
          constructor
          · intro heq
            rw [heq] at hg2 hin
            simp only [Nat.sub_zero] at hg2
            rw [hget] at hg2
            have : a2 = a := by simpa using hg2.symm
            rw [this, task_body_disabled _ a h0 h1] at hin
            simp at hin
          · intro n v hev
            rw [hev] at hin
            have heq := task_body_sendf_oid _ _ _ _ _ hin
            rw [← heq] at hg2 hin
            simp only [Nat.sub_zero] at hg2
            rw [hget] at hg2
            have : a2 = a := by simpa using hg2.symm
            rw [this, task_body_disabled _ a h0 h1] at hin
            simp at hin
        · exact ih _ oid a hnext h0 h1 e he
    | shutdown =>
      simp only [run_calls, List.mem_append, analog_in_shutdown] at he
      have hnext : (foreach_oid analog_in_shutdown_body 0 objs).1[oid]? = some (some a) := by
        rw [foreach_oid_get, hget]
        simp [shutdown_body_disabled _ a h0]
      rcases he with he | he
      · obtain ⟨_, a2, hg2, hin⟩ := foreach_oid_events _ _ 0 e he
        constructor
        · intro heq
          rw [heq] at hg2 hin
          simp only [Nat.sub_zero] at hg2
          rw [hget] at hg2
          have : a2 = a := by simpa using hg2.symm
          rw [this, shutdown_body_disabled _ a h0] at hin
          simpa using hin
        · intro n v hev
          rw [hev] at hin
          exact shutdown_body_no_sendf _ _ _ _ _ hin
      · exact ih _ oid a hnext h0 h1 e he

/-- C10: whatever the prior state of the sampler of object id `oid`, after
`command_query_analog_in` with an 8-bit `sample_count` of 0 its timer is not
armed (the command de-schedules it and does not add it), and any later sequence
of `analog_in_task` and `analog_in_shutdown` calls, whatever the wake signal,
makes no `sched_add_timer` call and no `sendf` call for that sampler (the only
call it makes for it is `gpio_adc_cancel_sample`) and sends no
`analog_in_state` report carrying that object id. -/
theorem query_zero_disables_sampler (args : Nat → Nat) (objs : List (Option analog_in))
    (oid : Nat) (a0 : analog_in) (b : Bool) (calls : List adc_call)
    (hlook : objs[oid]? = some (some a0)) (hz : args 3 % 256 = 0) :
    timer_armed b (command_query_analog_in args a0).2 = false ∧
    Event.sched_add_timer ∉ (command_query_analog_in args a0).2 ∧
    ∀ e ∈ (run_calls (objs.set oid (some (command_query_analog_in args a0).1)) calls).2,
      (e.1 = oid → e.2 ≠ Event.sched_add_timer ∧
        ∀ o n v, e.2 ≠ Event.sendf_analog_in_state o n v) ∧
      (∀ n v, e.2 ≠ Event.sendf_analog_in_state oid n v) := by
  obtain ⟨h0, h1⟩ := query_zero_state args a0 hz
  have hlen : oid < objs.length := by
    by_contra hcon
    rw [List.getElem?_eq_none (by omega)] at hlook
    simp at hlook
  refine ⟨?_, ?_, ?_⟩
  · simp [command_query_analog_in, U8, hz, timer_armed]
  · simp [command_query_analog_in, U8, hz]
  · intro e he
    have hget : (objs.set oid (some (command_query_analog_in args a0).1))[oid]? =
        some (some (command_query_analog_in args a0).1) := by
      simp [hlen]
    obtain ⟨p1, p2⟩ := run_calls_disabled calls _ oid _ hget h0 h1 e he
    refine ⟨fun heq => ?_, p2⟩
    rw [p1 heq]
    exact ⟨by simp, fun o n v => by simp⟩

/-- Witness of C10: a table whose object 1 is a sampler holding a completed,
unreported cycle; it is disabled, then the task and the shutdown handler run. -/
theorem query_zero_disables_sampler_witness :
    ([none, some { stale_sampler with state := 3, sample_count := 3 }] :
        List (Option analog_in))[1]? =
      some (some { stale_sampler with state := 3, sample_count := 3 }) ∧
    query_0 3 % 256 = 0 ∧
    timer_armed true (command_query_analog_in query_0
      { stale_sampler with state := 3, sample_count := 3 }).2 = false ∧
    Event.sched_add_timer ∉ (command_query_analog_in query_0
      { stale_sampler with state := 3, sample_count := 3 }).2 ∧
    ∀ e ∈ (run_calls
        (([none, some { stale_sampler with state := 3, sample_count := 3 }] :
          List (Option analog_in)).set 1
          (some (command_query_analog_in query_0
            { stale_sampler with state := 3, sample_count := 3 }).1))
        [adc_call.task true, adc_call.shutdown, adc_call.task true]).2,
      (e.1 = 1 → e.2 ≠ Event.sched_add_timer ∧
        ∀ o n v, e.2 ≠ Event.sendf_analog_in_state o n v) ∧
      (∀ n v, e.2 ≠ Event.sendf_analog_in_state 1 n v) :=
  ⟨rfl, rfl, query_zero_disables_sampler query_0
    [none, some { stale_sampler with state := 3, sample_count := 3 }] 1
    { stale_sampler with state := 3, sample_count := 3 } true
    [adc_call.task true, adc_call.shutdown, adc_call.task true] rfl rfl⟩

/-! ## The analog-input sampler: the timer callback -/

theorem analog_in_run_cons (a : analog_in) (r : adc_result) (rs : List adc_result) :
    analog_in_run a (r :: rs) =
      ((analog_in_run (analog_in_event a r).1 rs).1,
        ((analog_in_event a r).1, (analog_in_event a r).2.1, (analog_in_event a r).2.2) ::
          (analog_in_run (analog_in_event a r).1 rs).2) := by
  simp only [analog_in_run]

theorem analog_in_run_append (rs : List adc_result) :
    ∀ (a : analog_in) (r : adc_result),
      analog_in_run a (rs ++ [r]) =
        ((analog_in_event (analog_in_run a rs).1 r).1,
          (analog_in_run a rs).2 ++
            [((analog_in_event (analog_in_run a rs).1 r).1,
              (analog_in_event (analog_in_run a rs).1 r).2.1,
              (analog_in_event (analog_in_run a rs).1 r).2.2)]) := by
  induction rs with
  | nil => intro a r; simp [analog_in_run]
  | cons r0 rs ih =>
    intro a r
    rw [List.cons_append, analog_in_run_cons, ih, analog_in_run_cons]
    simp

theorem event_no_wake (a : analog_in) (r : adc_result)
    (h : Event.sched_wake_task ∉ (analog_in_event a r).2.1) :
    (analog_in_event a r).2.1 = [] ∧
      (analog_in_event a r).1.invalid_count = a.invalid_count ∧
      (analog_in_event a r).1.range_check_count = a.range_check_count := by
  unfold analog_in_event at h ⊢
  dsimp only at h ⊢
  split_ifs at h ⊢ <;> simp_all

theorem event_wake_below (a : analog_in) (r : adc_result)
    (h : Event.sched_wake_task ∈ (analog_in_event a r).2.1)
    (hout : ¬ in_range (analog_in_event a r).1)
    (hlt : a.invalid_count + 1 < a.range_check_count) (h8 : a.range_check_count < 256) :
    (analog_in_event a r).2.1 = [Event.sched_wake_task] ∧
      (analog_in_event a r).1.invalid_count = a.invalid_count + 1 ∧
      (analog_in_event a r).1.range_check_count = a.range_check_count := by
  have e : (a.invalid_count + 1) % U8 = a.invalid_count + 1 :=
    Nat.mod_eq_of_lt (by unfold U8; omega)
  unfold analog_in_event at h hout ⊢
  dsimp only at h hout ⊢
  rw [e] at h hout ⊢
  split_ifs at h hout ⊢ <;> simp_all [in_range] <;> omega

theorem event_wake_reach (a : analog_in) (r : adc_result)
    (h : Event.sched_wake_task ∈ (analog_in_event a r).2.1)
    (hout : ¬ in_range (analog_in_event a r).1)
    (heq : a.invalid_count + 1 = a.range_check_count) (h8 : a.range_check_count < 256) :
    (analog_in_event a r).2.1 =
        [Event.try_shutdown "ADC out of range", Event.sched_wake_task] ∧
      (analog_in_event a r).1.invalid_count = 0 := by
  have e : (a.invalid_count + 1) % U8 = a.invalid_count + 1 :=
    Nat.mod_eq_of_lt (by unfold U8; omega)
  unfold analog_in_event at h hout ⊢
  dsimp only at h hout ⊢
  rw [e] at h hout ⊢
  split_ifs at h hout ⊢ <;> simp_all [in_range]

theorem run_below_count (rs : List adc_result) :
    ∀ a : analog_in, a.range_check_count < 256 →
      (∀ st ∈ (analog_in_run a rs).2, completes st.2.1 = true → ¬ in_range st.1) →
      a.invalid_count +
          ((analog_in_run a rs).2.filter (fun st => completes st.2.1)).length
        < a.range_check_count →
      (∀ st ∈ (analog_in_run a rs).2, ∀ msg, Event.try_shutdown msg ∉ st.2.1) ∧
        (analog_in_run a rs).1.invalid_count = a.invalid_count +
          ((analog_in_run a rs).2.filter (fun st => completes st.2.1)).length ∧
        (analog_in_run a rs).1.range_check_count = a.range_check_count := by
  induction rs with
  | nil => intro a _ _ _; simp [analog_in_run]
  | cons r rs ih =>
    intro a h8 hout hcnt
    rw [analog_in_run_cons] at hout hcnt ⊢
    simp only [List.mem_cons, forall_eq_or_imp, List.filter_cons] at hout hcnt ⊢
    obtain ⟨hout1, hout2⟩ := hout
    by_cases hw : Event.sched_wake_task ∈ (analog_in_event a r).2.1
    · have hc : completes (analog_in_event a r).2.1 = true := by simp [completes, hw]
      simp only [hc, if_true, List.length_cons] at hcnt ⊢
      obtain ⟨e1, e2, e3⟩ := event_wake_below a r hw (hout1 hc) (by omega) h8
      obtain ⟨i1, i2, i3⟩ := ih (analog_in_event a r).1 (by omega) hout2 (by omega)
      refine ⟨⟨?_, i1⟩, ?_, ?_⟩
      · intro msg; rw [e1]; simp
      · rw [i2]; omega
      · rw [i3, e3]
    · have hc : completes (analog_in_event a r).2.1 = false := by simp [completes, hw]
      simp only [hc] at hcnt ⊢
      obtain ⟨e1, e2, e3⟩ := event_no_wake a r hw
      obtain ⟨i1, i2, i3⟩ := ih (analog_in_event a r).1 (by omega) hout2
        (by rw [e2, e3]; simpa using hcnt)
      refine ⟨⟨?_, i1⟩, ?_, ?_⟩
      · intro msg; rw [e1]; simp
      · rw [i2, e2]; simp
      · rw [i3, e3]

/-- C4: for a sampler with `invalid_count = 0` and `range_check_count = R >= 1`,
take any run of `analog_in_event` (any driver answers) that ends with the
completion of an averaging cycle, in which R cycles complete in all and every
completed cycle leaves an accumulated value outside `[min_value, max_value]`.
No invocation before the last one calls `try_shutdown`; the last one, which
completes the R-th cycle, calls it exactly once, with "ADC out of range", before
waking the task; and `invalid_count` is 0 when it returns. -/
theorem out_of_range_cycles_shutdown_once (a : analog_in) (rs : List adc_result)
    (r : adc_result) (h0 : a.invalid_count = 0) (hR1 : 1 ≤ a.range_check_count)
    (hR8 : a.range_check_count < 256)
    (hout : ∀ st ∈ (analog_in_run a (rs ++ [r])).2, completes st.2.1 = true →
      ¬ in_range st.1)
    (hlast : completes (analog_in_event (analog_in_run a rs).1 r).2.1 = true)
    (hcount : ((analog_in_run a (rs ++ [r])).2.filter (fun st => completes st.2.1)).length
      = a.range_check_count) :
    (∀ st ∈ (analog_in_run a rs).2, ∀ msg, Event.try_shutdown msg ∉ st.2.1) ∧
    (analog_in_event (analog_in_run a rs).1 r).2.1 =
      [Event.try_shutdown "ADC out of range", Event.sched_wake_task] ∧
    (analog_in_run a (rs ++ [r])).1.invalid_count = 0 := by
  have _ := hR1
  rw [analog_in_run_append] at hout hcount ⊢
  simp only [List.mem_append, List.mem_singleton, List.filter_append, List.length_append,
    List.filter_cons, hlast, if_true, List.filter_nil, List.length_cons, List.length_nil]
    at hout hcount ⊢
  have hpre := run_below_count rs a hR8 (fun st hst => hout st (Or.inl hst)) (by omega)
  obtain ⟨p1, p2, p3⟩ := hpre
  have hw : Event.sched_wake_task ∈ (analog_in_event (analog_in_run a rs).1 r).2.1 := by
    simpa [completes] using hlast
  have hlastout := hout _ (Or.inr rfl) hlast
  obtain ⟨q1, q2⟩ := event_wake_reach (analog_in_run a rs).1 r hw hlastout
    (by rw [p2, p3]; omega) (by rw [p3]; exact hR8)
  exact ⟨p1, q1, q2⟩


/-- Witness of C4: `sample_count = 1`, `range_check_count = 2`, range `[10, 20]`;
a busy answer, then the values 5 and 30, each completing an out-of-range cycle:
the shutdown is raised by the second cycle only. -/
theorem out_of_range_cycles_shutdown_once_witness :
    (command_query_analog_in query_1 stale_sampler).1.invalid_count = 0 ∧
    (∀ st ∈ (analog_in_run (command_query_analog_in query_1 stale_sampler).1
        [{ sample_delay := 7, value := 0 }, { sample_delay := 0, value := 5 }]).2,
      ∀ msg, Event.try_shutdown msg ∉ st.2.1) ∧
    (analog_in_event (analog_in_run (command_query_analog_in query_1 stale_sampler).1
        [{ sample_delay := 7, value := 0 }, { sample_delay := 0, value := 5 }]).1
        { sample_delay := 0, value := 30 }).2.1 =
      [Event.try_shutdown "ADC out of range", Event.sched_wake_task] ∧
    (analog_in_run (command_query_analog_in query_1 stale_sampler).1
      ([{ sample_delay := 7, value := 0 }, { sample_delay := 0, value := 5 }] ++
        [{ sample_delay := 0, value := 30 }])).1.invalid_count = 0 :=
  ⟨by decide, out_of_range_cycles_shutdown_once
    (command_query_analog_in query_1 stale_sampler).1
    [{ sample_delay := 7, value := 0 }, { sample_delay := 0, value := 5 }]
    { sample_delay := 0, value := 30 } (by decide) (by decide) (by decide) (by decide)
    (by decide) (by decide)⟩

/-! ## The analog-input sampler: a complete averaging cycle -/

theorem event_frame (a : analog_in) (r : adc_result) :
    (analog_in_event a r).1.sample_count = a.sample_count ∧
      (analog_in_event a r).1.min_value = a.min_value ∧
      (analog_in_event a r).1.max_value = a.max_value ∧
      (analog_in_event a r).1.rest_time = a.rest_time ∧
      (analog_in_event a r).1.range_check_count = a.range_check_count := by
  unfold analog_in_event
  dsimp only
  split_ifs <;> simp

theorem accumulate_step (a : analog_in) (r : adc_result) (hd : r.sample_delay = 0)
    (hlt : a.state + 1 < a.sample_count) (h8 : a.sample_count < 256) :
    (analog_in_event a r).1.value = (r.value + a.value) % U16 ∧
      (analog_in_event a r).1.state = a.state + 1 ∧
      (analog_in_event a r).1.invalid_count = a.invalid_count ∧
      (analog_in_event a r).1.next_begin_time = a.next_begin_time ∧
      (analog_in_event a r).2.1 = [] := by
  have e : (a.state + 1) % U8 = a.state + 1 := Nat.mod_eq_of_lt (by unfold U8; omega)
  have hn : ¬ a.state ≥ a.sample_count := by omega
  unfold analog_in_event
  dsimp only
  rw [if_neg (by simp [hd]), if_neg hn]
  dsimp only
  rw [e, if_pos hlt]
  simp

theorem reset_step (a : analog_in) (r : adc_result) (hd : r.sample_delay = 0)
    (hge : a.sample_count ≤ a.state) (h1 : 1 < a.sample_count) :
    (analog_in_event a r).1.value = r.value ∧
      (analog_in_event a r).1.state = 1 ∧
      (analog_in_event a r).1.invalid_count = a.invalid_count ∧
      (analog_in_event a r).1.next_begin_time = a.next_begin_time ∧
      (analog_in_event a r).2.1 = [] := by
  have e : (0 + 1) % U8 = 1 := by decide
  unfold analog_in_event
  dsimp only
  rw [if_neg (by simp [hd]), if_pos hge]
  dsimp only
  rw [e, if_pos h1]
  simp

theorem finish_step (a : analog_in) (r : adc_result) (V : Nat) (hd : r.sample_delay = 0)
    (h8 : a.sample_count < 256)
    (hval : V = if a.sample_count ≤ a.state then r.value else (r.value + a.value) % U16)
    (hdone : (if a.sample_count ≤ a.state then 1 else a.state + 1) = a.sample_count)
    (hmin : a.min_value ≤ V) (hmax : V ≤ a.max_value) :
    (analog_in_event a r).1.value = V ∧
      (analog_in_event a r).1.state = a.sample_count ∧
      (analog_in_event a r).1.invalid_count = 0 ∧
      (analog_in_event a r).1.next_begin_time = (a.next_begin_time + a.rest_time) % U32 ∧
      (analog_in_event a r).1.timer.waketime = (a.next_begin_time + a.rest_time) % U32 ∧
      (analog_in_event a r).2.1 = [Event.sched_wake_task] := by
  unfold analog_in_event
  dsimp only
  rw [if_neg (by simp [hd])]
  by_cases hge : a.sample_count ≤ a.state
  · rw [if_pos hge] at hval hdone
    have e : (0 + 1) % U8 = 1 := by decide
    rw [if_pos hge]
    dsimp only
    rw [e, if_neg (by omega), if_pos ⟨by rw [← hval]; exact hmin, by rw [← hval]; exact hmax⟩]
    simp [hval, hdone]
  · rw [if_neg hge] at hval hdone
    have e : (a.state + 1) % U8 = a.state + 1 := Nat.mod_eq_of_lt (by unfold U8; omega)
    rw [if_neg hge]
    dsimp only
    rw [e, if_neg (by omega), if_pos ⟨by rw [← hval]; exact hmin, by rw [← hval]; exact hmax⟩]
    simp [hval, hdone]

theorem accumulate_run (vs : List Nat) :
    ∀ a : analog_in, a.state + vs.length < a.sample_count → a.sample_count < 256 →
      (analog_in_run a (ready vs)).1.value % U16 = (a.value + vs.sum) % U16 ∧
      ((analog_in_run a (ready vs)).1.value = a.value ∨
        (analog_in_run a (ready vs)).1.value < U16) ∧
      (analog_in_run a (ready vs)).1.state = a.state + vs.length ∧
      (analog_in_run a (ready vs)).1.invalid_count = a.invalid_count ∧
      (analog_in_run a (ready vs)).1.next_begin_time = a.next_begin_time ∧
      (analog_in_run a (ready vs)).1.sample_count = a.sample_count ∧
      (analog_in_run a (ready vs)).1.min_value = a.min_value ∧
      (analog_in_run a (ready vs)).1.max_value = a.max_value ∧
      (analog_in_run a (ready vs)).1.rest_time = a.rest_time ∧
      ((analog_in_run a (ready vs)).2.map (fun st => st.2.1)).flatten = [] := by
  induction vs with
  | nil => intro a _ _; simp [ready, analog_in_run]
  | cons v vs ih =>
    intro a hlt h8
    simp only [List.length_cons] at hlt
    have hr : ready (v :: vs) = { sample_delay := 0, value := v } :: ready vs := rfl
    rw [hr, analog_in_run_cons]
    obtain ⟨s1, s2, s3, s4, s5⟩ := accumulate_step a { sample_delay := 0, value := v } rfl
      (by omega) h8
    obtain ⟨f1, f2, f3, f4, _⟩ := event_frame a { sample_delay := 0, value := v }
    obtain ⟨i1, i2, i3, i4, i5, i6, i7, i8, i9, i10⟩ :=
      ih (analog_in_event a { sample_delay := 0, value := v }).1
        (by rw [s2, f1]; omega) (by rw [f1]; exact h8)
    dsimp only at s1 ⊢
    refine ⟨?_, ?_, ?_, ?_, ?_, ?_, ?_, ?_, ?_, ?_⟩
    · rw [i1, s1, List.sum_cons]
      simp only [U16]
      omega
    · right
      rcases i2 with h | h
      · rw [h, s1]; exact Nat.mod_lt _ (by unfold U16; omega)
      · exact h
    · rw [i3, s2, List.length_cons]; omega
    · rw [i4, s3]
    · rw [i5, s4]
    · rw [i6, f1]
    · rw [i7, f2]
    · rw [i8, f3]
    · rw [i9, f4]
    · simp only [List.map_cons, List.flatten_cons, s5, List.nil_append]
      exact i10

theorem foreach_oid_tagged (body : Nat → analog_in → analog_in × List Event)
    (objs : List (Option analog_in)) :
    ∀ (start oid : Nat) (a : analog_in), start ≤ oid →
      objs[oid - start]? = some (some a) →
      (foreach_oid body start objs).2.filter (fun e => decide (e.1 = oid)) =
        (body oid a).2.map (fun e => (oid, e)) := by
  induction objs with
  | nil => intro start oid a _ h; simp at h
  | cons o rest ih =>
    intro start oid a hle h
    have hlater : ∀ (s : Nat), oid < s →
        (foreach_oid body s rest).2.filter (fun e => decide (e.1 = oid)) = [] := by
      intro s hs
      rw [List.filter_eq_nil_iff]
      intro e he
      have := (foreach_oid_events body rest s e he).1
      simp
      omega
    by_cases heq : oid = start
    · subst heq
      simp only [Nat.sub_self, List.getElem?_cons_zero, Option.some.injEq] at h
      subst h
      simp only [foreach_oid, List.filter_append, hlater (oid + 1) (by omega),
        List.append_nil]
      rw [List.filter_eq_self]
      intro e he
      obtain ⟨x, _, rfl⟩ := List.mem_map.mp he
      simp
    · have hs : oid - start = (oid - (start + 1)) + 1 := by omega
      rw [hs, List.getElem?_cons_succ] at h
      have hrec := ih (start + 1) oid a (by omega) h
      cases o with
      | none => simp only [foreach_oid]; exact hrec
      | some a0 =>
        simp only [foreach_oid, List.filter_append, hrec]
        have : (List.map (fun e => (start, e)) (body start a0).2).filter
            (fun e => decide (e.1 = oid)) = [] := by
          rw [List.filter_eq_nil_iff]
          intro e he
          obtain ⟨x, _, rfl⟩ := List.mem_map.mp he
          simp
          omega
        rw [this, List.nil_append]

theorem list_split_last (vs : List Nat) (h : 1 ≤ vs.length) :
    ∃ mid vl, vs = mid ++ [vl] ∧ mid.length + 1 = vs.length := by
  rcases List.eq_nil_or_concat vs with h0 | ⟨mid, vl, h1⟩
  · rw [h0] at h; simp at h
  · exact ⟨mid, vl, by rw [h1]; simp, by rw [h1]; simp⟩

theorem ready_append (xs ys : List Nat) : ready (xs ++ ys) = ready xs ++ ready ys := by
  simp [ready]

/-- One complete averaging cycle.  A sampler with `sample_count = N` in 1..254
whose `state` is at least N (idle after `command_query_analog_in`, idle after a
report, or holding an unreported result) is given N ready samples of sum S with
`min_value <= S <= max_value`.  The run leaves `value = S`, `invalid_count = 0`
and `state = N`, its only call is the task wake-up, and the task then sends one
report with value S and the new `next_begin_time` and moves `state` to N + 1. -/
theorem sampler_cycle_reports_sum (a : analog_in) (vs : List Nat) (oid : Nat)
    (hN1 : 1 ≤ a.sample_count) (hN : a.sample_count ≤ 254)
    (hidle : a.sample_count ≤ a.state) (hlen : vs.length = a.sample_count)
    (h16 : ∀ v ∈ vs, v < 65536) (hmax16 : a.max_value < 65536)
    (hmin : a.min_value ≤ vs.sum) (hmax : vs.sum ≤ a.max_value) :
    (analog_in_run a (ready vs)).1.value = vs.sum ∧
    (analog_in_run a (ready vs)).1.invalid_count = 0 ∧
    (analog_in_run a (ready vs)).1.state = a.sample_count ∧
    (analog_in_run a (ready vs)).1.sample_count = a.sample_count ∧
    ((analog_in_run a (ready vs)).2.map (fun st => st.2.1)).flatten =
      [Event.sched_wake_task] ∧
    (analog_in_task_body oid (analog_in_run a (ready vs)).1).2 =
      [Event.sendf_analog_in_state oid ((a.next_begin_time + a.rest_time) % 4294967296)
        vs.sum] ∧
    (analog_in_task_body oid (analog_in_run a (ready vs)).1).1.state = a.sample_count + 1 ∧
    (analog_in_task_body oid (analog_in_run a (ready vs)).1).1.invalid_count = 0 ∧
    ∀ objs : List (Option analog_in),
      objs[oid]? = some (some (analog_in_run a (ready vs)).1) →
      (analog_in_task true objs).2.filter (fun e => decide (e.1 = oid)) =
        [(oid, Event.sendf_analog_in_state oid
          ((a.next_begin_time + a.rest_time) % 4294967296) vs.sum)] := by
  have hS : vs.sum < 65536 := by omega
  have key : (analog_in_run a (ready vs)).1.value = vs.sum ∧
      (analog_in_run a (ready vs)).1.invalid_count = 0 ∧
      (analog_in_run a (ready vs)).1.state = a.sample_count ∧
      (analog_in_run a (ready vs)).1.sample_count = a.sample_count ∧
      (analog_in_run a (ready vs)).1.next_begin_time =
        (a.next_begin_time + a.rest_time) % U32 ∧
      ((analog_in_run a (ready vs)).2.map (fun st => st.2.1)).flatten =
        [Event.sched_wake_task] := by
    cases vs with
    | nil => simp at hlen; omega
    | cons v1 rest =>
      have hr : ready (v1 :: rest) = { sample_delay := 0, value := v1 } :: ready rest := rfl
      by_cases h1 : a.sample_count = 1
      · have hrest : rest = [] := by
          apply List.eq_nil_of_length_eq_zero
          simp only [List.length_cons] at hlen
          omega
        subst hrest
        simp only [List.sum_cons, List.sum_nil, Nat.add_zero] at hmin hmax hS
        obtain ⟨q1, q2, q3, q4, _, q6⟩ := finish_step a { sample_delay := 0, value := v1 } v1
          rfl (by omega) (by rw [if_pos hidle]) (by rw [if_pos hidle, h1]) hmin hmax
        obtain ⟨f1, _⟩ := event_frame a { sample_delay := 0, value := v1 }
        rw [hr, analog_in_run_cons]
        simp only [ready, List.map_nil, analog_in_run, List.sum_cons, List.sum_nil,
          Nat.add_zero, List.map_cons, List.flatten_cons, List.flatten_nil, List.append_nil]
        exact ⟨q1, q3, q2, f1, q4, q6⟩
      · simp only [List.length_cons] at hlen
        obtain ⟨mid, vl, hsplit, hmidlen⟩ := list_split_last rest (by omega)
        subst hsplit
        have hv1 : v1 < 65536 := h16 v1 (by simp)
        obtain ⟨s1, s2, s3, s4, s5⟩ := reset_step a { sample_delay := 0, value := v1 } rfl
          hidle (by omega)
        obtain ⟨f1, f2, f3, f4, _⟩ := event_frame a { sample_delay := 0, value := v1 }
        dsimp only at s1
        obtain ⟨i1, i2, i3, i4, i5, i6, i7, i8, i9, i10⟩ := accumulate_run mid
          (analog_in_event a { sample_delay := 0, value := v1 }).1
          (by rw [s2, f1]; simp only [List.length_append, List.length_singleton] at hlen; omega)
          (by rw [f1]; omega)
        have hval : (analog_in_run (analog_in_event a { sample_delay := 0, value := v1 }).1
            (ready mid)).1.value = (v1 + mid.sum) % 65536 := by
          rw [s1] at i1 i2
          simp only [U16] at i1 i2
          omega
        simp only [List.length_append, List.length_singleton] at hlen
        simp only [List.sum_cons, List.sum_append, List.sum_singleton] at hmin hmax hS
        obtain ⟨q1, q2, q3, q4, _, q6⟩ := finish_step
          (analog_in_run (analog_in_event a { sample_delay := 0, value := v1 }).1
            (ready mid)).1 { sample_delay := 0, value := vl } (v1 + (mid.sum + vl))
          rfl (by rw [i6, f1]; omega)
          (by
            rw [i6, f1, i3, s2, if_neg (by omega), hval]
            simp only [U16]
            omega)
          (by rw [i6, f1, i3, s2, if_neg (by omega)]; omega)
          (by rw [i7, f2]; exact hmin) (by rw [i8, f3]; exact hmax)
        rw [hr, analog_in_run_cons, ready_append]
        have hrl : ready [vl] = [{ sample_delay := 0, value := vl }] := rfl
        rw [hrl, analog_in_run_append]
        simp only [List.sum_cons, List.sum_append, List.sum_singleton, List.map_cons,
          List.map_append, List.flatten_cons, List.flatten_append, List.map_nil,
          List.flatten_nil, List.append_nil, s5, i10, List.nil_append]
        refine ⟨q1, q3, ?_, ?_, ?_, q6⟩
        · rw [q2, i6, f1]
        · rw [(event_frame _ _).1, i6, f1]
        · rw [q4, i5, s4, i9, f4]
  obtain ⟨k1, k2, k3, k4, k5, k6⟩ := key
  have hbody : analog_in_task_body oid (analog_in_run a (ready vs)).1 =
      ({ (analog_in_run a (ready vs)).1 with state := a.sample_count + 1 },
        [Event.sendf_analog_in_state oid ((a.next_begin_time + a.rest_time) % 4294967296)
          vs.sum]) := by
    have e : (a.sample_count + 1) % U8 = a.sample_count + 1 :=
      Nat.mod_eq_of_lt (by unfold U8; omega)
    unfold analog_in_task_body
    rw [if_neg (by rw [k3, k4]; simp), if_neg (by rw [k3, k4]; simp)]
    dsimp only
    rw [k3, e, k5, k1]
    rfl
  refine ⟨k1, k2, k3, k4, k6, ?_, ?_, ?_, ?_⟩
  · rw [hbody]
  · rw [hbody]
  · rw [hbody]; exact k2
  · intro objs hobjs
    have := foreach_oid_tagged analog_in_task_body objs 0 oid _ (Nat.zero_le _)
      (by simpa using hobjs)
    simp only [analog_in_task, Bool.not_true]
    rw [if_neg (by simp), this, hbody]
    rfl


/-- Witness of the complete-cycle theorem: the sampler as
`command_query_analog_in` leaves it with `sample_count = 3` and range
`[10, 20]`, given the samples 4, 5 and 6. -/
theorem sampler_cycle_reports_sum_witness :
    (command_query_analog_in query_3 stale_sampler).1.sample_count ≤
      (command_query_analog_in query_3 stale_sampler).1.state ∧
    (analog_in_run (command_query_analog_in query_3 stale_sampler).1
      (ready [4, 5, 6])).1.value = [4, 5, 6].sum ∧
    (analog_in_run (command_query_analog_in query_3 stale_sampler).1
      (ready [4, 5, 6])).1.invalid_count = 0 ∧
    (analog_in_run (command_query_analog_in query_3 stale_sampler).1
      (ready [4, 5, 6])).1.state =
      (command_query_analog_in query_3 stale_sampler).1.sample_count ∧
    (analog_in_run (command_query_analog_in query_3 stale_sampler).1
      (ready [4, 5, 6])).1.sample_count =
      (command_query_analog_in query_3 stale_sampler).1.sample_count ∧
    ((analog_in_run (command_query_analog_in query_3 stale_sampler).1
      (ready [4, 5, 6])).2.map (fun st => st.2.1)).flatten = [Event.sched_wake_task] ∧
    (analog_in_task_body 7 (analog_in_run (command_query_analog_in query_3 stale_sampler).1
      (ready [4, 5, 6])).1).2 =
      [Event.sendf_analog_in_state 7
        (((command_query_analog_in query_3 stale_sampler).1.next_begin_time +
          (command_query_analog_in query_3 stale_sampler).1.rest_time) % 4294967296)
        [4, 5, 6].sum] ∧
    (analog_in_task_body 7 (analog_in_run (command_query_analog_in query_3 stale_sampler).1
      (ready [4, 5, 6])).1).1.state =
      (command_query_analog_in query_3 stale_sampler).1.sample_count + 1 ∧
    (analog_in_task_body 7 (analog_in_run (command_query_analog_in query_3 stale_sampler).1
      (ready [4, 5, 6])).1).1.invalid_count = 0 ∧
    ∀ objs : List (Option analog_in),
      objs[7]? = some (some (analog_in_run (command_query_analog_in query_3 stale_sampler).1
        (ready [4, 5, 6])).1) →
      (analog_in_task true objs).2.filter (fun e => decide (e.1 = 7)) =
        [(7, Event.sendf_analog_in_state 7
          (((command_query_analog_in query_3 stale_sampler).1.next_begin_time +
            (command_query_analog_in query_3 stale_sampler).1.rest_time) % 4294967296)
          [4, 5, 6].sum)] :=
  ⟨by decide, sampler_cycle_reports_sum (command_query_analog_in query_3 stale_sampler).1
    [4, 5, 6] 7 (by decide) (by decide) (by decide) (by decide) (by decide) (by decide)
    (by decide) (by decide)⟩

/-! ## Two places where the code departs from the stated behaviour -/

/-- C3, the code at `sample_count = 255`: `command_query_analog_in` stores
`state = (255 + 1) mod 256 = 0`, so the first sample of the cycle is added to the
stale accumulator instead of replacing it.  With a stale value 1, 255 ready
samples of 0 (sum 0, inside `[min_value, max_value] = [0, 0]`) end with
`value = 1`, `invalid_count = 1`, and `analog_in_task` reports the value 1. -/
theorem query_255_keeps_stale_accumulator :
    (command_query_analog_in query_255 stale_sampler).1.state = 0 ∧
    (List.replicate 255 0).sum = 0 ∧
    (analog_in_run (command_query_analog_in query_255 stale_sampler).1
      (ready (List.replicate 255 0))).1.value = 1 ∧
    (analog_in_run (command_query_analog_in query_255 stale_sampler).1
      (ready (List.replicate 255 0))).1.invalid_count = 1 ∧
    (analog_in_task true
      [some (analog_in_run (command_query_analog_in query_255 stale_sampler).1
        (ready (List.replicate 255 0))).1]).2 =
      [(0, Event.sendf_analog_in_state 0 1050 1)] := by
  set_option maxRecDepth 100000 in
  decide

/-- The calls `command_analog_endstop_home` makes never include
`gpio_adc_cancel_sample`, and the first one is `sched_del_timer`. -/
theorem endstop_home_never_cancels_adc (lookup : Nat → Nat) (args : Nat → Nat)
    (e : analog_endstop) :
    (∀ pin, Event.gpio_adc_cancel_sample pin ∉ (command_analog_endstop_home lookup args e).2) ∧
      (command_analog_endstop_home lookup args e).2.head? = some Event.sched_del_timer := by
  unfold command_analog_endstop_home
  dsimp only
  split_ifs <;> simp

/-- C7, the code on a home command that arms the endstop and on one that
disables it: the calls made are `sched_del_timer` followed by the assignments
(and `sched_add_timer` when arming); `gpio_adc_cancel_sample` is not among them,
while `command_query_analog_in` makes that call on its sampler's pin. -/
theorem endstop_home_calls :
    (command_analog_endstop_home lookup_100 home_2 used_endstop).2 =
      [Event.sched_del_timer, Event.store field.timer_waketime,
        Event.store field.sample_time, Event.store field.oversample_count,
        Event.store field.rest_time, Event.store field.timer_func,
        Event.store field.treshold, Event.store field.ts,
        Event.store field.trigger_reason, Event.store field.ma, Event.sched_add_timer] ∧
    (command_analog_endstop_home lookup_100 home_0 used_endstop).2 =
      [Event.sched_del_timer, Event.store field.timer_waketime,
        Event.store field.sample_time, Event.store field.oversample_count,
        Event.store field.ts] ∧
    Event.gpio_adc_cancel_sample stale_sampler.pin ∈
      (command_query_analog_in query_3 stale_sampler).2 := by
  decide

/-! ## The analog endstop: lemmas -/

theorem add_value_some (ma : moving_average) (v : Nat) (h : index_ok ma) :
    ∃ ma1 out, moving_average_add_value ma v = some (ma1, out) ∧ index_ok ma1 := by
  obtain ⟨h1, h2⟩ := h
  have hi : ∀ m1 : moving_average, m1.index = Int.tmod (ma.index + 1) (BUFFER_SIZE : Int) →
      index_ok m1 := by
    intro m1 hm1
    have e : Int.tmod (ma.index + 1) (BUFFER_SIZE : Int) = (ma.index + 1) % 128 := by
      unfold BUFFER_SIZE
      rw [Int.tmod_eq_emod (by omega) (by norm_num)]
      norm_num
    unfold index_ok
    rw [hm1, e]
    constructor <;> omega
  unfold moving_average_add_value
  rw [if_pos ⟨h1, by unfold BUFFER_SIZE; exact_mod_cast h2⟩]
  dsimp only
  split_ifs
  all_goals exact ⟨_, _, rfl, hi _ rfl⟩

theorem oversample_delay (a : analog_endstop) (r : adc_result) (hd : r.sample_delay ≠ 0) :
    analog_endstop_oversample_event a r =
      some ({ a with timer.waketime := (a.timer.waketime + r.sample_delay) % U32 }, [],
        SF_RESCHEDULE) := by
  unfold analog_endstop_oversample_event
  rw [if_pos hd]

theorem oversample_below (a : analog_endstop) (r : adc_result) (ma1 : moving_average)
    (m : Nat) (hd : r.sample_delay = 0)
    (hadd : moving_average_add_value a.ma r.value = some (ma1, m)) (hle : m ≤ a.treshold) :
    analog_endstop_oversample_event a r =
      some ({ a with ma := ma1, timer.waketime := (a.timer.waketime + a.sample_time) % U32 },
        [Event.filter_add timer_func.analog_endstop_oversample_event r.value m],
        SF_RESCHEDULE) := by
  unfold analog_endstop_oversample_event
  rw [if_neg (by simp [hd]), hadd]
  dsimp only
  rw [if_neg (by omega)]

theorem oversample_above (a : analog_endstop) (r : adc_result) (ma1 : moving_average)
    (m : Nat) (hd : r.sample_delay = 0)
    (hadd : moving_average_add_value a.ma r.value = some (ma1, m)) (hgt : a.treshold < m) :
    analog_endstop_oversample_event a r =
      some ({ a with ma := ma1 },
        [Event.filter_add timer_func.analog_endstop_oversample_event r.value m,
          Event.trsync_do_trigger a.ts a.trigger_reason],
        SF_DONE) := by
  unfold analog_endstop_oversample_event
  rw [if_neg (by simp [hd]), hadd]
  dsimp only
  rw [if_pos hgt]
  rfl

theorem oversample_shape (lookup args : Nat → Nat) (a : analog_endstop) (r : adc_result)
    (h : armed_by lookup args a) :
    ∃ a1 tr ret, analog_endstop_oversample_event a r = some (a1, tr, ret) ∧
      (a.timer.func = timer_func.analog_endstop_oversample_event →
        armed_by lookup args a1) ∧
      a1.timer.func = a.timer.func ∧
      step_shape (args 5 % U16) (some (lookup (args 6))) (args 7 % U8) tr ret := by
  by_cases hd : r.sample_delay = 0
  · obtain ⟨ma1, m, hadd, hidx⟩ := add_value_some a.ma r.value h.index_in
    by_cases hm : m ≤ a.treshold
    · refine ⟨_, _, _, oversample_below a r ma1 m hd hadd hm, ?_, rfl, ?_⟩
      · intro hf
        exact ⟨h.treshold_eq, h.ts_eq, h.reason_eq, Or.inr hf, hidx⟩
      · have := @step_shape.below (args 5 % U16) (some (lookup (args 6))) (args 7 % U8)
          [] r.value m (by simp) (by rw [← h.treshold_eq]; exact hm)
        simpa using this
    · refine ⟨_, _, _, oversample_above a r ma1 m hd hadd (by omega), ?_, rfl, ?_⟩
      · intro hf
        exact ⟨h.treshold_eq, h.ts_eq, h.reason_eq, Or.inr hf, hidx⟩
      · have := @step_shape.fire (args 5 % U16) (some (lookup (args 6))) (args 7 % U8)
          [] r.value m (by simp) (by rw [← h.treshold_eq]; omega)
        rw [h.ts_eq, h.reason_eq]
        simpa using this
  · refine ⟨_, _, _, oversample_delay a r hd, ?_, rfl, ?_⟩
    · intro hf
      exact ⟨h.treshold_eq, h.ts_eq, h.reason_eq, Or.inr hf, h.index_in⟩
    · exact step_shape.idle [] (by simp)

theorem step_shape_cons (treshold : Nat) (ts : Option Nat) (reason : Nat) (e : Event)
    (tr : List Event) (ret : Nat) (he : is_trigger e = false ∧ is_confirmation e = false)
    (h : step_shape treshold ts reason tr ret) :
    step_shape treshold ts reason (e :: tr) ret := by
  cases h with
  | idle _ hp =>
    exact step_shape.idle (e :: tr) (by
      intro x hx
      rcases List.mem_cons.mp hx with rfl | hx
      · exact he
      · exact hp x hx)
  | below pre v m hp hm =>
    have := @step_shape.below treshold ts reason (e :: pre) v m (by
      intro x hx
      rcases List.mem_cons.mp hx with rfl | hx
      · exact he
      · exact hp x hx) hm
    simpa using this
  | fire pre v m hp hm =>
    have := @step_shape.fire treshold ts reason (e :: pre) v m (by
      intro x hx
      rcases List.mem_cons.mp hx with rfl | hx
      · exact he
      · exact hp x hx) hm
    simpa using this

theorem event_delay (a : analog_endstop) (r r2 : adc_result) (hd : r.sample_delay ≠ 0) :
    analog_endstop_event a r r2 =
      some ({ a with timer.waketime := (a.timer.waketime + r.sample_delay) % U32 }, [],
        SF_RESCHEDULE) := by
  unfold analog_endstop_event
  rw [if_pos hd]

theorem event_below (a : analog_endstop) (r r2 : adc_result) (ma1 : moving_average)
    (m : Nat) (hd : r.sample_delay = 0)
    (hadd : moving_average_add_value a.ma r.value = some (ma1, m))
    (hlt : r.value < a.treshold) :
    analog_endstop_event a r r2 =
      some ({ a with ma := ma1, timer.waketime := (a.timer.waketime + a.rest_time) % U32 },
        [Event.filter_add timer_func.analog_endstop_event r.value m], SF_RESCHEDULE) := by
  unfold analog_endstop_event
  rw [if_neg (by simp [hd])]
  dsimp only
  rw [hadd]
  dsimp only
  rw [if_pos hlt]

theorem event_crossed (a : analog_endstop) (r r2 : adc_result) (ma1 : moving_average)
    (m : Nat) (hd : r.sample_delay = 0)
    (hadd : moving_average_add_value a.ma r.value = some (ma1, m))
    (hge : a.treshold ≤ r.value) :
    analog_endstop_event a r r2 =
      match analog_endstop_oversample_event
        { a with ma := ma1, nextwake := (a.timer.waketime + a.rest_time) % U32,
                 timer.func := timer_func.analog_endstop_oversample_event } r2 with
      | none => none
      | some (a4, tr2, ret) =>
        some (a4, [Event.filter_add timer_func.analog_endstop_event r.value m] ++ tr2, ret) := by
  unfold analog_endstop_event
  rw [if_neg (by simp [hd])]
  dsimp only
  rw [hadd]
  dsimp only
  rw [if_neg (by omega)]

theorem event_shape (lookup args : Nat → Nat) (a : analog_endstop) (r r2 : adc_result)
    (h : armed_by lookup args a) (hf : a.timer.func = timer_func.analog_endstop_event) :
    ∃ a1 tr ret, analog_endstop_event a r r2 = some (a1, tr, ret) ∧
      armed_by lookup args a1 ∧
      step_shape (args 5 % U16) (some (lookup (args 6))) (args 7 % U8) tr ret := by
  by_cases hd : r.sample_delay = 0
  · obtain ⟨ma1, m, hadd, hidx⟩ := add_value_some a.ma r.value h.index_in
    by_cases hv : r.value < a.treshold
    · refine ⟨_, _, _, event_below a r r2 ma1 m hd hadd hv, ?_, ?_⟩
      · exact ⟨h.treshold_eq, h.ts_eq, h.reason_eq, Or.inl hf, hidx⟩
      · exact step_shape.idle _ (by simp [is_trigger, is_confirmation])
    · have harm : armed_by lookup args
          { a with ma := ma1, nextwake := (a.timer.waketime + a.rest_time) % U32,
                   timer.func := timer_func.analog_endstop_oversample_event } :=
        ⟨h.treshold_eq, h.ts_eq, h.reason_eq, Or.inr rfl, hidx⟩
      obtain ⟨a4, tr2, ret, e4, w4, _, s4⟩ := oversample_shape lookup args _ r2 harm
      refine ⟨a4, [Event.filter_add timer_func.analog_endstop_event r.value m] ++ tr2, ret,
        ?_, w4 rfl, ?_⟩
      · rw [event_crossed a r r2 ma1 m hd hadd (by omega), e4]
      · exact step_shape_cons _ _ _ _ _ _ (by simp [is_trigger, is_confirmation]) s4
  · refine ⟨_, _, _, event_delay a r r2 hd, ?_, ?_⟩
    · exact ⟨h.treshold_eq, h.ts_eq, h.reason_eq, Or.inl hf, h.index_in⟩
    · exact step_shape.idle [] (by simp)

theorem invoke_shape (lookup args : Nat → Nat) (a : analog_endstop) (r r2 : adc_result)
    (h : armed_by lookup args a) :
    ∃ a1 tr ret, endstop_invoke a r r2 = some (a1, tr, ret) ∧
      armed_by lookup args a1 ∧
      step_shape (args 5 % U16) (some (lookup (args 6))) (args 7 % U8) tr ret := by
  rcases h.func_eq with hf | hf
  · obtain ⟨a1, tr, ret, e, w, s⟩ := event_shape lookup args a r r2 h hf
    exact ⟨a1, tr, ret, by simp only [endstop_invoke, hf, e], w, s⟩
  · obtain ⟨a1, tr, ret, e, w, _, s⟩ := oversample_shape lookup args a r h
    exact ⟨a1, tr, ret, by simp only [endstop_invoke, hf, e], w hf, s⟩

theorem step_shape_ret (treshold : Nat) (ts : Option Nat) (reason : Nat)
    (tr : List Event) (ret : Nat) (h : step_shape treshold ts reason tr ret) :
    ret = SF_DONE ∨ ret = SF_RESCHEDULE := by
  cases h <;> simp

theorem run_shape (lookup args : Nat → Nat) (rs : List (adc_result × adc_result)) :
    ∀ a : analog_endstop, armed_by lookup args a →
      ∃ aF steps, endstop_run a rs = some (aF, steps) ∧ armed_by lookup args aF ∧
        (∀ st ∈ steps,
          step_shape (args 5 % U16) (some (lookup (args 6))) (args 7 % U8) st.2.1 st.2.2) ∧
        (∀ st ∈ steps.dropLast, st.2.2 = SF_RESCHEDULE) := by
  induction rs with
  | nil => intro a h; exact ⟨a, [], rfl, h, by simp, by simp⟩
  | cons rr rs ih =>
    intro a h
    obtain ⟨a1, tr, ret, e, w, s⟩ := invoke_shape lookup args a rr.1 rr.2 h
    by_cases hdone : ret = SF_DONE
    · refine ⟨a1, [(a1, tr, ret)], ?_, w, ?_, by simp⟩
      · simp only [endstop_run, e, hdone, if_true]
      · intro st hst
        have : st = (a1, tr, ret) := by simpa using hst
        rw [this]; exact s
    · obtain ⟨aF, steps, e2, w2, s2, d2⟩ := ih a1 w
      refine ⟨aF, (a1, tr, ret) :: steps, ?_, w2, ?_, ?_⟩
      · simp only [endstop_run, e, hdone, if_false, e2]
      · intro st hst
        rcases List.mem_cons.mp hst with rfl | hst
        · exact s
        · exact s2 st hst
      · intro st hst
        cases steps with
        | nil => simp at hst
        | cons s0 rest =>
          rw [List.dropLast_cons₂] at hst
          rcases List.mem_cons.mp hst with rfl | hst
          · rcases step_shape_ret _ _ _ _ _ s with h1 | h1
            · exact absurd h1 hdone
            · exact h1
          · exact d2 st hst

theorem home_armed (lookup args : Nat → Nat) (e : analog_endstop)
    (h : args 3 % 256 ≠ 0) :
    armed_by lookup args (command_analog_endstop_home lookup args e).1 := by
  unfold command_analog_endstop_home
  dsimp only
  rw [if_neg (by unfold U8; exact h)]
  exact ⟨rfl, rfl, rfl, Or.inl rfl, by simp [index_ok, moving_average_init]⟩

theorem sf_codes_differ : SF_RESCHEDULE ≠ SF_DONE := by decide

theorem filter_trigger_nil (pre : List Event)
    (hp : ∀ e ∈ pre, is_trigger e = false ∧ is_confirmation e = false) :
    pre.filter is_trigger = [] := by
  rw [List.filter_eq_nil_iff]
  intro e he
  simp [(hp e he).1]

theorem step_shape_facts (treshold : Nat) (ts : Option Nat) (reason : Nat)
    (tr : List Event) (ret : Nat) (h : step_shape treshold ts reason tr ret) :
    ((∃ v m, Event.filter_add timer_func.analog_endstop_oversample_event v m ∈ tr ∧
        treshold < m) ↔ ret = SF_DONE) ∧
    (ret = SF_DONE → tr.filter is_trigger = [Event.trsync_do_trigger ts reason]) ∧
    (ret ≠ SF_DONE → ret = SF_RESCHEDULE ∧ tr.filter is_trigger = []) := by
  cases h with
  | idle _ hp =>
    refine ⟨⟨?_, fun h => absurd h sf_codes_differ⟩, fun h => absurd h sf_codes_differ,
      fun _ => ⟨rfl, filter_trigger_nil tr hp⟩⟩
    rintro ⟨v, m, hin, _⟩
    have := (hp _ hin).2
    simp [is_confirmation] at this
  | below pre v m hp hm =>
    refine ⟨⟨?_, fun h => absurd h sf_codes_differ⟩, fun h => absurd h sf_codes_differ,
      fun _ => ⟨rfl, ?_⟩⟩
    · rintro ⟨v2, m2, hin, hlt⟩
      rcases List.mem_append.mp hin with hin | hin
      · have := (hp _ hin).2
        simp [is_confirmation] at this
      · simp at hin
        omega
    · rw [List.filter_append, filter_trigger_nil pre hp]
      simp [is_trigger]
  | fire pre v m hp hm =>
    refine ⟨⟨fun _ => rfl, fun _ => ⟨v, m, by simp, hm⟩⟩, fun _ => ?_,
      fun h => absurd rfl h⟩
    rw [List.filter_append, filter_trigger_nil pre hp]
    simp [is_trigger]

theorem run_events_cons (st : analog_endstop × List Event × Nat)
    (steps : List (analog_endstop × List Event × Nat)) :
    run_events (st :: steps) = st.2.1 ++ run_events steps := by
  simp [run_events]

theorem run_triggers (treshold : Nat) (ts : Option Nat) (reason : Nat)
    (steps : List (analog_endstop × List Event × Nat)) :
    (∀ st ∈ steps, step_shape treshold ts reason st.2.1 st.2.2) →
    (∀ st ∈ steps.dropLast, st.2.2 = SF_RESCHEDULE) →
    ((∃ st ∈ steps, st.2.2 = SF_DONE) →
      (run_events steps).filter is_trigger = [Event.trsync_do_trigger ts reason]) ∧
    ((∀ st ∈ steps, st.2.2 ≠ SF_DONE) → (run_events steps).filter is_trigger = []) := by
  induction steps with
  | nil => intro _ _; simp [run_events]
  | cons st rest ih =>
    intro hs hd
    have f := step_shape_facts _ _ _ _ _ (hs st (List.mem_cons_self st rest))
    rw [run_events_cons, List.filter_append]
    cases rest with
    | nil =>
      simp only [run_events, List.map_nil, List.flatten_nil, List.filter_nil,
        List.append_nil, List.mem_singleton, exists_eq_left, forall_eq]
      exact ⟨f.2.1, fun h => (f.2.2 h).2⟩
    | cons s2 rest2 =>
      have hst : st.2.2 = SF_RESCHEDULE := hd st (by simp [List.dropLast_cons₂])
      have hne : st.2.2 ≠ SF_DONE := by rw [hst]; exact sf_codes_differ
      have hnil := (f.2.2 hne).2
      obtain ⟨i1, i2⟩ := ih (fun x hx => hs x (List.mem_cons_of_mem st hx))
        (fun x hx => hd x (by rw [List.dropLast_cons₂]; exact List.mem_cons_of_mem st hx))
      rw [hnil, List.nil_append]
      constructor
      · rintro ⟨x, hx, hdone⟩
        rcases List.mem_cons.mp hx with rfl | hx
        · exact absurd hdone hne
        · exact i1 ⟨x, hx, hdone⟩
      · intro hall
        exact i2 (fun x hx => hall x (List.mem_cons_of_mem st hx))

theorem invoke_by_mean (a : analog_endstop) (r r2 : adc_result) (hidx : index_ok a.ma)
    (hfunc : a.timer.func = timer_func.analog_endstop_event ∨
      a.timer.func = timer_func.analog_endstop_oversample_event) :
    ∃ a1 tr ret, endstop_invoke a r r2 = some (a1, tr, ret) ∧
      (∀ m, oversample_mean a r r2 = some m → a.treshold < m →
        ret = SF_DONE ∧ ∃ pre v,
          (∀ e ∈ pre, is_trigger e = false ∧ is_confirmation e = false) ∧
          tr = pre ++ [Event.filter_add timer_func.analog_endstop_oversample_event v m,
            Event.trsync_do_trigger a.ts a.trigger_reason]) ∧
      (∀ m, oversample_mean a r r2 = some m → m ≤ a.treshold → ret = SF_RESCHEDULE) ∧
      (oversample_mean a r r2 = none → ret = SF_RESCHEDULE) := by
  rcases hfunc with hf | hf
  · have hinv : endstop_invoke a r r2 = analog_endstop_event a r r2 := by
      unfold endstop_invoke; rw [hf]
    by_cases hd : r.sample_delay = 0
    · obtain ⟨ma1, m1, hadd, hidx1⟩ := add_value_some a.ma r.value hidx
      by_cases hv : r.value < a.treshold
      · have hmean : oversample_mean a r r2 = none := by
          simp [oversample_mean, hf, hd, not_le.mpr hv]
        refine ⟨_, _, _, hinv.trans (event_below a r r2 ma1 m1 hd hadd hv), ?_, ?_, ?_⟩
        · intro m hm; rw [hmean] at hm; simp at hm
        · intro _ _ _; rfl
        · intro _; rfl
      · have hge : a.treshold ≤ r.value := by omega
        by_cases hd2 : r2.sample_delay = 0
        · obtain ⟨ma2, m2, hadd2, _⟩ := add_value_some ma1 r2.value hidx1
          have hmean : oversample_mean a r r2 = some m2 := by
            simp [oversample_mean, hf, hd, hd2, hge, hadd, hadd2]
          by_cases hm2 : m2 ≤ a.treshold
          · have e4 := oversample_below
              ({ a with ma := ma1, nextwake := (a.timer.waketime + a.rest_time) % U32,
                         timer.func := timer_func.analog_endstop_oversample_event })
              r2 ma2 m2 hd2 hadd2 hm2
            rw [hinv, event_crossed a r r2 ma1 m1 hd hadd hge, e4]
            refine ⟨_, _, _, rfl, ?_, ?_, ?_⟩
            · intro m hm hgt
              rw [hmean] at hm
              have : m2 = m := by simpa using hm
              omega
            · intro _ _ _; rfl
            · intro hm; exact absurd (hmean.symm.trans hm) (by simp)
          · have e4 := oversample_above
              ({ a with ma := ma1, nextwake := (a.timer.waketime + a.rest_time) % U32,
                         timer.func := timer_func.analog_endstop_oversample_event })
              r2 ma2 m2 hd2 hadd2 (by show a.treshold < m2; omega)
            rw [hinv, event_crossed a r r2 ma1 m1 hd hadd hge, e4]
            refine ⟨_, _, _, rfl, ?_, ?_, ?_⟩
            · intro m hm _
              rw [hmean] at hm
              have : m2 = m := by simpa using hm
              subst this
              exact ⟨rfl, [Event.filter_add timer_func.analog_endstop_event r.value m1],
                r2.value, by simp [is_trigger, is_confirmation], rfl⟩
            · intro m hm hle
              rw [hmean] at hm
              have : m2 = m := by simpa using hm
              omega
            · intro hm; exact absurd (hmean.symm.trans hm) (by simp)
        · have hmean : oversample_mean a r r2 = none := by
            simp [oversample_mean, hf, hd, hd2]
          have e4 := oversample_delay
            ({ a with ma := ma1, nextwake := (a.timer.waketime + a.rest_time) % U32,
                         timer.func := timer_func.analog_endstop_oversample_event }) r2 hd2
          rw [hinv, event_crossed a r r2 ma1 m1 hd hadd hge, e4]
          refine ⟨_, _, _, rfl, ?_, ?_, ?_⟩
          · intro m hm; rw [hmean] at hm; simp at hm
          · intro _ _ _; rfl
          · intro _; rfl
    · have hmean : oversample_mean a r r2 = none := by
        simp [oversample_mean, hf, hd]
      refine ⟨_, _, _, hinv.trans (event_delay a r r2 hd), ?_, ?_, ?_⟩
      · intro m hm; rw [hmean] at hm; simp at hm
      · intro _ _ _; rfl
      · intro _; rfl
  · have hinv : endstop_invoke a r r2 = analog_endstop_oversample_event a r := by
      unfold endstop_invoke; rw [hf]
    by_cases hd : r.sample_delay = 0
    · obtain ⟨ma1, m1, hadd, _⟩ := add_value_some a.ma r.value hidx
      have hmean : oversample_mean a r r2 = some m1 := by
        simp [oversample_mean, hf, hd, hadd]
      by_cases hm1 : m1 ≤ a.treshold
      · refine ⟨_, _, _, hinv.trans (oversample_below a r ma1 m1 hd hadd hm1), ?_, ?_, ?_⟩
        · intro m hm hgt
          rw [hmean] at hm
          have : m1 = m := by simpa using hm
          omega
        · intro _ _ _; rfl
        · intro hm; exact absurd (hmean.symm.trans hm) (by simp)
      · refine ⟨_, _, _, hinv.trans (oversample_above a r ma1 m1 hd hadd (by omega)),
          ?_, ?_, ?_⟩
        · intro m hm _
          rw [hmean] at hm
          have : m1 = m := by simpa using hm
          subst this
          exact ⟨rfl, [], r.value, by simp, rfl⟩
        · intro m hm hle
          rw [hmean] at hm
          have : m1 = m := by simpa using hm
          omega
        · intro hm; exact absurd (hmean.symm.trans hm) (by simp)
    · have hmean : oversample_mean a r r2 = none := by
        simp [oversample_mean, hf, hd]
      refine ⟨_, _, _, hinv.trans (oversample_delay a r hd), ?_, ?_, ?_⟩
      · intro m hm; rw [hmean] at hm; simp at hm
      · intro _ _ _; rfl
      · intro _; rfl

theorem run_cons_eq (a : analog_endstop) (rr : adc_result × adc_result)
    (rs : List (adc_result × adc_result)) :
    endstop_run a (rr :: rs) =
      match endstop_invoke a rr.1 rr.2 with
      | none => none
      | some (a1, tr, ret) =>
        if ret = SF_DONE then
          some (a1, [(a1, tr, ret)])
        else
          match endstop_run a1 rs with
          | none => none
          | some (a2, steps) => some (a2, (a1, tr, ret) :: steps) := by
  rw [endstop_run]

theorem run_append (rs more : List (adc_result × adc_result)) :
    ∀ (a aF : analog_endstop) (steps : List (analog_endstop × List Event × Nat)),
      endstop_run a rs = some (aF, steps) → (∀ st ∈ steps, st.2.2 = SF_RESCHEDULE) →
      endstop_run a (rs ++ more) = (endstop_run aF more).map (fun p => (p.1, steps ++ p.2)) := by
  induction rs with
  | nil =>
    intro a aF steps h _
    simp only [endstop_run, Option.some.injEq, Prod.mk.injEq] at h
    obtain ⟨rfl, rfl⟩ := h
    rw [List.nil_append]
    cases h2 : endstop_run a more <;> simp
  | cons rr rs ih =>
    intro a aF steps h hall
    unfold endstop_run at h
    cases hinv : endstop_invoke a rr.1 rr.2 with
    | none => rw [hinv] at h; simp at h
    | some q =>
      obtain ⟨a1, tr, ret⟩ := q
      rw [hinv] at h
      dsimp only at h
      by_cases hdone : ret = SF_DONE
      · rw [if_pos hdone] at h
        simp only [Option.some.injEq, Prod.mk.injEq] at h
        have := hall (a1, tr, ret) (by rw [← h.2]; simp)
        exact absurd (this.symm.trans hdone) sf_codes_differ
      · rw [if_neg hdone] at h
        cases hrun : endstop_run a1 rs with
        | none => rw [hrun] at h; simp at h
        | some q2 =>
          obtain ⟨a2, steps2⟩ := q2
          rw [hrun] at h
          simp only [Option.some.injEq, Prod.mk.injEq] at h
          obtain ⟨rfl, rfl⟩ := h
          have := ih a1 a2 steps2 hrun (fun st hst => hall st (List.mem_cons_of_mem _ hst))
          rw [List.cons_append, run_cons_eq, hinv]
          dsimp only
          rw [if_neg hdone, this]
          cases h2 : endstop_run a2 more <;> simp

theorem run_one (a a1 : analog_endstop) (rr : adc_result × adc_result) (tr : List Event)
    (ret : Nat) (h : endstop_invoke a rr.1 rr.2 = some (a1, tr, ret)) :
    endstop_run a [rr] = some (a1, [(a1, tr, ret)]) := by
  by_cases hdone : ret = SF_DONE
  · simp only [endstop_run, h, hdone, if_true]
  · simp only [endstop_run, h, hdone, if_false]

theorem run_retired (a a1 : analog_endstop) (rr : adc_result × adc_result)
    (post : List (adc_result × adc_result)) (tr : List Event)
    (h : endstop_invoke a rr.1 rr.2 = some (a1, tr, SF_DONE)) :
    endstop_run a (rr :: post) = some (a1, [(a1, tr, SF_DONE)]) := by
  simp only [endstop_run, h, if_true]

theorem run_events_append (xs ys : List (analog_endstop × List Event × Nat)) :
    run_events (xs ++ ys) = run_events xs ++ run_events ys := by
  simp [run_events]

theorem mean_iff_done (lookup args : Nat → Nat) (a a1 : analog_endstop) (r r2 : adc_result)
    (tr : List Event) (ret : Nat) (w : armed_by lookup args a)
    (e1 : endstop_invoke a r r2 = some (a1, tr, ret)) :
    ((∃ m, oversample_mean a r r2 = some m ∧ args 5 % 65536 < m) ↔ ret = SF_DONE) ∧
    (∀ m, oversample_mean a r r2 = some m → args 5 % 65536 < m →
      ∃ pre v, (∀ e ∈ pre, is_trigger e = false ∧ is_confirmation e = false) ∧
        tr = pre ++ [Event.filter_add timer_func.analog_endstop_oversample_event v m,
          Event.trsync_do_trigger (some (lookup (args 6))) (args 7 % 256)]) := by
  obtain ⟨b1, tr1, ret1, e2, m1, m2, m3⟩ := invoke_by_mean a r r2 w.index_in w.func_eq
  rw [e1] at e2
  simp only [Option.some.injEq, Prod.mk.injEq] at e2
  obtain ⟨rfl, rfl, rfl⟩ := e2
  have ht : a.treshold = args 5 % 65536 := w.treshold_eq
  refine ⟨⟨?_, ?_⟩, ?_⟩
  · rintro ⟨m, hm, hgt⟩
    exact (m1 m hm (by omega)).1
  · intro hdone
    cases hmean : oversample_mean a r r2 with
    | none => exact absurd ((m3 hmean).symm.trans hdone) sf_codes_differ
    | some m =>
      by_cases hle : m ≤ a.treshold
      · exact absurd ((m2 m hmean hle).symm.trans hdone) sf_codes_differ
      · exact ⟨m, rfl, by omega⟩
  · intro m hm hgt
    obtain ⟨_, pre, v, hp, htr⟩ := m1 m hm (by omega)
    refine ⟨pre, v, hp, ?_⟩
    rw [htr, w.ts_eq, w.reason_eq]
    rfl

/-! ## The analog endstop: claims -/

/-- C6: for an endstop armed by `command_analog_endstop_home` (8-bit
`oversample_count` not 0) and any driver answers `rs`, then `rr`, then `post`.
The run of the timer callbacks over `rs` is defined; an invocation of it that
returns `SF_DONE` calls `trsync_do_trigger` once, with the trigger-sync object
looked up from `args[6]` and the stored `trigger_reason`; one that does not
returns `SF_RESCHEDULE` and does not call it; only the last invocation can
return `SF_DONE`.  While the timer is still scheduled after `rs` (every
invocation returned `SF_RESCHEDULE`, so the trigger has not been called), the
next invocation, on the answers `rr`, is defined and returns `SF_DONE` exactly
when the oversampling evaluation it makes, `moving_average_add_value` on the
filter as the run left it and the value the driver delivers, yields a mean
strictly greater than the stored `treshold`.  In that case it calls
`trsync_do_trigger` once, with that object and reason, this is the only trigger
call of the whole run, and the run ends there whatever answers `post` follow;
in the other case it returns `SF_RESCHEDULE` and the run holds no trigger
call. -/
theorem endstop_triggers_once (lookup args : Nat → Nat) (e0 : analog_endstop)
    (rs post : List (adc_result × adc_result)) (rr : adc_result × adc_result)
    (harm : args 3 % 256 ≠ 0) :
    ∃ a steps, endstop_run (command_analog_endstop_home lookup args e0).1 rs
        = some (a, steps) ∧
      (∀ st ∈ steps,
        ((∃ v m, Event.filter_add timer_func.analog_endstop_oversample_event v m ∈ st.2.1 ∧
            args 5 % 65536 < m) ↔ st.2.2 = SF_DONE) ∧
        (st.2.2 = SF_DONE → st.2.1.filter is_trigger =
          [Event.trsync_do_trigger (some (lookup (args 6))) (args 7 % 256)]) ∧
        (st.2.2 ≠ SF_DONE → st.2.2 = SF_RESCHEDULE ∧ st.2.1.filter is_trigger = [])) ∧
      (∀ st ∈ steps.dropLast, st.2.2 = SF_RESCHEDULE) ∧
      ((∃ st ∈ steps, st.2.2 = SF_DONE) →
        (run_events steps).filter is_trigger =
          [Event.trsync_do_trigger (some (lookup (args 6))) (args 7 % 256)]) ∧
      ((∀ st ∈ steps, st.2.2 ≠ SF_DONE) → (run_events steps).filter is_trigger = []) ∧
      ((∀ st ∈ steps, st.2.2 = SF_RESCHEDULE) →
        ∃ a1 tr ret, endstop_invoke a rr.1 rr.2 = some (a1, tr, ret) ∧
          endstop_run (command_analog_endstop_home lookup args e0).1 (rs ++ [rr])
            = some (a1, steps ++ [(a1, tr, ret)]) ∧
          ((∃ m, oversample_mean a rr.1 rr.2 = some m ∧ args 5 % 65536 < m) ↔
            ret = SF_DONE) ∧
          (ret = SF_DONE →
            tr.filter is_trigger =
              [Event.trsync_do_trigger (some (lookup (args 6))) (args 7 % 256)] ∧
            (run_events (steps ++ [(a1, tr, ret)])).filter is_trigger =
              [Event.trsync_do_trigger (some (lookup (args 6))) (args 7 % 256)] ∧
            endstop_run (command_analog_endstop_home lookup args e0).1 (rs ++ rr :: post)
              = some (a1, steps ++ [(a1, tr, ret)])) ∧
          (ret ≠ SF_DONE →
            ret = SF_RESCHEDULE ∧ tr.filter is_trigger = [] ∧
            (run_events (steps ++ [(a1, tr, ret)])).filter is_trigger = [])) := by
  obtain ⟨a, steps, e, w, s, d⟩ := run_shape lookup args rs _ (home_armed lookup args e0 harm)
  obtain ⟨t1, t2⟩ := run_triggers _ _ _ steps s d
  refine ⟨a, steps, e, fun st hst => step_shape_facts _ _ _ _ _ (s st hst), d, t1, t2, ?_⟩
  intro hall
  obtain ⟨a1, tr, ret, e1, _, s1⟩ := invoke_shape lookup args a rr.1 rr.2 w
  have f := step_shape_facts _ _ _ _ _ s1
  have hnone : (run_events steps).filter is_trigger = [] :=
    t2 (fun st hst => by rw [hall st hst]; exact sf_codes_differ)
  have hlast : run_events [(a1, tr, ret)] = tr := by simp [run_events]
  have hrun1 : endstop_run (command_analog_endstop_home lookup args e0).1 (rs ++ [rr])
      = some (a1, steps ++ [(a1, tr, ret)]) := by
    rw [run_append rs [rr] _ a steps e hall, run_one a a1 rr tr ret e1]
    rfl
  refine ⟨a1, tr, ret, e1, hrun1, (mean_iff_done lookup args a a1 rr.1 rr.2 tr ret w e1).1,
    ?_, ?_⟩
  · intro hdone
    refine ⟨f.2.1 hdone, ?_, ?_⟩
    · rw [run_events_append, List.filter_append, hnone, hlast, List.nil_append]
      exact f.2.1 hdone
    · subst hdone
      rw [run_append rs (rr :: post) _ a steps e hall, run_retired a a1 rr post tr e1]
      rfl
  · intro hne
    refine ⟨(f.2.2 hne).1, (f.2.2 hne).2, ?_⟩
    rw [run_events_append, List.filter_append, hnone, hlast, List.nil_append]
    exact (f.2.2 hne).2

/-- Witness of C6: the endstop armed with treshold 10; 127 quiet invocations and
one whose raw value 65535 crosses all return `SF_RESCHEDULE`; the confirmation
sample of the next invocation lifts the mean to 1023, the trigger is called
once with object 106 and reason 3, and the run ends after 129 invocations
although one more pair of answers follows. -/
theorem endstop_triggers_once_witness :
    home_2 3 % 256 ≠ 0 ∧
    (endstop_run (command_analog_endstop_home lookup_100 home_2 used_endstop).1
        (List.replicate 127 quiet ++ [crossing])).map
      (fun p => (p.2.all (fun st => decide (st.2.2 = SF_RESCHEDULE)),
        oversample_mean p.1 confirm.1 confirm.2)) = some (true, some 1023) ∧
    (endstop_run (command_analog_endstop_home lookup_100 home_2 used_endstop).1
        ((List.replicate 127 quiet ++ [crossing]) ++ confirm :: [quiet])).map
      (fun p => (p.2.length, (run_events p.2).filter is_trigger)) =
        some (129, [Event.trsync_do_trigger (some 106) 3]) ∧
    ∃ a steps, endstop_run (command_analog_endstop_home lookup_100 home_2 used_endstop).1
        (List.replicate 127 quiet ++ [crossing])
        = some (a, steps) ∧
      (∀ st ∈ steps,
        ((∃ v m, Event.filter_add timer_func.analog_endstop_oversample_event v m ∈ st.2.1 ∧
            home_2 5 % 65536 < m) ↔ st.2.2 = SF_DONE) ∧
        (st.2.2 = SF_DONE → st.2.1.filter is_trigger =
          [Event.trsync_do_trigger (some (lookup_100 (home_2 6))) (home_2 7 % 256)]) ∧
        (st.2.2 ≠ SF_DONE → st.2.2 = SF_RESCHEDULE ∧ st.2.1.filter is_trigger = [])) ∧
      (∀ st ∈ steps.dropLast, st.2.2 = SF_RESCHEDULE) ∧
      ((∃ st ∈ steps, st.2.2 = SF_DONE) →
        (run_events steps).filter is_trigger =
          [Event.trsync_do_trigger (some (lookup_100 (home_2 6))) (home_2 7 % 256)]) ∧
      ((∀ st ∈ steps, st.2.2 ≠ SF_DONE) → (run_events steps).filter is_trigger = []) ∧
      ((∀ st ∈ steps, st.2.2 = SF_RESCHEDULE) →
        ∃ a1 tr ret, endstop_invoke a confirm.1 confirm.2 = some (a1, tr, ret) ∧
          endstop_run (command_analog_endstop_home lookup_100 home_2 used_endstop).1
              ((List.replicate 127 quiet ++ [crossing]) ++ [confirm])
            = some (a1, steps ++ [(a1, tr, ret)]) ∧
          ((∃ m, oversample_mean a confirm.1 confirm.2 = some m ∧ home_2 5 % 65536 < m) ↔
            ret = SF_DONE) ∧
          (ret = SF_DONE →
            tr.filter is_trigger =
              [Event.trsync_do_trigger (some (lookup_100 (home_2 6))) (home_2 7 % 256)] ∧
            (run_events (steps ++ [(a1, tr, ret)])).filter is_trigger =
              [Event.trsync_do_trigger (some (lookup_100 (home_2 6))) (home_2 7 % 256)] ∧
            endstop_run (command_analog_endstop_home lookup_100 home_2 used_endstop).1
                ((List.replicate 127 quiet ++ [crossing]) ++ confirm :: [quiet])
              = some (a1, steps ++ [(a1, tr, ret)])) ∧
          (ret ≠ SF_DONE →
            ret = SF_RESCHEDULE ∧ tr.filter is_trigger = [] ∧
            (run_events (steps ++ [(a1, tr, ret)])).filter is_trigger = [])) :=
  ⟨by decide,
    by set_option maxRecDepth 100000 in decide,
    by set_option maxRecDepth 100000 in decide,
    endstop_triggers_once lookup_100 home_2 used_endstop
      (List.replicate 127 quiet ++ [crossing]) [quiet] confirm (by decide)⟩

theorem split_after (q : Event → Bool) (a : List Event) :
    ∀ (b pre post : List Event) (t : Event), pre ++ t :: post = a ++ b →
      (∀ e ∈ a, q e = false) → q t = true →
      ∃ pre2, pre = a ++ pre2 ∧ pre2 ++ t :: post = b := by
  induction a with
  | nil => intro b pre post t h _ _; exact ⟨pre, rfl, by simpa using h⟩
  | cons x a ih =>
    intro b pre post t h ha ht
    cases pre with
    | nil =>
      simp only [List.nil_append, List.cons_append, List.cons.injEq] at h
      have := ha x (List.mem_cons_self x a)
      rw [← h.1, ht] at this
      exact absurd this (by simp)
    | cons y pre =>
      simp only [List.cons_append, List.cons.injEq] at h
      obtain ⟨pre2, h1, h2⟩ := ih b pre post t h.2
        (fun e he => ha e (List.mem_cons_of_mem x he)) ht
      exact ⟨pre2, by rw [h.1, h1]; rfl, h2⟩

theorem step_shape_confirmed (treshold : Nat) (ts : Option Nat) (reason : Nat)
    (tr : List Event) (ret : Nat) (h : step_shape treshold ts reason tr ret) :
    (ret = SF_RESCHEDULE → ∀ e ∈ tr, is_trigger e = false) ∧
      confirmed_before_trigger 1 tr := by
  cases h with
  | idle _ hp =>
    refine ⟨fun _ e he => (hp e he).1, ?_⟩
    intro pre t post hsplit ht
    have := (hp t (by rw [hsplit]; simp)).1
    rw [ht] at this
    exact absurd this (by simp)
  | below pre0 v m hp hm =>
    have hall : ∀ e ∈ pre0 ++ [Event.filter_add timer_func.analog_endstop_oversample_event v m],
        is_trigger e = false := by
      intro e he
      rcases List.mem_append.mp he with he | he
      · exact (hp e he).1
      · have : e = Event.filter_add timer_func.analog_endstop_oversample_event v m := by
          simpa using he
        rw [this]; rfl
    refine ⟨fun _ => hall, ?_⟩
    intro pre t post hsplit ht
    have := hall t (by rw [hsplit]; simp)
    rw [ht] at this
    exact absurd this (by simp)
  | fire pre0 v m hp hm =>
    refine ⟨fun h => absurd h.symm sf_codes_differ, ?_⟩
    intro pre t post hsplit ht
    have hall : ∀ e ∈ pre0 ++ [Event.filter_add timer_func.analog_endstop_oversample_event v m],
        is_trigger e = false := by
      intro e he
      rcases List.mem_append.mp he with he | he
      · exact (hp e he).1
      · have : e = Event.filter_add timer_func.analog_endstop_oversample_event v m := by
          simpa using he
        rw [this]; rfl
    have hs2 : pre ++ t :: post =
        (pre0 ++ [Event.filter_add timer_func.analog_endstop_oversample_event v m]) ++
          [Event.trsync_do_trigger ts reason] := by
      rw [← hsplit]; simp
    obtain ⟨pre2, h1, _⟩ := split_after is_trigger _ _ pre post t hs2 hall ht
    rw [h1]
    simp only [List.filter_append, List.length_append, List.filter_cons, is_confirmation,
      if_true, List.filter_nil, List.length_cons, List.length_nil]
    omega

theorem run_confirmed (treshold : Nat) (ts : Option Nat) (reason : Nat)
    (steps : List (analog_endstop × List Event × Nat)) :
    (∀ st ∈ steps, step_shape treshold ts reason st.2.1 st.2.2) →
    (∀ st ∈ steps.dropLast, st.2.2 = SF_RESCHEDULE) →
    confirmed_before_trigger 1 (run_events steps) := by
  induction steps with
  | nil =>
    intro _ _ pre t post hsplit _
    simp [run_events] at hsplit
  | cons st rest ih =>
    intro hs hd
    have f := step_shape_confirmed _ _ _ _ _ (hs st (List.mem_cons_self st rest))
    cases rest with
    | nil =>
      have e : run_events [st] = st.2.1 := by simp [run_events]
      rw [e]
      exact f.2
    | cons s2 rest2 =>
      have hst : st.2.2 = SF_RESCHEDULE := hd st (by simp [List.dropLast_cons₂])
      have hno := f.1 hst
      have hrec := ih (fun x hx => hs x (List.mem_cons_of_mem st hx))
        (fun x hx => hd x (by rw [List.dropLast_cons₂]; exact List.mem_cons_of_mem st hx))
      intro pre t post hsplit ht
      rw [run_events_cons] at hsplit
      obtain ⟨pre2, h1, h2⟩ := split_after is_trigger _ _ pre post t hsplit.symm hno ht
      have := hrec pre2 t post h2.symm ht
      rw [h1, List.filter_append, List.length_append]
      omega

/-- C9 as amended: for an endstop armed by `command_analog_endstop_home` with
any 8-bit `oversample_count` K >= 1 and any driver answers `rs`, then `rr`.
The run of the timer callbacks over `rs` is defined and every
`trsync_do_trigger` call of it comes after at least one confirmation sample
taken by `analog_endstop_oversample_event`.  K is not waited for: while the
timer is still scheduled after `rs`, every confirmation sample taken so far had
a mean at or below `treshold`, and when the oversampling evaluation of the next
invocation, `moving_average_add_value` on the filter as the run left it and the
value the driver delivers, yields a mean `m` above `treshold`, that invocation
passes the sample to the filter, calls `trsync_do_trigger` with the configured
object and reason right after it and returns `SF_DONE`, which ends the run. -/
theorem trigger_needs_one_confirmation (lookup args : Nat → Nat) (e0 : analog_endstop)
    (rs : List (adc_result × adc_result)) (rr : adc_result × adc_result)
    (harm : args 3 % 256 ≠ 0) :
    ∃ a steps, endstop_run (command_analog_endstop_home lookup args e0).1 rs
        = some (a, steps) ∧
      confirmed_before_trigger 1 (run_events steps) ∧
      ((∀ st ∈ steps, st.2.2 = SF_RESCHEDULE) →
        (∀ st ∈ steps, ∀ v m,
          Event.filter_add timer_func.analog_endstop_oversample_event v m ∈ st.2.1 →
            m ≤ args 5 % 65536) ∧
        ∀ m, oversample_mean a rr.1 rr.2 = some m → args 5 % 65536 < m →
          ∃ a1 pre v,
            endstop_run (command_analog_endstop_home lookup args e0).1 (rs ++ [rr])
              = some (a1, steps ++ [(a1,
                  pre ++ [Event.filter_add timer_func.analog_endstop_oversample_event v m,
                    Event.trsync_do_trigger (some (lookup (args 6))) (args 7 % 256)],
                  SF_DONE)]) ∧
            (∀ e ∈ pre, is_trigger e = false ∧ is_confirmation e = false)) := by
  obtain ⟨a, steps, e, w, s, d⟩ := run_shape lookup args rs _ (home_armed lookup args e0 harm)
  refine ⟨a, steps, e, run_confirmed _ _ _ steps s d, ?_⟩
  intro hall
  constructor
  · intro st hst v m hin
    by_contra hgt
    have f := (step_shape_facts _ _ _ _ _ (s st hst)).1.mp ⟨v, m, hin, by
      show args 5 % 65536 < m
      omega⟩
    exact absurd ((hall st hst).symm.trans f) sf_codes_differ
  · intro m hm hgt
    obtain ⟨a1, tr, ret, e1, _, _⟩ := invoke_shape lookup args a rr.1 rr.2 w
    obtain ⟨hiff, hfire⟩ := mean_iff_done lookup args a a1 rr.1 rr.2 tr ret w e1
    have hdone : ret = SF_DONE := hiff.mp ⟨m, hm, hgt⟩
    obtain ⟨pre, v, hp, htr⟩ := hfire m hm hgt
    subst hdone
    subst htr
    refine ⟨a1, pre, v, ?_, hp⟩
    rw [run_append rs [rr] _ a steps e hall, run_one a a1 rr _ _ e1]
    rfl

/-- Witness of the amended C9: the endstop armed with `oversample_count = 2` and
treshold 10; after 127 quiet invocations and a crossing the timer is still
scheduled and no confirmation sample has been taken; the first one lifts the
mean to 1023 and fires the trigger: the run ends with that sample passed to the
filter and the trigger call. -/
theorem trigger_needs_one_confirmation_witness :
    home_2 3 % 256 ≠ 0 ∧
    (endstop_run (command_analog_endstop_home lookup_100 home_2 used_endstop).1
        (List.replicate 127 quiet ++ [crossing])).map
      (fun p => (p.1.oversample_count,
        p.2.all (fun st => decide (st.2.2 = SF_RESCHEDULE)),
        ((run_events p.2).filter is_confirmation).length,
        oversample_mean p.1 confirm.1 confirm.2)) = some (2, true, 0, some 1023) ∧
    (endstop_run (command_analog_endstop_home lookup_100 home_2 used_endstop).1
        ((List.replicate 127 quiet ++ [crossing]) ++ [confirm])).map
      (fun p => (run_events p.2).drop 128) =
        some [Event.filter_add timer_func.analog_endstop_oversample_event 65535 1023,
          Event.trsync_do_trigger (some 106) 3] ∧
    ∃ a steps, endstop_run (command_analog_endstop_home lookup_100 home_2 used_endstop).1
        (List.replicate 127 quiet ++ [crossing])
        = some (a, steps) ∧
      confirmed_before_trigger 1 (run_events steps) ∧
      ((∀ st ∈ steps, st.2.2 = SF_RESCHEDULE) →
        (∀ st ∈ steps, ∀ v m,
          Event.filter_add timer_func.analog_endstop_oversample_event v m ∈ st.2.1 →
            m ≤ home_2 5 % 65536) ∧
        ∀ m, oversample_mean a confirm.1 confirm.2 = some m → home_2 5 % 65536 < m →
          ∃ a1 pre v,
            endstop_run (command_analog_endstop_home lookup_100 home_2 used_endstop).1
                ((List.replicate 127 quiet ++ [crossing]) ++ [confirm])
              = some (a1, steps ++ [(a1,
                  pre ++ [Event.filter_add timer_func.analog_endstop_oversample_event v m,
                    Event.trsync_do_trigger (some (lookup_100 (home_2 6))) (home_2 7 % 256)],
                  SF_DONE)]) ∧
            (∀ e ∈ pre, is_trigger e = false ∧ is_confirmation e = false)) :=
  ⟨by decide,
    by set_option maxRecDepth 100000 in decide,
    by set_option maxRecDepth 100000 in decide,
    trigger_needs_one_confirmation lookup_100 home_2 used_endstop
      (List.replicate 127 quiet ++ [crossing]) confirm (by decide)⟩

/-- C9 as stated fails: the endstop is armed with `oversample_count = 2` and
treshold 10; after 127 quiet samples a raw value 65535 crosses, the conversion
for the confirmation is awaited, and the first confirmation sample (65535
again, mean 1023) fires the trigger: the trigger call is the 130th call of the
run and only one confirmation sample precedes it. -/
theorem trigger_fires_before_oversample_count :
    (command_analog_endstop_home lookup_100 home_2 used_endstop).1.oversample_count = 2 ∧
    ∃ p, endstop_run (command_analog_endstop_home lookup_100 home_2 used_endstop).1
        (List.replicate 127 quiet ++ [crossing, confirm]) = some p ∧
      ¬ confirmed_before_trigger 2 (run_events p.2) := by
  refine ⟨by decide, ?_⟩
  have hmap : (endstop_run (command_analog_endstop_home lookup_100 home_2 used_endstop).1
      (List.replicate 127 quiet ++ [crossing, confirm])).map
        (fun p => ((run_events p.2).drop 129,
          (((run_events p.2).take 129).filter is_confirmation).length)) =
      some ([Event.trsync_do_trigger (some 106) 3], 1) := by
    set_option maxRecDepth 100000 in
    decide
  cases hrun : endstop_run (command_analog_endstop_home lookup_100 home_2 used_endstop).1
      (List.replicate 127 quiet ++ [crossing, confirm]) with
  | none => rw [hrun] at hmap; simp at hmap
  | some p =>
    rw [hrun] at hmap
    simp only [Option.map_some', Option.some.injEq, Prod.mk.injEq] at hmap
    refine ⟨p, rfl, ?_⟩
    intro hcon
    have hsplit : run_events p.2 =
        (run_events p.2).take 129 ++ Event.trsync_do_trigger (some 106) 3 :: [] := by
      rw [← hmap.1, List.take_append_drop]
    have := hcon _ _ _ hsplit rfl
    rw [hmap.2] at this
    omega

theorem feed_cons_some (ma maF : moving_average) (v : Nat) (vs outs : List Nat)
    (h : moving_average_feed ma (v :: vs) = some (maF, outs)) :
    ∃ ma1 m outs1, moving_average_add_value ma v = some (ma1, m) ∧
      moving_average_feed ma1 vs = some (maF, outs1) ∧ outs = m :: outs1 := by
  simp only [moving_average_feed] at h
  cases h1 : moving_average_add_value ma v with
  | none => rw [h1] at h; simp at h
  | some p =>
    obtain ⟨ma1, m⟩ := p
    rw [h1] at h
    simp only at h
    cases h2 : moving_average_feed ma1 vs with
    | none => rw [h2] at h; simp at h
    | some q =>
      obtain ⟨ma2, outs1⟩ := q
      rw [h2] at h
      simp only [Option.some.injEq, Prod.mk.injEq] at h
      exact ⟨ma1, m, outs1, rfl, by rw [← h.1]; exact h2, h.2.symm⟩

theorem oversample_run_below (rs : List (adc_result × adc_result)) :
    ∀ (a : analog_endstop) (maF : moving_average) (outs : List Nat),
      a.timer.func = timer_func.analog_endstop_oversample_event →
      a.timer.waketime < U32 →
      (∀ rr ∈ rs, rr.1.sample_delay = 0) →
      moving_average_feed a.ma (rs.map (fun rr => rr.1.value)) = some (maF, outs) →
      (∀ m ∈ outs, m ≤ a.treshold) →
      ∃ aF steps, endstop_run a rs = some (aF, steps) ∧ steps.length = rs.length ∧
        (∀ st ∈ steps, st.2.2 = SF_RESCHEDULE ∧ (∀ e ∈ st.2.1, is_trigger e = false) ∧
          st.1.timer.func = timer_func.analog_endstop_oversample_event) ∧
        (∀ i, i < rs.length → (steps[i]?).map (fun st => st.1.timer.waketime) =
          some ((a.timer.waketime + (i + 1) * a.sample_time) % U32)) ∧
        aF.timer.func = timer_func.analog_endstop_oversample_event ∧
        aF.timer.waketime = (a.timer.waketime + rs.length * a.sample_time) % U32 ∧
        aF.ma = maF := by
  induction rs with
  | nil =>
    intro a maF outs hf hw _ hfeed _
    simp only [List.map_nil, moving_average_feed, Option.some.injEq, Prod.mk.injEq] at hfeed
    refine ⟨a, [], rfl, rfl, by simp, by simp, hf, ?_, hfeed.1⟩
    simp only [List.length_nil, Nat.zero_mul, Nat.add_zero]
    exact (Nat.mod_eq_of_lt hw).symm
  | cons rr rs ih =>
    intro a maF outs hf hw hready hfeed hle
    rw [List.map_cons] at hfeed
    obtain ⟨ma1, m, outs1, hadd, hfeed1, houts⟩ := feed_cons_some _ _ _ _ _ hfeed
    have hd : rr.1.sample_delay = 0 := hready rr (List.mem_cons_self rr rs)
    have hm : m ≤ a.treshold := hle m (by rw [houts]; simp)
    have hstep := oversample_below a rr.1 ma1 m hd hadd hm
    obtain ⟨aF, steps, e2, l2, s2, w2, f2, wf2, m2⟩ :=
      ih { a with ma := ma1, timer.waketime := (a.timer.waketime + a.sample_time) % U32 }
        maF outs1 hf (Nat.mod_lt _ (by unfold U32; omega)) (fun x hx => hready x (List.mem_cons_of_mem rr hx)) hfeed1
        (fun x hx => hle x (by rw [houts]; exact List.mem_cons_of_mem m hx))
    refine ⟨aF,
      ({ a with ma := ma1, timer.waketime := (a.timer.waketime + a.sample_time) % U32 },
        [Event.filter_add timer_func.analog_endstop_oversample_event rr.1.value m],
        SF_RESCHEDULE) :: steps, ?_, ?_, ?_, ?_, f2, ?_, m2⟩
    · have hinv : endstop_invoke a rr.1 rr.2 = analog_endstop_oversample_event a rr.1 := by
        unfold endstop_invoke
        rw [hf]
      rw [hstep] at hinv
      simp only [endstop_run, hinv]
      rw [if_neg sf_codes_differ, e2]
    · simp [l2]
    · intro st hst
      rcases List.mem_cons.mp hst with rfl | hst
      · exact ⟨rfl, by simp [is_trigger], hf⟩
      · exact s2 st hst
    · intro i hi
      cases i with
      | zero => simp
      | succ i =>
        have := w2 i (by simpa using hi)
        rw [List.getElem?_cons_succ, this]
        congr 1
        show ((a.timer.waketime + a.sample_time) % U32 + (i + 1) * a.sample_time) % U32 = _
        have e : (i + 1 + 1) * a.sample_time = a.sample_time + (i + 1) * a.sample_time := by
          ring
        rw [e]
        generalize (i + 1) * a.sample_time = k
        unfold U32
        omega
    · rw [wf2]
      show ((a.timer.waketime + a.sample_time) % U32 + rs.length * a.sample_time) % U32 = _
      have e : (rr :: rs).length * a.sample_time = a.sample_time + rs.length * a.sample_time := by
        rw [List.length_cons]; ring
      rw [e]
      generalize rs.length * a.sample_time = k
      unfold U32
      omega


/-- C5: take an endstop in the oversampling phase (the oversampling callback is
installed) and any run of K successful invocations (zero delay) whose filtered
means are all at or below `treshold`.  The run is defined, every invocation
makes no `trsync_do_trigger` call, returns `SF_RESCHEDULE` and leaves the
oversampling callback installed, and the i-th invocation leaves `waketime`
advanced by `i * sample_time` (modulo 2^32), so each one advances it by
`sample_time`. -/
theorem oversample_rejects_noise (a : analog_endstop) (rs : List (adc_result × adc_result))
    (maF : moving_average) (outs : List Nat)
    (hphase : a.timer.func = timer_func.analog_endstop_oversample_event)
    (hw : a.timer.waketime < 4294967296)
    (hready : ∀ rr ∈ rs, rr.1.sample_delay = 0)
    (hfeed : moving_average_feed a.ma (rs.map (fun rr => rr.1.value)) = some (maF, outs))
    (hle : ∀ m ∈ outs, m ≤ a.treshold) :
    ∃ aF steps, endstop_run a rs = some (aF, steps) ∧ steps.length = rs.length ∧
      (∀ st ∈ steps, st.2.2 = SF_RESCHEDULE ∧ (∀ e ∈ st.2.1, is_trigger e = false) ∧
        st.1.timer.func = timer_func.analog_endstop_oversample_event) ∧
      (∀ i, i < rs.length → (steps[i]?).map (fun st => st.1.timer.waketime) =
        some ((a.timer.waketime + (i + 1) * a.sample_time) % 4294967296)) ∧
      aF.timer.func = timer_func.analog_endstop_oversample_event ∧
      aF.timer.waketime = (a.timer.waketime + rs.length * a.sample_time) % 4294967296 := by
  obtain ⟨aF, steps, h1, h2, h3, h4, h5, h6, _⟩ :=
    oversample_run_below rs a maF outs hphase hw hready hfeed hle
  exact ⟨aF, steps, h1, h2, h3, h4, h5, h6⟩

/-- Witness of C5: an endstop in the oversampling phase with treshold 600 and a
filter that holds 128 samples of 500; three confirmation samples of 700 leave
the means at 501, 503 and 504. -/
theorem oversample_rejects_noise_witness :
    noisy_endstop.timer.func = timer_func.analog_endstop_oversample_event ∧
    (∀ m ∈ [501, 503, 504], m ≤ noisy_endstop.treshold) ∧
    ∃ aF steps, endstop_run noisy_endstop [noise, noise, noise] = some (aF, steps) ∧
      steps.length = [noise, noise, noise].length ∧
      (∀ st ∈ steps, st.2.2 = SF_RESCHEDULE ∧ (∀ e ∈ st.2.1, is_trigger e = false) ∧
        st.1.timer.func = timer_func.analog_endstop_oversample_event) ∧
      (∀ i, i < [noise, noise, noise].length →
        (steps[i]?).map (fun st => st.1.timer.waketime) =
          some ((noisy_endstop.timer.waketime + (i + 1) * noisy_endstop.sample_time)
            % 4294967296)) ∧
      aF.timer.func = timer_func.analog_endstop_oversample_event ∧
      aF.timer.waketime = (noisy_endstop.timer.waketime +
        [noise, noise, noise].length * noisy_endstop.sample_time) % 4294967296 :=
  ⟨rfl, by decide, oversample_rejects_noise noisy_endstop [noise, noise, noise]
    noisy_filter_after [501, 503, 504] rfl (by decide) (by decide) rfl (by decide)⟩

/-! ## The moving-average filter: well-formedness -/

theorem ma_wf_next_call (ma : moving_average) (h : ma_wf ma) (v : Nat) (hv : v < 65536) :
    (ma.count = 128 → ma.buffer ma.index.toNat ≤ ma.sum) ∧
      ma.sum - (if ma.count = 128 then ma.buffer ma.index.toNat else 0) + v < 4294967296 := by
  have h1 := h.index_nonneg
  have h2 := h.index_lt
  have hs := ma_wf_sum_le ma h
  have hcl := h.count_le
  have hcn := h.count_nonneg
  have hle : ma.sum ≤ 128 * 65535 := by
    have : ma.count.toNat ≤ 128 := by omega
    nlinarith
  constructor
  · intro hc
    rw [h.sum_eq]
    exact Finset.single_le_sum (f := ma.buffer) (fun _ _ => Nat.zero_le _)
      (Finset.mem_range.mpr (by omega))
  · split_ifs with hc
    · have hct : ma.count.toNat = 128 := by omega
      have hupd := sum_range_update_lt ma.buffer 128 ma.index.toNat v (by omega)
      have hsum := h.sum_eq
      rw [hct] at hsum
      have hnew : ∑ j in Finset.range 128, Function.update ma.buffer ma.index.toNat v j
          ≤ 128 * 65535 := by
        apply sum_range_le
        intro j hj
        by_cases hji : j = ma.index.toNat
        · rw [hji, Function.update_same]; omega
        · rw [Function.update_noteq hji]
          have := h.cell_lt j (by omega)
          omega
      omega
    · have : ma.count.toNat ≤ 127 := by omega
      have : ma.sum ≤ 127 * 65535 := by nlinarith
      omega

/-- C19: after `moving_average_init` and any number of
`moving_average_add_value` calls with 16-bit samples (all of them defined),
`0 <= index < 128`, `0 <= count <= 128`, `index = count` while `count < 128`, and
`sum <= 65535 * count`.  Consequently, for the next call with any 16-bit value:
the buffer access is in bounds (the call is defined); when the oldest value is
subtracted it is at most `sum`, so the subtraction does not wrap; the sum after
the addition is below 2^32, so the addition does not wrap; and `sum >> 7` is at
most 65535, so the cast to 16 bits keeps it. -/
theorem filter_stays_well_formed (ma0 : moving_average) (samples : List Nat)
    (h16 : ∀ x ∈ samples, x < 65536) :
    ∃ ma outs, moving_average_feed (moving_average_init ma0) samples = some (ma, outs) ∧
      0 ≤ ma.index ∧ ma.index < 128 ∧ 0 ≤ ma.count ∧ ma.count ≤ 128 ∧
      (ma.count < 128 → ma.index = ma.count) ∧
      (ma.sum : Int) ≤ 65535 * ma.count ∧
      (∀ v, v < 65536 →
        (∃ p, moving_average_add_value ma v = some p) ∧
        (ma.count = 128 → ma.buffer ma.index.toNat ≤ ma.sum) ∧
        ma.sum - (if ma.count = 128 then ma.buffer ma.index.toNat else 0) + v
          < 4294967296) ∧
      ma.sum >>> 7 ≤ 65535 ∧ (ma.sum >>> 7) % 65536 = ma.sum >>> 7 := by
  obtain ⟨ma, outs, e, w⟩ := feed_wf samples (moving_average_init ma0) (ma_wf_init ma0) h16
  have hs := ma_wf_sum_le ma w
  have hcl := w.count_le
  have hcn := w.count_nonneg
  have hshift : ma.sum >>> 7 ≤ 65535 := by
    rw [Nat.shiftRight_eq_div_pow]
    have : ma.count.toNat ≤ 128 := by omega
    have : ma.sum ≤ 128 * 65535 := by nlinarith
    norm_num
    omega
  refine ⟨ma, outs, e, w.index_nonneg, w.index_lt, hcn, hcl, w.index_eq, ?_, ?_, hshift,
    Nat.mod_eq_of_lt (by omega)⟩
  · have e1 : ((ma.count.toNat : Nat) : Int) = ma.count := Int.toNat_of_nonneg hcn
    have : ((ma.sum : Nat) : Int) ≤ ((ma.count.toNat * 65535 : Nat) : Int) := by
      exact_mod_cast hs
    push_cast at this
    rw [e1] at this
    linarith
  · intro v hv
    obtain ⟨ma1, out, hadd, _⟩ := ma_wf_add_value ma v w hv
    obtain ⟨n1, n2⟩ := ma_wf_next_call ma w v hv
    exact ⟨⟨_, hadd⟩, n1, n2⟩

/-- Witness of C19: the samples 0, 1, ..., 129 fed to a reset filter. -/
theorem filter_stays_well_formed_witness :
    (∀ x ∈ List.range 130, x < 65536) ∧
    ∃ ma outs, moving_average_feed (moving_average_init used_endstop.ma) (List.range 130)
        = some (ma, outs) ∧
      0 ≤ ma.index ∧ ma.index < 128 ∧ 0 ≤ ma.count ∧ ma.count ≤ 128 ∧
      (ma.count < 128 → ma.index = ma.count) ∧
      (ma.sum : Int) ≤ 65535 * ma.count ∧
      (∀ v, v < 65536 →
        (∃ p, moving_average_add_value ma v = some p) ∧
        (ma.count = 128 → ma.buffer ma.index.toNat ≤ ma.sum) ∧
        ma.sum - (if ma.count = 128 then ma.buffer ma.index.toNat else 0) + v
          < 4294967296) ∧
      ma.sum >>> 7 ≤ 65535 ∧ (ma.sum >>> 7) % 65536 = ma.sum >>> 7 :=
  ⟨fun x hx => by have := List.mem_range.mp hx; omega,
    filter_stays_well_formed used_endstop.ma (List.range 130)
      (fun x hx => by have := List.mem_range.mp hx; omega)⟩

/-! ## The analog-input sampler: task, shutdown and the state invariant -/

/-- C12, the code at `sample_count = 255`: the sampler that
`command_query_analog_in` armed with `sample_count = 255` and that took 255
ready samples holds a result (`state = sample_count = 255`); `analog_in_task`
reports it and its `state++` on the 8-bit field leaves `state = 0`, not
`sample_count + 1 = 256`. -/
theorem task_at_255_wraps_state :
    (analog_in_run (command_query_analog_in query_255 stale_sampler).1
      (ready (List.replicate 255 0))).1.state = 255 ∧
    (analog_in_run (command_query_analog_in query_255 stale_sampler).1
      (ready (List.replicate 255 0))).1.sample_count = 255 ∧
    ((analog_in_task true
      [some (analog_in_run (command_query_analog_in query_255 stale_sampler).1
        (ready (List.replicate 255 0))).1]).1.map (Option.map (fun a => a.state))) =
      [some 0] := by
  set_option maxRecDepth 100000 in
  decide

theorem task_body_ready (oid : Nat) (a : analog_in) (h : a.state = a.sample_count) :
    analog_in_task_body oid a =
      ({ a with state := (a.sample_count + 1) % 256 },
        [Event.sendf_analog_in_state oid a.next_begin_time a.value]) := by
  unfold analog_in_task_body
  rw [if_neg (by simp [h]), if_neg (by simp [h]), h]
  rfl

theorem task_body_other (oid : Nat) (a : analog_in) (h : a.state ≠ a.sample_count) :
    analog_in_task_body oid a = (a, []) := by
  unfold analog_in_task_body
  rw [if_pos h]

theorem task_body_settled (oid oid2 : Nat) (a : analog_in) :
    (analog_in_task_body oid2 (analog_in_task_body oid a).1).2 = [] := by
  by_cases h : a.state = a.sample_count
  · rw [task_body_ready oid a h, task_body_other]
    show (a.sample_count + 1) % 256 ≠ a.sample_count
    omega
  · rw [task_body_other oid a h, task_body_other oid2 a h]

theorem task_twice_silent (objs : List (Option analog_in)) (p2 : Bool) :
    (analog_in_task p2 (analog_in_task true objs).1).2 = [] := by
  cases p2 with
  | false => simp [analog_in_task]
  | true =>
    apply List.eq_nil_iff_forall_not_mem.mpr
    intro e he
    simp only [analog_in_task, Bool.not_true] at he
    rw [if_neg (by simp), if_neg (by simp)] at he
    obtain ⟨_, a2, hg, hin⟩ := foreach_oid_events _ _ 0 e he
    rw [foreach_oid_get] at hg
    simp only [Nat.sub_zero, Nat.zero_add] at hg
    cases hobj : objs[e.1]? with
    | none => rw [hobj] at hg; simp at hg
    | some o =>
      rw [hobj] at hg
      cases o with
      | none => simp at hg
      | some a =>
        simp only [Option.map_some', Option.some.injEq] at hg
        rw [← hg, task_body_settled] at hin
        simp at hin

/-- The reporting task on a table of samplers, when its wake signal is pending.
For the sampler `a` of object id `oid`: if `state = sample_count`, the calls made
for it are exactly one `analog_in_state` report carrying `oid`, its
`next_begin_time` and its `value`, and only `state` changes, to
`(sample_count + 1) mod 256` (which is `sample_count + 1` up to
`sample_count = 254`); otherwise no call is made for it and it is not modified.
A second run right after the first makes no call at all. -/
theorem task_reports_ready_samplers (objs : List (Option analog_in)) (oid : Nat)
    (a : analog_in) (p2 : Bool) (hlook : objs[oid]? = some (some a)) :
    (a.state = a.sample_count →
      (analog_in_task true objs).2.filter (fun e => decide (e.1 = oid)) =
        [(oid, Event.sendf_analog_in_state oid a.next_begin_time a.value)] ∧
      (analog_in_task true objs).1[oid]? =
        some (some { a with state := (a.sample_count + 1) % 256 }) ∧
      (a.sample_count ≤ 254 → (a.sample_count + 1) % 256 = a.sample_count + 1)) ∧
    (a.state ≠ a.sample_count →
      (analog_in_task true objs).2.filter (fun e => decide (e.1 = oid)) = [] ∧
      (analog_in_task true objs).1[oid]? = some (some a)) ∧
    (analog_in_task true objs).1[oid]?.map
        (Option.map (fun x => (x.value, x.next_begin_time))) =
      some (some (a.value, a.next_begin_time)) ∧
    (analog_in_task p2 (analog_in_task true objs).1).2 = [] := by
  have htag := foreach_oid_tagged analog_in_task_body objs 0 oid a (Nat.zero_le _)
    (by simpa using hlook)
  have hget := foreach_oid_get analog_in_task_body objs 0 oid
  rw [hlook] at hget
  simp only [Option.map_some', Nat.zero_add] at hget
  have htask : analog_in_task true objs = foreach_oid analog_in_task_body 0 objs := by
    simp [analog_in_task]
  rw [htask] at *
  refine ⟨?_, ?_, ?_, ?_⟩
  · intro h
    rw [htag, hget, task_body_ready oid a h]
    exact ⟨rfl, rfl, fun h2 => by omega⟩
  · intro h
    rw [htag, hget, task_body_other oid a h]
    exact ⟨rfl, rfl⟩
  · rw [hget]
    by_cases h : a.state = a.sample_count
    · rw [task_body_ready oid a h]; rfl
    · rw [task_body_other oid a h]; rfl
  · rw [← htask]; exact task_twice_silent objs p2

/-- Witness of the task theorem: a table whose object 1 is a sampler holding an
unreported result of a 3-sample cycle. -/
theorem task_reports_ready_samplers_witness :
    ([none, some { stale_sampler with state := 3, sample_count := 3 }] :
        List (Option analog_in))[1]? =
      some (some { stale_sampler with state := 3, sample_count := 3 }) ∧
    (analog_in_task true
      [none, some { stale_sampler with state := 3, sample_count := 3 }]).2 =
      [(1, Event.sendf_analog_in_state 1 0 1)] ∧
    (analog_in_task true (analog_in_task true
      [none, some { stale_sampler with state := 3, sample_count := 3 }]).1).2 = [] :=
  ⟨rfl, by decide,
    (task_reports_ready_samplers
      [none, some { stale_sampler with state := 3, sample_count := 3 }] 1
      { stale_sampler with state := 3, sample_count := 3 } true rfl).2.2.2⟩

theorem event_state_ok (a : analog_in) (r : adc_result) (h : state_ok a) :
    state_ok (analog_in_event a r).1 := by
  obtain ⟨_, h⟩ := h
  refine ⟨Nat.zero_le _, ?_⟩
  unfold analog_in_event
  dsimp only
  split_ifs <;> simp_all [U8] <;> omega

theorem task_body_state_ok (oid : Nat) (a : analog_in) (h : state_ok a) :
    state_ok (analog_in_task_body oid a).1 := by
  obtain ⟨_, h⟩ := h
  refine ⟨Nat.zero_le _, ?_⟩
  unfold analog_in_task_body
  dsimp only
  split_ifs
  · exact h
  · show (a.state + 1) % U8 ≤ a.sample_count + 1
    have := Nat.mod_le (a.state + 1) U8
    omega

theorem shutdown_body_state_ok (oid : Nat) (a : analog_in) (h : state_ok a) :
    state_ok (analog_in_shutdown_body oid a).1 := by
  obtain ⟨_, h⟩ := h
  refine ⟨Nat.zero_le _, ?_⟩
  unfold analog_in_shutdown_body
  dsimp only
  split_ifs
  · exact Nat.mod_le _ _
  · exact h

theorem foreach_oid_all (body : Nat → analog_in → analog_in × List Event)
    (P : analog_in → Prop) (hbody : ∀ oid a, P a → P (body oid a).1)
    (objs : List (Option analog_in)) :
    ∀ start : Nat, (∀ a, some a ∈ objs → P a) →
      ∀ a, some a ∈ (foreach_oid body start objs).1 → P a := by
  induction objs with
  | nil => intro _ _ a ha; simp [foreach_oid] at ha
  | cons o rest ih =>
    intro start h a ha
    have hrest : ∀ x, some x ∈ rest → P x := fun x hx => h x (List.mem_cons_of_mem o hx)
    cases o with
    | none =>
      simp only [foreach_oid, List.mem_cons] at ha
      rcases ha with ha | ha
      · simp at ha
      · exact ih (start + 1) hrest a ha
    | some a0 =>
      simp only [foreach_oid, List.mem_cons, Option.some.injEq] at ha
      rcases ha with ha | ha
      · rw [ha]; exact hbody start a0 (h a0 (List.mem_cons_self _ _))
      · exact ih (start + 1) hrest a ha

/-- C13: `0 <= state <= sample_count + 1` holds for the sampler
`command_config_analog_in` creates and for the one `command_query_analog_in`
leaves, whatever the arguments (so for every 8-bit `sample_count`), and when it
holds for every sampler of a table it still holds for every sampler after a
timer callback `analog_in_event` on any of them, after `analog_in_task` and
after `analog_in_shutdown`. -/
theorem sampler_state_invariant (objs : List (Option analog_in))
    (hobjs : ∀ a, some a ∈ objs → state_ok a) :
    (∀ args, state_ok (command_config_analog_in args)) ∧
    (∀ args a, state_ok (command_query_analog_in args a).1) ∧
    (∀ a r, some a ∈ objs → state_ok (analog_in_event a r).1) ∧
    (∀ pending a, some a ∈ (analog_in_task pending objs).1 → state_ok a) ∧
    (∀ a, some a ∈ (analog_in_shutdown objs).1 → state_ok a) := by
  refine ⟨?_, ?_, ?_, ?_, ?_⟩
  · intro args
    simp [state_ok, command_config_analog_in]
  · intro args a
    refine ⟨Nat.zero_le _, ?_⟩
    have : (args 3 % U8 + 1) % U8 ≤ args 3 % U8 + 1 := Nat.mod_le _ _
    unfold command_query_analog_in
    dsimp only
    split_ifs <;> exact this
  · intro a r ha
    exact event_state_ok a r (hobjs a ha)
  · intro pending a ha
    cases pending with
    | false =>
      simp only [analog_in_task, Bool.not_false, if_true] at ha
      exact hobjs a ha
    | true =>
      simp only [analog_in_task, Bool.not_true] at ha
      rw [if_neg (by simp)] at ha
      exact foreach_oid_all _ state_ok task_body_state_ok objs 0 hobjs a ha
  · intro a ha
    exact foreach_oid_all _ state_ok shutdown_body_state_ok objs 0 hobjs a ha

/-- Witness of C13: a table with a freshly configured sampler and one armed with
`sample_count = 255`, whose state is 0. -/
theorem sampler_state_invariant_witness :
    (∀ a, some a ∈ [some (command_config_analog_in query_3), none,
        some (command_query_analog_in query_255 stale_sampler).1] → state_ok a) ∧
    (∀ pending a, some a ∈ (analog_in_task pending
        [some (command_config_analog_in query_3), none,
          some (command_query_analog_in query_255 stale_sampler).1]).1 → state_ok a) ∧
    (∀ a, some a ∈ (analog_in_shutdown
        [some (command_config_analog_in query_3), none,
          some (command_query_analog_in query_255 stale_sampler).1]).1 → state_ok a) :=
  have h : ∀ a, some a ∈ [some (command_config_analog_in query_3), none,
      some (command_query_analog_in query_255 stale_sampler).1] → state_ok a := by
    intro a ha
    simp only [List.mem_cons, Option.some.injEq, List.mem_singleton, List.not_mem_nil,
      or_false] at ha
    rcases ha with ha | ha | ha
    · rw [ha]; simp [state_ok, command_config_analog_in]
    · simp at ha
    · rw [ha]; unfold state_ok; decide
  ⟨h, (sampler_state_invariant _ h).2.2.2.1, (sampler_state_invariant _ h).2.2.2.2⟩

/-- C14, the code at `sample_count = 255`: `analog_in_shutdown` stores
`state = (255 + 1) mod 256 = 0` into the 8-bit field, not the idle value
`sample_count + 1`; the other effects are as stated (`next_begin_time` advanced
by `rest_time`, `waketime` set to it, timer added). -/
theorem shutdown_at_255_wraps_state :
    (analog_in_shutdown [some sampler_255]).1 =
      [some { sampler_255 with state := 0, next_begin_time := 1050,
                               timer.waketime := 1050 }] ∧
    (analog_in_shutdown [some sampler_255]).2 =
      [(0, Event.gpio_adc_cancel_sample 3), (0, Event.sched_add_timer)] ∧
    sampler_255.sample_count + 1 = 256 := by
  decide

/-- The shutdown handler on a table of samplers.  For the sampler `a` of object
id `oid`: if `sample_count` is not 0, `state` becomes `(sample_count + 1) mod 256`
(which is `sample_count + 1` up to `sample_count = 254`), `next_begin_time`
advances by `rest_time` modulo 2^32, `waketime` is set to the new
`next_begin_time`, nothing else changes, and the calls made for it are
`gpio_adc_cancel_sample` on its pin and `sched_add_timer`; if `sample_count` is
0 the only call is `gpio_adc_cancel_sample` and the sampler is not modified. -/
theorem shutdown_rearms_active_samplers (objs : List (Option analog_in)) (oid : Nat)
    (a : analog_in) (hlook : objs[oid]? = some (some a)) :
    (a.sample_count ≠ 0 →
      (analog_in_shutdown objs).1[oid]? =
        some (some { a with state := (a.sample_count + 1) % 256,
                            next_begin_time := (a.next_begin_time + a.rest_time) % 4294967296,
                            timer.waketime :=
                              (a.next_begin_time + a.rest_time) % 4294967296 }) ∧
      (analog_in_shutdown objs).2.filter (fun e => decide (e.1 = oid)) =
        [(oid, Event.gpio_adc_cancel_sample a.pin), (oid, Event.sched_add_timer)] ∧
      (a.sample_count ≤ 254 → (a.sample_count + 1) % 256 = a.sample_count + 1)) ∧
    (a.sample_count = 0 →
      (analog_in_shutdown objs).1[oid]? = some (some a) ∧
      (analog_in_shutdown objs).2.filter (fun e => decide (e.1 = oid)) =
        [(oid, Event.gpio_adc_cancel_sample a.pin)]) := by
  have htag := foreach_oid_tagged analog_in_shutdown_body objs 0 oid a (Nat.zero_le _)
    (by simpa using hlook)
  have hget := foreach_oid_get analog_in_shutdown_body objs 0 oid
  rw [hlook] at hget
  simp only [Option.map_some', Nat.zero_add] at hget
  unfold analog_in_shutdown
  rw [htag, hget]
  constructor
  · intro h
    have hb : analog_in_shutdown_body oid a =
        ({ a with state := (a.sample_count + 1) % 256,
                  next_begin_time := (a.next_begin_time + a.rest_time) % 4294967296,
                  timer.waketime := (a.next_begin_time + a.rest_time) % 4294967296 },
          [Event.gpio_adc_cancel_sample a.pin, Event.sched_add_timer]) := by
      unfold analog_in_shutdown_body
      dsimp only
      rw [if_pos h]
      rfl
    rw [hb]
    exact ⟨rfl, rfl, fun h2 => by omega⟩
  · intro h
    rw [shutdown_body_disabled oid a h]
    exact ⟨rfl, rfl⟩

/-- Witness of the shutdown theorem: the sampler of object 1 is active with
`sample_count = 3`. -/
theorem shutdown_rearms_active_samplers_witness :
    ([none, some { stale_sampler with state := 2, sample_count := 3 }] :
        List (Option analog_in))[1]? =
      some (some { stale_sampler with state := 2, sample_count := 3 }) ∧
    (analog_in_shutdown
      [none, some { stale_sampler with state := 2, sample_count := 3 }]).2.filter
        (fun e => decide (e.1 = 1)) =
      [(1, Event.gpio_adc_cancel_sample 3), (1, Event.sched_add_timer)] :=
  ⟨rfl, ((shutdown_rearms_active_samplers
    [none, some { stale_sampler with state := 2, sample_count := 3 }] 1
    { stale_sampler with state := 2, sample_count := 3 } rfl).1 (by decide)).2.1⟩

/-! ## The analog-input sampler: cycle timing -/

theorem event_completes_iff (a : analog_in) (r : adc_result) :
    completes (analog_in_event a r).2.1 = true ↔
      (r.sample_delay = 0 ∧
        (analog_in_event a r).1.sample_count ≤ (analog_in_event a r).1.state) := by
  unfold analog_in_event completes
  dsimp only
  split_ifs <;> simp_all

theorem event_done_times (a : analog_in) (r : adc_result)
    (h : completes (analog_in_event a r).2.1 = true) :
    Event.sched_wake_task ∈ (analog_in_event a r).2.1 ∧
      (analog_in_event a r).1.next_begin_time = (a.next_begin_time + a.rest_time) % U32 ∧
      (analog_in_event a r).1.timer.waketime = (a.next_begin_time + a.rest_time) % U32 := by
  have hw : Event.sched_wake_task ∈ (analog_in_event a r).2.1 := by
    simpa [completes] using h
  refine ⟨hw, ?_⟩
  unfold analog_in_event at hw ⊢
  dsimp only at hw ⊢
  split_ifs at hw ⊢ <;> simp_all

theorem event_going_times (a : analog_in) (r : adc_result)
    (h : completes (analog_in_event a r).2.1 = false) :
    (analog_in_event a r).1.next_begin_time = a.next_begin_time ∧
      (r.sample_delay = 0 →
        (analog_in_event a r).1.timer.waketime = (a.timer.waketime + a.sample_time) % U32) := by
  have hw : Event.sched_wake_task ∉ (analog_in_event a r).2.1 := by
    simpa [completes] using h
  unfold analog_in_event at hw ⊢
  dsimp only at hw ⊢
  split_ifs at hw ⊢ <;> simp_all

theorem event_frame_times (a : analog_in) (r : adc_result) :
    (analog_in_event a r).1.rest_time = a.rest_time ∧
      (analog_in_event a r).1.sample_time = a.sample_time := by
  unfold analog_in_event
  dsimp only
  split_ifs <;> simp

theorem run_begin_time (rs : List adc_result) :
    ∀ a : analog_in,
      (analog_in_run a rs).1.rest_time = a.rest_time ∧
      (analog_in_run a rs).1.sample_time = a.sample_time ∧
      (((analog_in_run a rs).2.filter (fun st => completes st.2.1)).length = 0 →
        (analog_in_run a rs).1.next_begin_time = a.next_begin_time) ∧
      (1 ≤ ((analog_in_run a rs).2.filter (fun st => completes st.2.1)).length →
        (analog_in_run a rs).1.next_begin_time =
          (a.next_begin_time +
            ((analog_in_run a rs).2.filter (fun st => completes st.2.1)).length * a.rest_time)
            % U32) := by
  induction rs with
  | nil => intro a; simp [analog_in_run]
  | cons r rs ih =>
    intro a
    rw [analog_in_run_cons]
    simp only [List.filter_cons]
    obtain ⟨f1, f2⟩ := event_frame_times a r
    obtain ⟨i1, i2, i3, i4⟩ := ih (analog_in_event a r).1
    generalize hk : ((analog_in_run (analog_in_event a r).1 rs).2.filter
      (fun st => completes st.2.1)).length = k at i3 i4 ⊢
    refine ⟨by rw [i1, f1], by rw [i2, f2], ?_, ?_⟩
    · cases hc : completes (analog_in_event a r).2.1 with
      | true => simp
      | false =>
        simp only [Bool.false_eq_true, if_false, hk]
        intro h0
        rw [i3 h0, (event_going_times a r hc).1]
    · cases hc : completes (analog_in_event a r).2.1 with
      | true =>
        simp only [if_true, List.length_cons, hk]
        intro _
        obtain ⟨_, d1, _⟩ := event_done_times a r hc
        by_cases h0 : k = 0
        · rw [i3 h0, d1, h0]
          simp
        · rw [i4 (by omega), d1, f1]
          have e : (k + 1) * a.rest_time = k * a.rest_time + a.rest_time := by ring
          rw [e]
          generalize k * a.rest_time = q
          unfold U32
          omega
      | false =>
        simp only [Bool.false_eq_true, if_false, hk]
        intro h1
        rw [i4 h1, (event_going_times a r hc).1, f1]

/-- C18: a sampler is armed by `command_query_analog_in` with start tick
`c = args[1]`, `sample_ticks = args[2]` and `rest_ticks = args[4]`, and its timer
callback then runs any number of times with any driver answers.  An invocation
wakes the reporting task exactly when it is a successful sample that brings
`state` up to `sample_count` (it completes a cycle).  The invocation that
completes the k-th cycle of the run sets `next_begin_time` and the timer's
`waketime` to `(c + k * rest_ticks) mod 2^32`, whatever `sample_ticks` and the
delays were.  A successful sample that does not complete a cycle advances
`waketime` by `sample_ticks` modulo 2^32 and leaves `next_begin_time` as it
was. -/
theorem cycle_begin_times (args : Nat → Nat) (a0 : analog_in) (rs : List adc_result)
    (r : adc_result) :
    (completes (analog_in_event
        (analog_in_run (command_query_analog_in args a0).1 rs).1 r).2.1 = true ↔
      (r.sample_delay = 0 ∧
        (analog_in_event (analog_in_run (command_query_analog_in args a0).1 rs).1 r).1.sample_count
          ≤ (analog_in_event
              (analog_in_run (command_query_analog_in args a0).1 rs).1 r).1.state)) ∧
    (completes (analog_in_event
        (analog_in_run (command_query_analog_in args a0).1 rs).1 r).2.1 = true →
      Event.sched_wake_task ∈ (analog_in_event
        (analog_in_run (command_query_analog_in args a0).1 rs).1 r).2.1 ∧
      (analog_in_event
        (analog_in_run (command_query_analog_in args a0).1 rs).1 r).1.next_begin_time =
        (args 1 + (((analog_in_run (command_query_analog_in args a0).1 rs).2.filter
          (fun st => completes st.2.1)).length + 1) * args 4) % 4294967296 ∧
      (analog_in_event
        (analog_in_run (command_query_analog_in args a0).1 rs).1 r).1.timer.waketime =
        (args 1 + (((analog_in_run (command_query_analog_in args a0).1 rs).2.filter
          (fun st => completes st.2.1)).length + 1) * args 4) % 4294967296) ∧
    (completes (analog_in_event
        (analog_in_run (command_query_analog_in args a0).1 rs).1 r).2.1 = false →
      r.sample_delay = 0 →
      (analog_in_event
        (analog_in_run (command_query_analog_in args a0).1 rs).1 r).1.timer.waketime =
        ((analog_in_run (command_query_analog_in args a0).1 rs).1.timer.waketime + args 2)
          % 4294967296 ∧
      (analog_in_event
        (analog_in_run (command_query_analog_in args a0).1 rs).1 r).1.next_begin_time =
        (analog_in_run (command_query_analog_in args a0).1 rs).1.next_begin_time) := by
  have hq : (command_query_analog_in args a0).1.next_begin_time = args 1 ∧
      (command_query_analog_in args a0).1.rest_time = args 4 ∧
      (command_query_analog_in args a0).1.sample_time = args 2 := by
    unfold command_query_analog_in
    dsimp only
    split_ifs <;> exact ⟨rfl, rfl, rfl⟩
  obtain ⟨q1, q2, q3⟩ := hq
  obtain ⟨i1, i2, i3, i4⟩ := run_begin_time rs (command_query_analog_in args a0).1
  rw [q2] at i1
  rw [q3] at i2
  rw [q1] at i3
  rw [q1, q2] at i4
  generalize hk : ((analog_in_run (command_query_analog_in args a0).1 rs).2.filter
    (fun st => completes st.2.1)).length = k at i3 i4 ⊢
  refine ⟨event_completes_iff _ r, ?_, ?_⟩
  · intro hc
    obtain ⟨d0, d1, d2⟩ := event_done_times _ r hc
    have key : ((analog_in_run (command_query_analog_in args a0).1 rs).1.next_begin_time +
        (analog_in_run (command_query_analog_in args a0).1 rs).1.rest_time) % U32 =
        (args 1 + (k + 1) * args 4) % 4294967296 := by
      rw [i1]
      have e : (k + 1) * args 4 = k * args 4 + args 4 := by ring
      rw [e]
      by_cases h0 : k = 0
      · rw [i3 h0, h0]
        simp [U32]
      · rw [i4 (by omega)]
        generalize k * args 4 = q
        unfold U32
        omega
    rw [d1, d2, key]
    exact ⟨d0, rfl, rfl⟩
  · intro hc hd
    obtain ⟨g1, g2⟩ := event_going_times _ r hc
    rw [g1, g2 hd, i2]
    exact ⟨rfl, rfl⟩

/-! ## The endstop: home command and timer callbacks -/

/-- C11: whatever the endstop's prior state and whether its timer was armed,
`command_analog_endstop_home` with an 8-bit `oversample_count` of 0 de-schedules
the timer and does not add it again, clears the trigger-sync binding
(`ts = none`), and leaves `treshold`, `rest_time`, `trigger_reason`, `nextwake`
and the filter as they were; the only fields it assigns are `timer.waketime`,
`sample_time`, `oversample_count` and `ts`. -/
theorem endstop_home_zero_disarms (lookup args : Nat → Nat) (e : analog_endstop) (b : Bool)
    (hz : args 3 % 256 = 0) :
    timer_armed b (command_analog_endstop_home lookup args e).2 = false ∧
    Event.sched_add_timer ∉ (command_analog_endstop_home lookup args e).2 ∧
    (command_analog_endstop_home lookup args e).2 =
      [Event.sched_del_timer, Event.store field.timer_waketime,
        Event.store field.sample_time, Event.store field.oversample_count,
        Event.store field.ts] ∧
    (command_analog_endstop_home lookup args e).1.ts = none ∧
    (command_analog_endstop_home lookup args e).1.treshold = e.treshold ∧
    (command_analog_endstop_home lookup args e).1.rest_time = e.rest_time ∧
    (command_analog_endstop_home lookup args e).1.trigger_reason = e.trigger_reason ∧
    (command_analog_endstop_home lookup args e).1.nextwake = e.nextwake ∧
    (command_analog_endstop_home lookup args e).1.ma = e.ma ∧
    (command_analog_endstop_home lookup args e).1.timer.func = e.timer.func ∧
    (command_analog_endstop_home lookup args e).1.oversample_count = 0 := by
  have h : args 3 % U8 = 0 := hz
  unfold command_analog_endstop_home
  dsimp only
  rw [if_pos h]
  simp [timer_armed, h]

/-- Witness of C11: an armed endstop in the oversampling phase, with a used
filter, is disabled. -/
theorem endstop_home_zero_disarms_witness :
    home_0 3 % 256 = 0 ∧
    timer_armed true (command_analog_endstop_home lookup_100 home_0 noisy_endstop).2 = false ∧
    Event.sched_add_timer ∉ (command_analog_endstop_home lookup_100 home_0 noisy_endstop).2 ∧
    (command_analog_endstop_home lookup_100 home_0 noisy_endstop).2 =
      [Event.sched_del_timer, Event.store field.timer_waketime,
        Event.store field.sample_time, Event.store field.oversample_count,
        Event.store field.ts] ∧
    (command_analog_endstop_home lookup_100 home_0 noisy_endstop).1.ts = none ∧
    (command_analog_endstop_home lookup_100 home_0 noisy_endstop).1.treshold =
      noisy_endstop.treshold ∧
    (command_analog_endstop_home lookup_100 home_0 noisy_endstop).1.rest_time =
      noisy_endstop.rest_time ∧
    (command_analog_endstop_home lookup_100 home_0 noisy_endstop).1.trigger_reason =
      noisy_endstop.trigger_reason ∧
    (command_analog_endstop_home lookup_100 home_0 noisy_endstop).1.nextwake =
      noisy_endstop.nextwake ∧
    (command_analog_endstop_home lookup_100 home_0 noisy_endstop).1.ma = noisy_endstop.ma ∧
    (command_analog_endstop_home lookup_100 home_0 noisy_endstop).1.timer.func =
      noisy_endstop.timer.func ∧
    (command_analog_endstop_home lookup_100 home_0 noisy_endstop).1.oversample_count = 0 :=
  ⟨by decide, endstop_home_zero_disarms lookup_100 home_0 noisy_endstop true (by decide)⟩

/-- C15: when `gpio_adc_sample` reports a non-zero delay `d`, each of the three
timer callbacks returns `SF_RESCHEDULE`, makes no call (no shutdown, no task
wake, no trigger, no sample passed to the filter) and returns its object with
`timer.waketime` advanced by `d` modulo 2^32 and every other field, the
installed callback included, as it was. -/
theorem busy_adc_only_delays (a : analog_in) (e : analog_endstop) (r r2 : adc_result)
    (hd : r.sample_delay ≠ 0) :
    analog_in_event a r =
      ({ a with timer.waketime := (a.timer.waketime + r.sample_delay) % 4294967296 }, [],
        SF_RESCHEDULE) ∧
    analog_endstop_event e r r2 =
      some ({ e with timer.waketime := (e.timer.waketime + r.sample_delay) % 4294967296 }, [],
        SF_RESCHEDULE) ∧
    analog_endstop_oversample_event e r =
      some ({ e with timer.waketime := (e.timer.waketime + r.sample_delay) % 4294967296 }, [],
        SF_RESCHEDULE) := by
  refine ⟨?_, event_delay e r r2 hd, oversample_delay e r hd⟩
  unfold analog_in_event
  rw [if_pos hd]
  rfl

/-- Witness of C15: a delay of 20 ticks reported to a sampler in mid-cycle and
to an endstop with a full filter. -/
theorem busy_adc_only_delays_witness :
    crossing.2.sample_delay ≠ 0 ∧
    analog_in_event sampler_255 crossing.2 =
      ({ sampler_255 with timer.waketime :=
          (sampler_255.timer.waketime + crossing.2.sample_delay) % 4294967296 }, [],
        SF_RESCHEDULE) ∧
    analog_endstop_event noisy_endstop crossing.2 quiet.1 =
      some ({ noisy_endstop with timer.waketime :=
          (noisy_endstop.timer.waketime + crossing.2.sample_delay) % 4294967296 }, [],
        SF_RESCHEDULE) ∧
    analog_endstop_oversample_event noisy_endstop crossing.2 =
      some ({ noisy_endstop with timer.waketime :=
          (noisy_endstop.timer.waketime + crossing.2.sample_delay) % 4294967296 }, [],
        SF_RESCHEDULE) :=
  ⟨by decide, busy_adc_only_delays sampler_255 noisy_endstop crossing.2 quiet.1 (by decide)⟩

/-- C16 as stated fails: the treshold argument is 32 bits wide (`treshold=%u`)
but the field `treshold` is a `uint16_t`; with the argument 65546 the stored
treshold is 10. -/
theorem home_truncates_treshold :
    home_wide 3 % 256 ≠ 0 ∧ home_wide 5 = 65546 ∧ home_wide 5 < 4294967296 ∧
    (command_analog_endstop_home lookup_100 home_wide used_endstop).1.treshold = 10 ∧
    (command_analog_endstop_home lookup_100 home_wide used_endstop).1.treshold ≠
      home_wide 5 := by
  decide

/-- C16 as amended: for every argument vector whose 8-bit `oversample_count` is
not 0, after `command_analog_endstop_home` the endstop's `waketime`,
`sample_time` and `rest_time` equal the `clock`, `sample_ticks` and `rest_ticks`
arguments, `treshold` equals the treshold argument modulo 2^16 (the argument
itself when it is below 65536), `trigger_reason` equals the 8-bit
`trigger_reason` argument, `ts` is the object `trsync_oid_lookup` returns for
`trsync_oid`, the filter is empty (`index = count = sum = 0`), the installed
callback is `analog_endstop_event`, and the timer is armed: the last call is
`sched_add_timer`. -/
theorem home_arms_endstop (lookup args : Nat → Nat) (e : analog_endstop) (b : Bool)
    (harm : args 3 % 256 ≠ 0) :
    (command_analog_endstop_home lookup args e).1.timer.waketime = args 1 ∧
    (command_analog_endstop_home lookup args e).1.sample_time = args 2 ∧
    (command_analog_endstop_home lookup args e).1.rest_time = args 4 ∧
    (command_analog_endstop_home lookup args e).1.treshold = args 5 % 65536 ∧
    (args 5 < 65536 → (command_analog_endstop_home lookup args e).1.treshold = args 5) ∧
    (command_analog_endstop_home lookup args e).1.trigger_reason = args 7 % 256 ∧
    (args 7 < 256 → (command_analog_endstop_home lookup args e).1.trigger_reason = args 7) ∧
    (command_analog_endstop_home lookup args e).1.ts = some (lookup (args 6)) ∧
    (command_analog_endstop_home lookup args e).1.oversample_count = args 3 % 256 ∧
    (command_analog_endstop_home lookup args e).1.ma.index = 0 ∧
    (command_analog_endstop_home lookup args e).1.ma.count = 0 ∧
    (command_analog_endstop_home lookup args e).1.ma.sum = 0 ∧
    (command_analog_endstop_home lookup args e).1.timer.func =
      timer_func.analog_endstop_event ∧
    timer_armed b (command_analog_endstop_home lookup args e).2 = true ∧
    (command_analog_endstop_home lookup args e).2 =
      [Event.sched_del_timer, Event.store field.timer_waketime,
        Event.store field.sample_time, Event.store field.oversample_count,
        Event.store field.rest_time, Event.store field.timer_func,
        Event.store field.treshold, Event.store field.ts,
        Event.store field.trigger_reason, Event.store field.ma, Event.sched_add_timer] := by
  have h : ¬ args 3 % U8 = 0 := harm
  unfold command_analog_endstop_home
  dsimp only
  rw [if_neg h]
  refine ⟨rfl, rfl, rfl, rfl, fun h5 => Nat.mod_eq_of_lt h5, rfl,
    fun h7 => Nat.mod_eq_of_lt h7, rfl, rfl, rfl, rfl, rfl, rfl, ?_, ?_⟩
  · simp [timer_armed]
  · simp

/-- Witness of the amended C16: the home command with treshold 65546 on an
endstop in use. -/
theorem home_arms_endstop_witness :
    home_wide 3 % 256 ≠ 0 ∧
    (command_analog_endstop_home lookup_100 home_wide used_endstop).1.treshold =
      home_wide 5 % 65536 ∧
    (command_analog_endstop_home lookup_100 home_wide used_endstop).1.ma.count = 0 ∧
    timer_armed false (command_analog_endstop_home lookup_100 home_wide used_endstop).2 =
      true :=
  ⟨by decide,
    (home_arms_endstop lookup_100 home_wide used_endstop false (by decide)).2.2.2.1,
    (home_arms_endstop lookup_100 home_wide used_endstop false (by decide)).2.2.2.2.2.2.2.2.2.2.1,
    (home_arms_endstop lookup_100 home_wide used_endstop false
      (by decide)).2.2.2.2.2.2.2.2.2.2.2.2.2.1⟩

theorem oversample_no_sampling_add (a : analog_endstop) (r : adc_result)
    (a4 : analog_endstop) (tr : List Event) (ret : Nat)
    (h : analog_endstop_oversample_event a r = some (a4, tr, ret)) :
    tr.filter is_sampling_add = [] := by
  unfold analog_endstop_oversample_event at h
  by_cases hd : r.sample_delay ≠ 0
  · rw [if_pos hd] at h
    simp only [Option.some.injEq, Prod.mk.injEq] at h
    rw [← h.2.1]
    simp
  · rw [if_neg hd] at h
    cases hadd : moving_average_add_value a.ma r.value with
    | none => rw [hadd] at h; simp at h
    | some p =>
      rw [hadd] at h
      dsimp only at h
      split_ifs at h
      · simp only [Option.some.injEq, Prod.mk.injEq] at h
        rw [← h.2.1]
        simp [is_sampling_add]
      · simp only [Option.some.injEq, Prod.mk.injEq] at h
        rw [← h.2.1]
        simp [is_sampling_add]

theorem oversample_defined (a : analog_endstop) (r : adc_result) (h : index_ok a.ma) :
    ∃ p, analog_endstop_oversample_event a r = some p := by
  by_cases hd : r.sample_delay = 0
  · obtain ⟨ma1, m, hadd, _⟩ := add_value_some a.ma r.value h
    by_cases hm : m ≤ a.treshold
    · exact ⟨_, oversample_below a r ma1 m hd hadd hm⟩
    · exact ⟨_, oversample_above a r ma1 m hd hadd (by omega)⟩
  · exact ⟨_, oversample_delay a r hd⟩

/-- C17: on a successful (zero-delay) sample of `analog_endstop_event`, with raw
value `v`, `waketime` w and a filter whose index is in range, the value is
passed to the filter, which returns some mean `m`.  If `v < treshold` the
callback returns `SF_RESCHEDULE`, `waketime` becomes `w + rest_time` modulo 2^32
and nothing else but the filter changes (callback and `nextwake` are as before).
If `v >= treshold`, the object with the new filter, `nextwake = w + rest_time`
modulo 2^32 and the oversampling callback installed (`waketime` still w) is
handed to `analog_endstop_oversample_event`, and what that returns is returned.
In both cases the calls made hold exactly one sample passed to the filter by
`analog_endstop_event`, the value `v`. -/
theorem sampling_event_on_sample (a : analog_endstop) (r r2 : adc_result)
    (hd : r.sample_delay = 0) (hidx : index_ok a.ma) :
    ∃ ma1 m, moving_average_add_value a.ma r.value = some (ma1, m) ∧
      (r.value < a.treshold →
        analog_endstop_event a r r2 =
          some ({ a with ma := ma1,
                         timer.waketime := (a.timer.waketime + a.rest_time) % 4294967296 },
            [Event.filter_add timer_func.analog_endstop_event r.value m],
            SF_RESCHEDULE)) ∧
      (a.treshold ≤ r.value →
        analog_endstop_event a r r2 =
          (analog_endstop_oversample_event
            { a with ma := ma1,
                     nextwake := (a.timer.waketime + a.rest_time) % 4294967296,
                     timer.func := timer_func.analog_endstop_oversample_event } r2).map
            (fun p => (p.1,
              Event.filter_add timer_func.analog_endstop_event r.value m :: p.2.1, p.2.2))) ∧
      ∃ a4 tr ret, analog_endstop_event a r r2 = some (a4, tr, ret) ∧
        tr.filter is_sampling_add =
          [Event.filter_add timer_func.analog_endstop_event r.value m] := by
  obtain ⟨ma1, m, hadd, hidx1⟩ := add_value_some a.ma r.value hidx
  have hcross : a.treshold ≤ r.value →
      analog_endstop_event a r r2 =
        (analog_endstop_oversample_event
          { a with ma := ma1,
                   nextwake := (a.timer.waketime + a.rest_time) % 4294967296,
                   timer.func := timer_func.analog_endstop_oversample_event } r2).map
          (fun p => (p.1,
            Event.filter_add timer_func.analog_endstop_event r.value m :: p.2.1, p.2.2)) := by
    intro hge
    have h := event_crossed a r r2 ma1 m hd hadd hge
    unfold U32 at h
    rw [h]
    cases analog_endstop_oversample_event
        { a with ma := ma1,
                 nextwake := (a.timer.waketime + a.rest_time) % 4294967296,
                 timer.func := timer_func.analog_endstop_oversample_event } r2 with
    | none => rfl
    | some p => rfl
  refine ⟨ma1, m, hadd, fun hlt => event_below a r r2 ma1 m hd hadd hlt, hcross, ?_⟩
  by_cases hlt : r.value < a.treshold
  · exact ⟨_, _, _, event_below a r r2 ma1 m hd hadd hlt, by simp [is_sampling_add]⟩
  · have hge : a.treshold ≤ r.value := by omega
    rw [hcross hge]
    cases hov : analog_endstop_oversample_event
        { a with ma := ma1,
                 nextwake := (a.timer.waketime + a.rest_time) % 4294967296,
                 timer.func := timer_func.analog_endstop_oversample_event } r2 with
    | none =>
      obtain ⟨p, hp⟩ := oversample_defined
        { a with ma := ma1,
                 nextwake := (a.timer.waketime + a.rest_time) % 4294967296,
                 timer.func := timer_func.analog_endstop_oversample_event } r2 hidx1
      have hcon := hp.symm.trans hov
      simp at hcon
    | some p =>
      obtain ⟨a4, tr2, ret⟩ := p
      refine ⟨a4, Event.filter_add timer_func.analog_endstop_event r.value m :: tr2, ret,
        rfl, ?_⟩
      rw [List.filter_cons, oversample_no_sampling_add _ r2 a4 tr2 ret hov]
      simp [is_sampling_add]

/-- Witness of C17: the endstop with treshold 600 and a full filter reads the raw
value 65535; the conversion started for the oversampling callback is not ready. -/
theorem sampling_event_on_sample_witness :
    crossing.1.sample_delay = 0 ∧ index_ok noisy_endstop.ma ∧
    ∃ ma1 m, moving_average_add_value noisy_endstop.ma crossing.1.value = some (ma1, m) ∧
      (crossing.1.value < noisy_endstop.treshold →
        analog_endstop_event noisy_endstop crossing.1 crossing.2 =
          some ({ noisy_endstop with
                    ma := ma1,
                    timer.waketime :=
                      (noisy_endstop.timer.waketime + noisy_endstop.rest_time) % 4294967296 },
            [Event.filter_add timer_func.analog_endstop_event crossing.1.value m],
            SF_RESCHEDULE)) ∧
      (noisy_endstop.treshold ≤ crossing.1.value →
        analog_endstop_event noisy_endstop crossing.1 crossing.2 =
          (analog_endstop_oversample_event
            { noisy_endstop with
                ma := ma1,
                nextwake :=
                  (noisy_endstop.timer.waketime + noisy_endstop.rest_time) % 4294967296,
                timer.func := timer_func.analog_endstop_oversample_event } crossing.2).map
            (fun p => (p.1,
              Event.filter_add timer_func.analog_endstop_event crossing.1.value m :: p.2.1,
              p.2.2))) ∧
      ∃ a4 tr ret, analog_endstop_event noisy_endstop crossing.1 crossing.2 =
          some (a4, tr, ret) ∧
        tr.filter is_sampling_add =
          [Event.filter_add timer_func.analog_endstop_event crossing.1.value m] :=
  ⟨rfl, by unfold index_ok; decide,
    sampling_event_on_sample noisy_endstop crossing.1 crossing.2 rfl
      (by unfold index_ok; decide)⟩

/-! ## The endstop: warm-up of the filter -/

theorem add_value_count (ma : moving_average) (v : Nat) (h : index_ok ma) :
    ∃ ma1 out, moving_average_add_value ma v = some (ma1, out) ∧ index_ok ma1 ∧
      ma1.count = (if ma.count = 128 then 128 else ma.count + 1) ∧
      (ma1.count ≠ 128 → out = 0) := by
  obtain ⟨ma1, out, hadd, hidx⟩ := add_value_some ma v h
  refine ⟨ma1, out, hadd, hidx, ?_⟩
  unfold moving_average_add_value at hadd
  rw [if_pos ⟨h.1, by unfold BUFFER_SIZE; exact_mod_cast h.2⟩] at hadd
  dsimp only at hadd
  have hB : ((BUFFER_SIZE : Nat) : Int) = 128 := rfl
  rw [hB] at hadd
  by_cases hc : ma.count = 128
  · simp only [hc, if_true, Option.some.injEq, Prod.mk.injEq] at hadd
    rw [← hadd.1]
    simp [hc]
  · simp only [hc, if_false] at hadd
    by_cases hc1 : ma.count + 1 = 128
    · simp only [hc1, if_true, Option.some.injEq, Prod.mk.injEq] at hadd
      rw [← hadd.1]
      simp [hc, hc1]
    · simp only [hc1, if_false, Option.some.injEq, Prod.mk.injEq] at hadd
      rw [← hadd.1, ← hadd.2]
      simp [hc]

theorem fed_step_count (n : Nat) (c c1 : Int) (hc : c = ((min n 128 : Nat) : Int))
    (h1 : c1 = (if c = 128 then 128 else c + 1)) :
    c1 = ((min (n + 1) 128 : Nat) : Int) ∧ (c1 = 128 → 128 ≤ n + 1) := by
  subst hc
  subst h1
  split_ifs <;> omega

theorem oversample_fed (n : Nat) (a : analog_endstop) (r : adc_result)
    (h : fed_since_home n a) :
    ∃ a1 tr ret, analog_endstop_oversample_event a r = some (a1, tr, ret) ∧
      a1.timer.func = a.timer.func ∧
      a1.ma.count = ((min (n + (tr.filter is_filter_add).length) 128 : Nat) : Int) ∧
      index_ok a1.ma ∧
      (ret ≠ SF_DONE → ∀ e ∈ tr, is_trigger e = false) ∧
      fed_before_trigger 128 n tr := by
  by_cases hd : r.sample_delay = 0
  · obtain ⟨ma1, m, hadd, hidx, hcnt, hzero⟩ := add_value_count a.ma r.value h.index_in
    obtain ⟨k1, k2⟩ := fed_step_count n a.ma.count ma1.count h.count_eq hcnt
    by_cases hm : m ≤ a.treshold
    · refine ⟨_, _, _, oversample_below a r ma1 m hd hadd hm, rfl, ?_, hidx, ?_, ?_⟩
      · simpa [is_filter_add] using k1
      · intro _ e he
        have : e = Event.filter_add timer_func.analog_endstop_oversample_event r.value m := by
          simpa using he
        rw [this]; rfl
      · intro pre t post hsplit ht
        have hmem : t ∈ [Event.filter_add timer_func.analog_endstop_oversample_event
            r.value m] := by rw [hsplit]; simp
        have : t = Event.filter_add timer_func.analog_endstop_oversample_event r.value m := by
          simpa using hmem
        rw [this] at ht
        simp [is_trigger] at ht
    · have hgt : a.treshold < m := by omega
      have h128 : ma1.count = 128 := by
        by_contra hne
        have := hzero hne
        omega
      refine ⟨_, _, _, oversample_above a r ma1 m hd hadd hgt, rfl, ?_, hidx, ?_, ?_⟩
      · simpa [is_filter_add, is_trigger] using k1
      · intro hne
        exact absurd rfl hne
      · intro pre t post hsplit ht
        have hs2 : pre ++ t :: post =
            [Event.filter_add timer_func.analog_endstop_oversample_event r.value m] ++
              [Event.trsync_do_trigger a.ts a.trigger_reason] := by
          rw [← hsplit]; rfl
        obtain ⟨pre2, hp, _⟩ := split_after is_trigger _ _ pre post t hs2
          (by intro e he; simp at he; rw [he]; rfl) ht
        rw [hp]
        simp only [List.filter_append, List.length_append, List.filter_cons, is_filter_add,
          if_true, List.filter_nil, List.length_cons, List.length_nil]
        have := k2 h128
        omega
  · refine ⟨_, _, _, oversample_delay a r hd, rfl, ?_, h.index_in, ?_, ?_⟩
    · simpa using h.count_eq
    · intro _ e he; simp at he
    · intro pre t post hsplit _
      simp at hsplit

theorem fed_prepend (n : Nat) (e : Event) (tr : List Event) (he : is_trigger e = false)
    (hf : is_filter_add e = true) (h : fed_before_trigger 128 (n + 1) tr) :
    fed_before_trigger 128 n (e :: tr) := by
  intro pre t post hsplit ht
  have hs2 : pre ++ t :: post = [e] ++ tr := by rw [← hsplit]; rfl
  obtain ⟨pre2, hp, hrest⟩ := split_after is_trigger [e] tr pre post t hs2
    (by intro x hx; simp at hx; rw [hx]; exact he) ht
  have := h pre2 t post hrest.symm ht
  rw [hp]
  simp only [List.filter_append, List.length_append, List.filter_cons, hf, if_true,
    List.filter_nil, List.length_cons, List.length_nil]
  omega

theorem event_fed (n : Nat) (a : analog_endstop) (r r2 : adc_result)
    (h : fed_since_home n a) (hf : a.timer.func = timer_func.analog_endstop_event) :
    ∃ a1 tr ret, analog_endstop_event a r r2 = some (a1, tr, ret) ∧
      fed_since_home (n + (tr.filter is_filter_add).length) a1 ∧
      (ret ≠ SF_DONE → ∀ e ∈ tr, is_trigger e = false) ∧
      fed_before_trigger 128 n tr := by
  by_cases hd : r.sample_delay = 0
  · obtain ⟨ma1, m, hadd, hidx, hcnt, _⟩ := add_value_count a.ma r.value h.index_in
    obtain ⟨k1, _⟩ := fed_step_count n a.ma.count ma1.count h.count_eq hcnt
    by_cases hv : r.value < a.treshold
    · refine ⟨_, _, _, event_below a r r2 ma1 m hd hadd hv, ?_, ?_, ?_⟩
      · exact ⟨by simpa [is_filter_add] using k1, hidx, Or.inl hf⟩
      · intro _ e he
        have : e = Event.filter_add timer_func.analog_endstop_event r.value m := by
          simpa using he
        rw [this]; rfl
      · intro pre t post hsplit ht
        have hmem : t ∈ [Event.filter_add timer_func.analog_endstop_event r.value m] := by
          rw [hsplit]; simp
        have : t = Event.filter_add timer_func.analog_endstop_event r.value m := by
          simpa using hmem
        rw [this] at ht
        simp [is_trigger] at ht
    · have h3 : fed_since_home (n + 1)
          { a with ma := ma1, nextwake := (a.timer.waketime + a.rest_time) % U32,
                   timer.func := timer_func.analog_endstop_oversample_event } :=
        ⟨k1, hidx, Or.inr rfl⟩
      obtain ⟨a4, tr2, ret, e4, f4, c4, i4, t4, b4⟩ := oversample_fed (n + 1) _ r2 h3
      refine ⟨a4, [Event.filter_add timer_func.analog_endstop_event r.value m] ++ tr2, ret,
        ?_, ?_, ?_, ?_⟩
      · rw [event_crossed a r r2 ma1 m hd hadd (by omega), e4]
      · refine ⟨?_, i4, Or.inr (by rw [f4])⟩
        rw [c4]
        simp only [List.singleton_append, List.filter_cons, is_filter_add, if_true,
          List.length_cons]
        congr 2
        omega
      · intro hne e he
        rcases List.mem_append.mp he with he | he
        · have : e = Event.filter_add timer_func.analog_endstop_event r.value m := by
            simpa using he
          rw [this]; rfl
        · exact t4 hne e he
      · exact fed_prepend n _ tr2 rfl rfl b4
  · refine ⟨_, _, _, event_delay a r r2 hd, ?_, ?_, ?_⟩
    · exact ⟨by simpa using h.count_eq, h.index_in, Or.inl hf⟩
    · intro _ e he; simp at he
    · intro pre t post hsplit _
      simp at hsplit

theorem invoke_fed (n : Nat) (a : analog_endstop) (r r2 : adc_result)
    (h : fed_since_home n a) :
    ∃ a1 tr ret, endstop_invoke a r r2 = some (a1, tr, ret) ∧
      fed_since_home (n + (tr.filter is_filter_add).length) a1 ∧
      (ret ≠ SF_DONE → ∀ e ∈ tr, is_trigger e = false) ∧
      fed_before_trigger 128 n tr := by
  rcases h.func_eq with hf | hf
  · obtain ⟨a1, tr, ret, e, w, t, b⟩ := event_fed n a r r2 h hf
    exact ⟨a1, tr, ret, by simp only [endstop_invoke, hf, e], w, t, b⟩
  · obtain ⟨a1, tr, ret, e, f, c, i, t, b⟩ := oversample_fed n a r h
    exact ⟨a1, tr, ret, by simp only [endstop_invoke, hf, e],
      ⟨c, i, Or.inr (by rw [f]; exact hf)⟩, t, b⟩

theorem run_fed (rs : List (adc_result × adc_result)) :
    ∀ (n : Nat) (a : analog_endstop), fed_since_home n a →
      ∃ aF steps, endstop_run a rs = some (aF, steps) ∧
        fed_before_trigger 128 n (run_events steps) := by
  induction rs with
  | nil =>
    intro n a _
    refine ⟨a, [], rfl, ?_⟩
    intro pre t post hsplit _
    simp [run_events] at hsplit
  | cons rr rs ih =>
    intro n a h
    obtain ⟨a1, tr, ret, e, w, t, b⟩ := invoke_fed n a rr.1 rr.2 h
    by_cases hdone : ret = SF_DONE
    · refine ⟨a1, [(a1, tr, ret)], ?_, ?_⟩
      · simp only [endstop_run, e, hdone, if_true]
      · have e1 : run_events [(a1, tr, ret)] = tr := by simp [run_events]
        rw [e1]
        exact b
    · obtain ⟨aF, steps, e2, b2⟩ := ih _ a1 w
      refine ⟨aF, (a1, tr, ret) :: steps, ?_, ?_⟩
      · simp only [endstop_run, e, hdone, if_false, e2]
      · intro pre t0 post hsplit ht
        rw [run_events_cons] at hsplit
        obtain ⟨pre2, hp, hrest⟩ := split_after is_trigger tr (run_events steps) pre post t0
          hsplit.symm (t hdone) ht
        have := b2 pre2 t0 post hrest.symm ht
        rw [hp, List.filter_append, List.length_append]
        omega

/-- C20: after `command_analog_endstop_home` with an 8-bit `oversample_count`
that is not 0, every run of the endstop's timer callbacks, whatever the driver
answers and whatever the treshold, is defined, and every `trsync_do_trigger`
call of the run comes after at least 128 samples passed to the filter since the
home command. -/
theorem trigger_needs_full_filter (lookup args : Nat → Nat) (e0 : analog_endstop)
    (rs : List (adc_result × adc_result)) (harm : args 3 % 256 ≠ 0) :
    ∃ eF steps, endstop_run (command_analog_endstop_home lookup args e0).1 rs
        = some (eF, steps) ∧
      fed_before_trigger 128 0 (run_events steps) := by
  have h0 : fed_since_home 0 (command_analog_endstop_home lookup args e0).1 := by
    have harmed := home_armed lookup args e0 harm
    refine ⟨?_, harmed.index_in, harmed.func_eq⟩
    have h : ¬ args 3 % U8 = 0 := harm
    unfold command_analog_endstop_home
    dsimp only
    rw [if_neg h]
    rfl
  exact run_fed rs 0 _ h0

/-- Witness of C20: the endstop armed with treshold 10; 127 quiet invocations,
a crossing and a confirmation, so that the trigger call has 129 samples before
it. -/
theorem trigger_needs_full_filter_witness :
    home_2 3 % 256 ≠ 0 ∧
    ∃ eF steps, endstop_run (command_analog_endstop_home lookup_100 home_2 used_endstop).1
        (List.replicate 127 quiet ++ [crossing, confirm]) = some (eF, steps) ∧
      fed_before_trigger 128 0 (run_events steps) :=
  ⟨by decide, trigger_needs_full_filter lookup_100 home_2 used_endstop
    (List.replicate 127 quiet ++ [crossing, confirm]) (by decide)⟩

end Adccmds
